import Mathlib

/-!
Verification of the quant-iron state-vector simulator core.

Shallow embedding of src/src/components/operator.rs, src/src/circuit.rs and
src/src/components/measurement.rs.  Amplitudes (Rust Complex of f64) are
modelled as Lean complex numbers; machine indices (usize) as naturals.
Each definition carries a comment naming the Rust item it embeds.
-/

namespace QuantIron

/-- Error taxonomy, from src/errors.rs as used by the embedded code
(variants carrying only the payloads that the embedded functions build). -/
inductive Error where
  | InvalidNumberOfQubits (n : Nat)
  | InvalidQubitIndex (index : Nat) (num_qubits : Nat)
  | OverlappingControlAndTargetQubits (c : Nat) (t : Nat)
  | NonUnitaryMatrix
  deriving DecidableEq, Repr

/-- operator.rs line 17: threshold for the parallel CPU implementation. -/
def PARALLEL_THRESHOLD_NUM_QUBITS : Nat := 10

/-- operator.rs line 20: threshold for the OpenCL (GPU) implementation. -/
def OPENCL_THRESHOLD_NUM_QUBITS : Nat := 15

/-- Value of cfg!(feature = "gpu") in the default (non-gpu) build. -/
def gpuEnabled : Bool := false

/-- The State struct (components/state.rs, used by operator.rs):
a state vector of 2^num_qubits complex amplitudes. -/
structure State where
  state_vector : List ℂ
  num_qubits : Nat

/-- State::num_qubits accessor. -/
def State.numQubits (s : State) : Nat := s.num_qubits

/-- operator.rs lines 153-157: check_controls - all control qubits are 1
in the given basis-state index. -/
def check_controls (index : Nat) (control_qubits : List Nat) : Bool :=
  control_qubits.all (fun qubit => (index >>> qubit) &&& 1 == 1)

/-- operator.rs lines 193-206, the control-qubit loop of validate_qubits:
first control that is out of range or overlaps a target yields the error. -/
def checkControlsLoop (control_qubits target_qubits : List Nat) (num_qubits : Nat) :
    Except Error Unit :=
  match control_qubits with
  | [] => .ok ()
  | c :: rest =>
    if num_qubits ≤ c then .error (.InvalidQubitIndex c num_qubits)
    else if target_qubits.contains c then
      .error (.OverlappingControlAndTargetQubits c c)
    else checkControlsLoop rest target_qubits num_qubits

/-- operator.rs lines 211-217: the HashSet duplicate scan - first element
already seen (insertion order). The seen accumulator plays the HashSet. -/
def firstDupSeen (qs seen : List Nat) : Option Nat :=
  match qs with
  | [] => none
  | q :: rest => if seen.contains q then some q else firstDupSeen rest (q :: seen)

/-- operator.rs lines 220-226: the nested-loop duplicate scan - first element
with a duplicate occurring later in the list. -/
def firstDupNested (qs : List Nat) : Option Nat :=
  match qs with
  | [] => none
  | q :: rest => if rest.contains q then some q else firstDupNested rest

/-- operator.rs lines 172-231: validate_qubits. -/
def validate_qubits (state : State) (target_qubits control_qubits : List Nat)
    (expected_targets : Nat) : Except Error Unit :=
  if target_qubits.length ≠ expected_targets then
    .error (.InvalidNumberOfQubits target_qubits.length)
  else
    let num_qubits := state.num_qubits
    match target_qubits.find? (fun t => num_qubits ≤ t) with
    | some t => .error (.InvalidQubitIndex t num_qubits)
    | none =>
      match checkControlsLoop control_qubits target_qubits num_qubits with
      | .error e => .error e
      | .ok _ =>
        if 1 < expected_targets then
          if PARALLEL_THRESHOLD_NUM_QUBITS ≤ num_qubits then
            match firstDupSeen target_qubits [] with
            | some q => .error (.InvalidQubitIndex q num_qubits)
            | none => .ok ()
          else
            match firstDupNested target_qubits with
            | some q => .error (.InvalidQubitIndex q num_qubits)
            | none => .ok ()
        else .ok ()

/-! Characterization lemmas for the validator. -/

theorem contains_eq_decide_mem (l : List Nat) (a : Nat) :
    l.contains a = decide (a ∈ l) := by
  simp [List.contains]

theorem checkControlsLoop_ok_iff (cs ts : List Nat) (n : Nat) :
    checkControlsLoop cs ts n = .ok () ↔ ∀ c ∈ cs, c < n ∧ c ∉ ts := by
  induction cs with
  | nil => simp [checkControlsLoop]
  | cons c rest ih =>
    simp only [checkControlsLoop, contains_eq_decide_mem]
    by_cases h1 : n ≤ c
    · simp only [h1, if_true]
      constructor
      · intro h
        exact absurd h (by simp)
      · intro h
        exact absurd (h c (by simp)).1 (by omega)
    · by_cases h2 : c ∈ ts
      · simp only [h1, if_false, h2, decide_True, if_true]
        constructor
        · intro h
          exact absurd h (by simp)
        · intro h
          exact absurd h2 (h c (by simp)).2
      · simp only [h1, if_false, h2, decide_False, Bool.false_eq_true, if_false, ih]
        constructor
        · intro h c' hc'
          rcases List.mem_cons.mp hc' with rfl | hmem
          · exact ⟨by omega, h2⟩
          · exact h c' hmem
        · intro h c' hc'
          exact h c' (List.mem_cons_of_mem _ hc')

theorem firstDupNested_eq_none_iff (qs : List Nat) :
    firstDupNested qs = none ↔ qs.Nodup := by
  induction qs with
  | nil => simp [firstDupNested]
  | cons q rest ih =>
    simp only [firstDupNested, List.nodup_cons, contains_eq_decide_mem]
    by_cases h : q ∈ rest
    · simp [h]
    · simp [h, ih]

theorem firstDupSeen_eq_none_iff (qs seen : List Nat) :
    firstDupSeen qs seen = none ↔ qs.Nodup ∧ ∀ q ∈ qs, q ∉ seen := by
  induction qs generalizing seen with
  | nil => simp [firstDupSeen]
  | cons q rest ih =>
    simp only [firstDupSeen, List.nodup_cons, contains_eq_decide_mem]
    by_cases h : q ∈ seen
    · simp only [h, decide_True, if_true]
      constructor
      · intro hh
        exact absurd hh (by simp)
      · intro hh
        exact absurd h (hh.2 q (by simp))
    · simp only [h, decide_False, Bool.false_eq_true, if_false, ih]
      constructor
      · rintro ⟨hnd, hnot⟩
        refine ⟨⟨fun hmem => absurd (List.mem_cons_self q seen) (hnot q hmem), hnd⟩,
          fun q' hq' => ?_⟩
        rcases List.mem_cons.mp hq' with rfl | hmem'
        · exact h
        · intro hs
          exact (hnot q' hmem') (List.mem_cons_of_mem _ hs)
      · rintro ⟨⟨hqn, hnd⟩, hnot⟩
        refine ⟨hnd, fun q' hq' hmem => ?_⟩
        rcases List.mem_cons.mp hmem with rfl | hmem'
        · exact hqn hq'
        · exact hnot q' (List.mem_cons_of_mem _ hq') hmem'

theorem firstDupNested_mem (qs : List Nat) (q : Nat) (h : firstDupNested qs = some q) :
    q ∈ qs := by
  induction qs with
  | nil => simp [firstDupNested] at h
  | cons x rest ih =>
    simp only [firstDupNested] at h
    by_cases hx : rest.contains x
    · simp only [hx, if_true, Option.some.injEq] at h
      simp [h]
    · simp only [hx, Bool.false_eq_true, if_false] at h
      exact List.mem_cons_of_mem _ (ih h)

theorem firstDupSeen_mem (qs seen : List Nat) (q : Nat) (h : firstDupSeen qs seen = some q) :
    q ∈ qs ∨ q ∈ seen := by
  induction qs generalizing seen with
  | nil => simp [firstDupSeen] at h
  | cons x rest ih =>
    simp only [firstDupSeen] at h
    by_cases hx : seen.contains x
    · simp only [hx, if_true, Option.some.injEq] at h
      simp [h]
    · simp only [hx, Bool.false_eq_true, if_false] at h
      rcases ih (x :: seen) h with hq | hq
      · exact Or.inl (List.mem_cons_of_mem _ hq)
      · rcases List.mem_cons.mp hq with rfl | hq'
        · exact Or.inl (by simp)
        · exact Or.inr hq'

theorem validate_qubits_ok_iff (st : State) (ts cs : List Nat) (E : Nat) :
    validate_qubits st ts cs E = .ok () ↔
      ts.length = E ∧ (∀ t ∈ ts, t < st.num_qubits) ∧
      (∀ c ∈ cs, c < st.num_qubits ∧ c ∉ ts) ∧ (1 < E → ts.Nodup) := by
  unfold validate_qubits
  by_cases hlen : ts.length = E
  · simp only [hlen, ne_eq, not_true_eq_false, if_false, true_and]
    cases hfind : ts.find? (fun t => st.num_qubits ≤ t) with
    | some t =>
      have ht := List.find?_some hfind
      have htm := List.mem_of_find?_eq_some hfind
      simp only [decide_eq_true_eq] at ht
      constructor
      · intro h
        exact absurd h (by simp)
      · intro h
        exact absurd (h.1 t htm) (by omega)
    | none =>
      have hall : ∀ t ∈ ts, t < st.num_qubits := by
        intro t htm
        have := List.find?_eq_none.mp hfind t htm
        simp only [decide_eq_true_eq] at this
        omega
      cases hccl : checkControlsLoop cs ts st.num_qubits with
      | error e =>
        constructor
        · intro h
          exact absurd h (by simp)
        · intro h
          have := (checkControlsLoop_ok_iff cs ts st.num_qubits).mpr h.2.1
          rw [hccl] at this
          exact absurd this (by simp)
      | ok u =>
        cases u
        have hcs := (checkControlsLoop_ok_iff cs ts st.num_qubits).mp hccl
        by_cases hE : 1 < E
        · rw [if_pos hE]
          by_cases hpar : PARALLEL_THRESHOLD_NUM_QUBITS ≤ st.num_qubits
          · rw [if_pos hpar]
            cases hdup : firstDupSeen ts [] with
            | some q =>
              constructor
              · intro h
                exact absurd h (by simp)
              · intro h
                have := (firstDupSeen_eq_none_iff ts []).mpr ⟨h.2.2 hE, by simp⟩
                rw [hdup] at this
                exact absurd this (by simp)
            | none =>
              have hnd := ((firstDupSeen_eq_none_iff ts []).mp hdup).1
              exact ⟨fun _ => ⟨hall, hcs, fun _ => hnd⟩, fun _ => rfl⟩
          · rw [if_neg hpar]
            cases hdup : firstDupNested ts with
            | some q =>
              constructor
              · intro h
                exact absurd h (by simp)
              · intro h
                have := (firstDupNested_eq_none_iff ts).mpr (h.2.2 hE)
                rw [hdup] at this
                exact absurd this (by simp)
            | none =>
              have hnd := (firstDupNested_eq_none_iff ts).mp hdup
              exact ⟨fun _ => ⟨hall, hcs, fun _ => hnd⟩, fun _ => rfl⟩
        · rw [if_neg hE]
          exact ⟨fun _ => ⟨hall, hcs, fun hc => absurd hc hE⟩, fun _ => rfl⟩
  · simp only [ne_eq, hlen, not_false_eq_true, if_true]
    constructor
    · intro h
      exact absurd h (by simp)
    · intro h
      exact h.1.elim

theorem validate_qubits_len_ne (st : State) (ts cs : List Nat) (E : Nat)
    (h : ts.length ≠ E) :
    validate_qubits st ts cs E = .error (.InvalidNumberOfQubits ts.length) := by
  simp [validate_qubits, h]

theorem validate_qubits_target_oob (st : State) (ts cs : List Nat) (E : Nat)
    (hlen : ts.length = E) (h : ∃ t ∈ ts, st.num_qubits ≤ t) :
    ∃ t ∈ ts, st.num_qubits ≤ t ∧
      validate_qubits st ts cs E = .error (.InvalidQubitIndex t st.num_qubits) := by
  cases hfind : ts.find? (fun t => st.num_qubits ≤ t) with
  | some t =>
    have ht := List.find?_some hfind
    have htm := List.mem_of_find?_eq_some hfind
    simp only [decide_eq_true_eq] at ht
    refine ⟨t, htm, ht, ?_⟩
    simp [validate_qubits, hlen, hfind]
  | none =>
    exfalso
    obtain ⟨t, htm, hbad⟩ := h
    have := List.find?_eq_none.mp hfind t htm
    simp only [decide_eq_true_eq] at this
    omega

theorem checkControlsLoop_oob (cs ts : List Nat) (n : Nat)
    (hno : ∀ c ∈ cs, c ∉ ts) (h : ∃ c ∈ cs, n ≤ c) :
    ∃ c ∈ cs, n ≤ c ∧ checkControlsLoop cs ts n = .error (.InvalidQubitIndex c n) := by
  induction cs with
  | nil => simp at h
  | cons c rest ih =>
    by_cases h1 : n ≤ c
    · exact ⟨c, by simp, h1, by simp [checkControlsLoop, h1]⟩
    · have hcnotin : c ∉ ts := hno c (by simp)
      obtain ⟨c', hc', hge⟩ : ∃ c' ∈ rest, n ≤ c' := by
        obtain ⟨c', hc', hge⟩ := h
        rcases List.mem_cons.mp hc' with rfl | hmem
        · omega
        · exact ⟨c', hmem, hge⟩
      obtain ⟨c'', hc'', hge'', heq⟩ :=
        ih (fun x hx => hno x (List.mem_cons_of_mem _ hx)) ⟨c', hc', hge⟩
      refine ⟨c'', List.mem_cons_of_mem _ hc'', hge'', ?_⟩
      simp [checkControlsLoop, h1, contains_eq_decide_mem, hcnotin, heq]

theorem checkControlsLoop_overlap (cs ts : List Nat) (n : Nat)
    (hin : ∀ c ∈ cs, c < n) (h : ∃ c ∈ cs, c ∈ ts) :
    ∃ c ∈ cs, c ∈ ts ∧
      checkControlsLoop cs ts n = .error (.OverlappingControlAndTargetQubits c c) := by
  induction cs with
  | nil => simp at h
  | cons c rest ih =>
    have h1 : ¬n ≤ c := by
      have := hin c (by simp)
      omega
    by_cases h2 : c ∈ ts
    · refine ⟨c, by simp, h2, ?_⟩
      simp [checkControlsLoop, h1, contains_eq_decide_mem, h2]
    · obtain ⟨c', hc', hmem⟩ : ∃ c' ∈ rest, c' ∈ ts := by
        obtain ⟨c', hc', hmem⟩ := h
        rcases List.mem_cons.mp hc' with rfl | hm
        · exact absurd hmem h2
        · exact ⟨c', hm, hmem⟩
      obtain ⟨c'', hc'', hmem'', heq⟩ :=
        ih (fun x hx => hin x (List.mem_cons_of_mem _ hx)) ⟨c', hc', hmem⟩
      refine ⟨c'', List.mem_cons_of_mem _ hc'', hmem'', ?_⟩
      simp [checkControlsLoop, h1, contains_eq_decide_mem, h2, heq]

theorem validate_qubits_control_oob (st : State) (ts cs : List Nat) (E : Nat)
    (hlen : ts.length = E) (hts : ∀ t ∈ ts, t < st.num_qubits)
    (hno : ∀ c ∈ cs, c ∉ ts) (h : ∃ c ∈ cs, st.num_qubits ≤ c) :
    ∃ c ∈ cs, st.num_qubits ≤ c ∧
      validate_qubits st ts cs E = .error (.InvalidQubitIndex c st.num_qubits) := by
  have hfind : ts.find? (fun t => st.num_qubits ≤ t) = none := by
    rw [List.find?_eq_none]
    intro t htm
    simp only [decide_eq_true_eq]
    have := hts t htm
    omega
  obtain ⟨c, hc, hge, heq⟩ := checkControlsLoop_oob cs ts st.num_qubits hno h
  refine ⟨c, hc, hge, ?_⟩
  simp [validate_qubits, hlen, hfind, heq]

theorem validate_qubits_overlap (st : State) (ts cs : List Nat) (E : Nat)
    (hlen : ts.length = E) (hts : ∀ t ∈ ts, t < st.num_qubits)
    (hcs : ∀ c ∈ cs, c < st.num_qubits) (h : ∃ c ∈ cs, c ∈ ts) :
    ∃ c ∈ cs, c ∈ ts ∧
      validate_qubits st ts cs E =
        .error (.OverlappingControlAndTargetQubits c c) := by
  have hfind : ts.find? (fun t => st.num_qubits ≤ t) = none := by
    rw [List.find?_eq_none]
    intro t htm
    simp only [decide_eq_true_eq]
    have := hts t htm
    omega
  obtain ⟨c, hc, hmem, heq⟩ := checkControlsLoop_overlap cs ts st.num_qubits hcs h
  refine ⟨c, hc, hmem, ?_⟩
  simp [validate_qubits, hlen, hfind, heq]

theorem validate_qubits_dup (st : State) (ts cs : List Nat) (E : Nat)
    (hlen : ts.length = E) (hts : ∀ t ∈ ts, t < st.num_qubits)
    (hcs : ∀ c ∈ cs, c < st.num_qubits ∧ c ∉ ts) (hE : 1 < E) (hdup : ¬ts.Nodup) :
    ∃ q ∈ ts, validate_qubits st ts cs E = .error (.InvalidQubitIndex q st.num_qubits) := by
  have hfind : ts.find? (fun t => st.num_qubits ≤ t) = none := by
    rw [List.find?_eq_none]
    intro t htm
    simp only [decide_eq_true_eq]
    have := hts t htm
    omega
  have hccl : checkControlsLoop cs ts st.num_qubits = .ok () :=
    (checkControlsLoop_ok_iff cs ts st.num_qubits).mpr hcs
  by_cases hpar : PARALLEL_THRESHOLD_NUM_QUBITS ≤ st.num_qubits
  · cases hd : firstDupSeen ts [] with
    | some q =>
      have hm := firstDupSeen_mem ts [] q hd
      refine ⟨q, by simpa using hm, ?_⟩
      simp [validate_qubits, hlen, hfind, hccl, hE, hpar, hd]
    | none =>
      exact absurd ((firstDupSeen_eq_none_iff ts []).mp hd).1 hdup
  · cases hd : firstDupNested ts with
    | some q =>
      refine ⟨q, firstDupNested_mem ts q hd, ?_⟩
      simp [validate_qubits, hlen, hfind, hccl, hE, hpar, hd]
    | none =>
      exact absurd ((firstDupNested_eq_none_iff ts).mp hd) hdup

/-! Generic indexed-update loops.  The Rust kernels are for-loops over basis
indices that overwrite one or two positions of a fresh copy of the state
vector, reading only the old vector; twoWriteLoop and oneWriteLoop are the
common skeletons, instantiated per kernel with its literal guard and
formulas. -/

def twoWriteLoop {α : Type} (r : List Nat) (G : Nat → Bool) (w1 w2 : Nat → Nat)
    (a b : Nat → α) (v0 : List α) : List α :=
  r.foldl (fun v i => if G i then (v.set (w1 i) (a i)).set (w2 i) (b i) else v) v0

def oneWriteLoop {α : Type} (r : List Nat) (G : Nat → Bool) (a : Nat → α)
    (v0 : List α) : List α :=
  r.foldl (fun v i => if G i then v.set i (a i) else v) v0

theorem getD_set_ne {α : Type} (l : List α) (i m : Nat) (x d : α) (h : i ≠ m) :
    (l.set i x).getD m d = l.getD m d := by
  simp [List.getD_eq_getElem?_getD, List.getElem?_set_ne h]

theorem getD_set_self {α : Type} (l : List α) (i : Nat) (x d : α) (h : i < l.length) :
    (l.set i x).getD i d = x := by
  simp [List.getD_eq_getElem?_getD, List.getElem?_set_self h]

theorem twoWriteLoop_length {α : Type} (r : List Nat) (G : Nat → Bool)
    (w1 w2 : Nat → Nat) (a b : Nat → α) (v0 : List α) :
    (twoWriteLoop r G w1 w2 a b v0).length = v0.length := by
  induction r generalizing v0 with
  | nil => rfl
  | cons i r' ih =>
    show (twoWriteLoop r' G w1 w2 a b _).length = _
    rw [ih]
    by_cases h : G i = true <;> simp [h]

theorem oneWriteLoop_length {α : Type} (r : List Nat) (G : Nat → Bool)
    (a : Nat → α) (v0 : List α) :
    (oneWriteLoop r G a v0).length = v0.length := by
  induction r generalizing v0 with
  | nil => rfl
  | cons i r' ih =>
    show (oneWriteLoop r' G a _).length = _
    rw [ih]
    by_cases h : G i = true <;> simp [h]

theorem twoWriteLoop_not_written {α : Type} (r : List Nat) (G : Nat → Bool)
    (w1 w2 : Nat → Nat) (a b : Nat → α) (v0 : List α) (m : Nat) (d : α)
    (h : ∀ i ∈ r, G i = true → w1 i ≠ m ∧ w2 i ≠ m) :
    (twoWriteLoop r G w1 w2 a b v0).getD m d = v0.getD m d := by
  induction r generalizing v0 with
  | nil => rfl
  | cons i r' ih =>
    show (twoWriteLoop r' G w1 w2 a b _).getD m d = _
    rw [ih _ (fun j hj hg => h j (List.mem_cons_of_mem _ hj) hg)]
    by_cases hg : G i = true
    · obtain ⟨h1, h2⟩ := h i (by simp) hg
      simp only [hg, if_true]
      rw [getD_set_ne _ _ _ _ _ h2, getD_set_ne _ _ _ _ _ h1]
    · simp [hg]

theorem oneWriteLoop_not_written {α : Type} (r : List Nat) (G : Nat → Bool)
    (a : Nat → α) (v0 : List α) (m : Nat) (d : α)
    (h : ∀ i ∈ r, G i = true → i ≠ m) :
    (oneWriteLoop r G a v0).getD m d = v0.getD m d := by
  induction r generalizing v0 with
  | nil => rfl
  | cons i r' ih =>
    show (oneWriteLoop r' G a _).getD m d = _
    rw [ih _ (fun j hj hg => h j (List.mem_cons_of_mem _ hj) hg)]
    by_cases hg : G i = true
    · simp only [hg, if_true]
      rw [getD_set_ne _ _ _ _ _ (h i (by simp) hg)]
    · simp [hg]

theorem twoWriteLoop_w1 {α : Type} (r : List Nat) (G : Nat → Bool)
    (w1 w2 : Nat → Nat) (a b : Nat → α) (v0 : List α) (i : Nat) (d : α)
    (hmem : i ∈ r) (hnd : r.Nodup) (hG : G i = true)
    (hne : w1 i ≠ w2 i)
    (hdisj : ∀ i' ∈ r, G i' = true → i' ≠ i → w1 i' ≠ w1 i ∧ w2 i' ≠ w1 i)
    (hlt : w1 i < v0.length) :
    (twoWriteLoop r G w1 w2 a b v0).getD (w1 i) d = a i := by
  induction r generalizing v0 with
  | nil => exact absurd hmem (by simp)
  | cons j r' ih =>
    by_cases hj : j = i
    · subst hj
      show (twoWriteLoop r' G w1 w2 a b _).getD (w1 j) d = a j
      have hnot : j ∉ r' := (List.nodup_cons.mp hnd).1
      rw [twoWriteLoop_not_written _ _ _ _ _ _ _ _ _
        (fun i' hi' hg => hdisj i' (List.mem_cons_of_mem _ hi') hg
          (fun he => hnot (by rw [he] at hi'; exact hi')))]
      simp only [hG, if_true]
      rw [getD_set_ne _ _ _ _ _ (Ne.symm hne), getD_set_self _ _ _ _ hlt]
    · have hmem' : i ∈ r' := by
        rcases List.mem_cons.mp hmem with rfl | hm
        · exact absurd rfl hj
        · exact hm
      show (twoWriteLoop r' G w1 w2 a b _).getD (w1 i) d = a i
      have hlen : (if G j = true then (v0.set (w1 j) (a j)).set (w2 j) (b j) else v0).length
          = v0.length := by
        by_cases hg : G j = true <;> simp [hg]
      exact ih _ hmem' (List.nodup_cons.mp hnd).2
        (fun i' hi' hg hne' => hdisj i' (List.mem_cons_of_mem _ hi') hg hne')
        (by rw [hlen]; exact hlt)

theorem twoWriteLoop_w2 {α : Type} (r : List Nat) (G : Nat → Bool)
    (w1 w2 : Nat → Nat) (a b : Nat → α) (v0 : List α) (i : Nat) (d : α)
    (hmem : i ∈ r) (hnd : r.Nodup) (hG : G i = true)
    (hdisj : ∀ i' ∈ r, G i' = true → i' ≠ i → w1 i' ≠ w2 i ∧ w2 i' ≠ w2 i)
    (hlt : w2 i < v0.length) :
    (twoWriteLoop r G w1 w2 a b v0).getD (w2 i) d = b i := by
  induction r generalizing v0 with
  | nil => exact absurd hmem (by simp)
  | cons j r' ih =>
    by_cases hj : j = i
    · subst hj
      show (twoWriteLoop r' G w1 w2 a b _).getD (w2 j) d = b j
      have hnot : j ∉ r' := (List.nodup_cons.mp hnd).1
      rw [twoWriteLoop_not_written _ _ _ _ _ _ _ _ _
        (fun i' hi' hg => hdisj i' (List.mem_cons_of_mem _ hi') hg
          (fun he => hnot (by rw [he] at hi'; exact hi')))]
      simp only [hG, if_true]
      rw [getD_set_self _ _ _ _ (by simpa using hlt)]
    · have hmem' : i ∈ r' := by
        rcases List.mem_cons.mp hmem with rfl | hm
        · exact absurd rfl hj
        · exact hm
      show (twoWriteLoop r' G w1 w2 a b _).getD (w2 i) d = b i
      have hlen : (if G j = true then (v0.set (w1 j) (a j)).set (w2 j) (b j) else v0).length
          = v0.length := by
        by_cases hg : G j = true <;> simp [hg]
      exact ih _ hmem' (List.nodup_cons.mp hnd).2
        (fun i' hi' hg hne' => hdisj i' (List.mem_cons_of_mem _ hi') hg hne')
        (by rw [hlen]; exact hlt)

theorem oneWriteLoop_self {α : Type} (r : List Nat) (G : Nat → Bool)
    (a : Nat → α) (v0 : List α) (m : Nat) (d : α)
    (hmem : m ∈ r) (hnd : r.Nodup) (hG : G m = true) (hlt : m < v0.length) :
    (oneWriteLoop r G a v0).getD m d = a m := by
  induction r generalizing v0 with
  | nil => exact absurd hmem (by simp)
  | cons j r' ih =>
    by_cases hj : j = m
    · subst hj
      show (oneWriteLoop r' G a _).getD j d = a j
      have hnot : j ∉ r' := (List.nodup_cons.mp hnd).1
      rw [oneWriteLoop_not_written _ _ _ _ _ _
        (fun i' hi' _ => fun he => hnot (by rw [he] at hi'; exact hi'))]
      simp only [hG, if_true]
      rw [getD_set_self _ _ _ _ hlt]
    · have hmem' : m ∈ r' := by
        rcases List.mem_cons.mp hmem with rfl | hm
        · exact absurd rfl hj
        · exact hm
      show (oneWriteLoop r' G a _).getD m d = a m
      have hlen : (if G j = true then v0.set j (a j) else v0).length = v0.length := by
        by_cases hg : G j = true <;> simp [hg]
      exact ih _ hmem' (List.nodup_cons.mp hnd).2 (by rw [hlen]; exact hlt)

/-! Bit-manipulation facts used to reason about the pair loops. -/

theorem and_one_eq_zero_iff (i t : Nat) :
    ((i >>> t) &&& 1 = 0) ↔ i.testBit t = false := by
  rw [Nat.and_one_is_mod, Nat.shiftRight_eq_div_pow, Nat.testBit_to_div_mod]
  simp only [decide_eq_false_iff_not]
  omega

theorem and_one_eq_one_iff (i t : Nat) :
    ((i >>> t) &&& 1 = 1) ↔ i.testBit t = true := by
  rw [Nat.and_one_is_mod, Nat.shiftRight_eq_div_pow, Nat.testBit_to_div_mod]
  simp only [decide_eq_true_eq]

theorem beq_and_one_zero (i t : Nat) : ((i >>> t) &&& 1 == 0) = !i.testBit t := by
  cases h : i.testBit t with
  | false =>
    have := (and_one_eq_zero_iff i t).mpr h
    simp [this]
  | true =>
    have := (and_one_eq_one_iff i t).mpr h
    simp [this]

theorem beq_and_one_one (i t : Nat) : ((i >>> t) &&& 1 == 1) = i.testBit t := by
  cases h : i.testBit t with
  | false =>
    have := (and_one_eq_zero_iff i t).mpr h
    simp [this]
  | true =>
    have := (and_one_eq_one_iff i t).mpr h
    simp [this]

theorem shiftRight_mod_two_eq_zero_iff (i t : Nat) :
    (i >>> t % 2 = 0) ↔ i.testBit t = false := by
  rw [Nat.shiftRight_eq_div_pow, Nat.testBit_to_div_mod]
  simp only [decide_eq_false_iff_not]
  omega

theorem shiftRight_mod_two_eq_one_iff (i t : Nat) :
    (i >>> t % 2 = 1) ↔ i.testBit t = true := by
  rw [Nat.shiftRight_eq_div_pow, Nat.testBit_to_div_mod]
  simp only [decide_eq_true_eq]

theorem testBit_lor_shift_self (i t : Nat) : (i ||| (1 <<< t)).testBit t = true := by
  simp [Nat.one_shiftLeft, Nat.testBit_or, Nat.testBit_two_pow_self]

theorem testBit_lor_shift_ne (i t c : Nat) (h : c ≠ t) :
    (i ||| (1 <<< t)).testBit c = i.testBit c := by
  simp [Nat.one_shiftLeft, Nat.testBit_or,
    Nat.testBit_two_pow_of_ne (fun he => h he.symm)]

theorem lor_shift_xor (i t : Nat) (h : i.testBit t = false) :
    (i ||| (1 <<< t)) ^^^ (1 <<< t) = i := by
  rw [Nat.one_shiftLeft]
  apply Nat.eq_of_testBit_eq
  intro j
  by_cases hj : j = t
  · subst hj
    simp [Nat.testBit_xor, Nat.testBit_or, Nat.testBit_two_pow_self, h]
  · simp [Nat.testBit_xor, Nat.testBit_or,
      Nat.testBit_two_pow_of_ne (fun he => hj he.symm)]

theorem xor_shift_lor (k t : Nat) (h : k.testBit t = true) :
    (k ^^^ (1 <<< t)) ||| (1 <<< t) = k := by
  rw [Nat.one_shiftLeft]
  apply Nat.eq_of_testBit_eq
  intro j
  by_cases hj : j = t
  · subst hj
    simp [Nat.testBit_xor, Nat.testBit_or, Nat.testBit_two_pow_self, h]
  · simp [Nat.testBit_xor, Nat.testBit_or,
      Nat.testBit_two_pow_of_ne (fun he => hj he.symm)]

theorem testBit_xor_shift_self (k t : Nat) :
    (k ^^^ (1 <<< t)).testBit t = !k.testBit t := by
  simp [Nat.one_shiftLeft, Nat.testBit_xor, Nat.testBit_two_pow_self]

theorem testBit_xor_shift_ne (k t c : Nat) (h : c ≠ t) :
    (k ^^^ (1 <<< t)).testBit c = k.testBit c := by
  simp [Nat.one_shiftLeft, Nat.testBit_xor,
    Nat.testBit_two_pow_of_ne (fun he => h he.symm)]

theorem lor_shift_ne_self (i t : Nat) (h : i.testBit t = false) :
    i ||| (1 <<< t) ≠ i := by
  intro he
  have h1 := testBit_lor_shift_self i t
  rw [he, h] at h1
  exact absurd h1 (by simp)

theorem lor_shift_inj (i i' t : Nat) (h1 : i.testBit t = false)
    (h2 : i'.testBit t = false) (he : i ||| (1 <<< t) = i' ||| (1 <<< t)) : i = i' := by
  have := congrArg (fun x => x ^^^ (1 <<< t)) he
  simp only at this
  rwa [lor_shift_xor i t h1, lor_shift_xor i' t h2] at this

theorem two_pow_shift_lt (t n : Nat) (ht : t < n) : 1 <<< t < 2 ^ n := by
  rw [Nat.one_shiftLeft]
  exact Nat.pow_lt_pow_right (by omega) ht

theorem lor_shift_lt (i t n : Nat) (hi : i < 2 ^ n) (ht : t < n) :
    i ||| (1 <<< t) < 2 ^ n :=
  Nat.or_lt_two_pow hi (two_pow_shift_lt t n ht)

theorem xor_shift_lt (k t n : Nat) (hk : k < 2 ^ n) (ht : t < n) :
    k ^^^ (1 <<< t) < 2 ^ n :=
  Nat.xor_lt_two_pow hk (two_pow_shift_lt t n ht)

/-- The shape shared by all single-target pair kernels: loop over the basis
indices, and at every index i that passes the guard (which implies bit t of
i is 0) overwrite positions i and j = i OR (1 shl t) with the two-by-two
transform of the old amplitudes at i and j. -/
def pairKernelLoop (old : List ℂ) (dim t : Nat) (G : Nat → Bool)
    (f g : ℂ → ℂ → ℂ) : List ℂ :=
  twoWriteLoop (List.range dim) G (fun i => i) (fun i => i ||| (1 <<< t))
    (fun i => f (old.getD i 0) (old.getD (i ||| (1 <<< t)) 0))
    (fun i => g (old.getD i 0) (old.getD (i ||| (1 <<< t)) 0)) old

theorem pairKernelLoop_length (old : List ℂ) (dim t : Nat) (G : Nat → Bool)
    (f g : ℂ → ℂ → ℂ) : (pairKernelLoop old dim t G f g).length = old.length :=
  twoWriteLoop_length _ _ _ _ _ _ _

/-- Pointwise description of a pair-kernel loop over the full index range. -/
theorem pairKernelLoop_getD (old : List ℂ) (n t : Nat) (G : Nat → Bool)
    (f g : ℂ → ℂ → ℂ)
    (hG : ∀ i, G i = true → i.testBit t = false)
    (hlen : old.length = 2 ^ n) (ht : t < n) (k : Nat) (hk : k < 2 ^ n) :
    (pairKernelLoop old (2 ^ n) t G f g).getD k 0 =
      if k.testBit t = false then
        (if G k then f (old.getD k 0) (old.getD (k ||| (1 <<< t)) 0)
         else old.getD k 0)
      else
        (if G (k ^^^ (1 <<< t)) then
          g (old.getD (k ^^^ (1 <<< t)) 0) (old.getD k 0)
         else old.getD k 0) := by
  by_cases hbit : k.testBit t = false
  · rw [if_pos hbit]
    by_cases hGk : G k = true
    · rw [if_pos hGk]
      exact twoWriteLoop_w1 (List.range (2 ^ n)) G _ _ _ _ old k 0
        (List.mem_range.mpr hk) (List.nodup_range _) hGk
        (Ne.symm (lor_shift_ne_self k t hbit))
        (fun i' _ hGi' hik => ⟨hik, fun he => by
          have h1 := testBit_lor_shift_self i' t
          rw [he, hbit] at h1
          exact absurd h1 (by simp)⟩)
        (by rw [hlen]; exact hk)
    · rw [if_neg hGk]
      exact twoWriteLoop_not_written _ _ _ _ _ _ _ _ _
        (fun i' _ hGi' => ⟨fun he => hGk (by rw [he] at hGi'; exact hGi'),
          fun he => by
            have he' : i' ||| (1 <<< t) = k := he
            have h1 := testBit_lor_shift_self i' t
            rw [he', hbit] at h1
            exact absurd h1 (by simp)⟩)
  · have hbt : k.testBit t = true := by
      cases h : k.testBit t
      · exact absurd h hbit
      · rfl
    rw [if_neg hbit]
    have hib : (k ^^^ (1 <<< t)).testBit t = false := by
      rw [testBit_xor_shift_self, hbt]
      rfl
    have hik : (k ^^^ (1 <<< t)) ||| (1 <<< t) = k := xor_shift_lor k t hbt
    have hilt : k ^^^ (1 <<< t) < 2 ^ n := xor_shift_lt k t n hk ht
    by_cases hGi : G (k ^^^ (1 <<< t)) = true
    · rw [if_pos hGi]
      have := twoWriteLoop_w2 (List.range (2 ^ n)) G (fun i => i)
        (fun i => i ||| (1 <<< t))
        (fun i => f (old.getD i 0) (old.getD (i ||| (1 <<< t)) 0))
        (fun i => g (old.getD i 0) (old.getD (i ||| (1 <<< t)) 0)) old
        (k ^^^ (1 <<< t)) 0
        (List.mem_range.mpr hilt) (List.nodup_range _) hGi
        (fun i' _ hGi' hii => ⟨fun he => by
            have he' : i' = (k ^^^ (1 <<< t)) ||| (1 <<< t) := he
            rw [hik] at he'
            rw [he'] at hGi'
            exact absurd (hG k hGi') (by simp [hbt]),
          fun he => by
            have he' : i' ||| (1 <<< t) = (k ^^^ (1 <<< t)) ||| (1 <<< t) := he
            exact hii (lor_shift_inj i' (k ^^^ (1 <<< t)) t (hG i' hGi') hib he')⟩)
        (by show (k ^^^ (1 <<< t)) ||| (1 <<< t) < old.length
            rw [hik, hlen]; exact hk)
      simp only at this
      rw [hik] at this
      exact this
    · rw [if_neg hGi]
      exact twoWriteLoop_not_written _ _ _ _ _ _ _ _ _
        (fun i' _ hGi' => ⟨fun he => by
            rw [he] at hGi'
            exact absurd (hG k hGi') (by simp [hbt]),
          fun he => by
            apply hGi
            have he' : i' ||| (1 <<< t) = k := he
            have h2 := lor_shift_xor i' t (hG i' hGi')
            rw [he'] at h2
            rw [h2]
            exact hGi'⟩)

/-! Reduction of the parallel update-list writes to the sequential loops.
The Rust parallel branches collect (index, value) updates with
filter_map / flat_map over the same index range and then write them in
order; folding the writes over the flattened update list is the fold of
the per-index double writes. -/

theorem foldl_set_flatten_filterMap {α : Type} (l : List Nat)
    (g : Nat → Option (List (Nat × α))) (v0 : List α) :
    ((l.filterMap g).flatten).foldl (fun v p => v.set p.1 p.2) v0
      = l.foldl (fun v i => ((g i).getD []).foldl (fun v p => v.set p.1 p.2) v) v0 := by
  induction l generalizing v0 with
  | nil => rfl
  | cons i l' ih =>
    rw [List.filterMap_cons]
    cases hg : g i with
    | none =>
      simp only [List.foldl_cons, hg, Option.getD_none, List.foldl_nil]
      exact ih v0
    | some ps =>
      simp only [List.flatten_cons, List.foldl_append, List.foldl_cons, hg, Option.getD_some]
      exact ih _

theorem foldl_set_flatten_map {α : Type} (l : List Nat)
    (g : Nat → List (Nat × α)) (v0 : List α) :
    ((l.map g).flatten).foldl (fun v p => v.set p.1 p.2) v0
      = l.foldl (fun v i => (g i).foldl (fun v p => v.set p.1 p.2) v) v0 := by
  induction l generalizing v0 with
  | nil => rfl
  | cons i l' ih =>
    simp only [List.map_cons, List.flatten_cons, List.foldl_append, List.foldl_cons]
    exact ih _

/-! The uncontrolled Hadamard loop iterates a counter k over the half range
and computes the pair representative i0 by bit surgery
(operator.rs lines 347-355).  pairIdx0 is that expression; kOfIdx is its
inverse on indices whose target bit is clear. -/

/-- operator.rs line 348: i0 = (k >> t << (t+1)) | (k & ((1 << t) - 1)). -/
def pairIdx0 (t k : Nat) : Nat :=
  (k >>> t <<< (t + 1)) ||| (k &&& ((1 <<< t) - 1))

/-- Inverse of pairIdx0 on indices with bit t clear. -/
def kOfIdx (t i : Nat) : Nat :=
  (i >>> (t + 1) <<< t) ||| (i &&& ((1 <<< t) - 1))

theorem testBit_pairIdx0 (t k j : Nat) :
    (pairIdx0 t k).testBit j =
      if j < t then k.testBit j else if j = t then false else k.testBit (j - 1) := by
  simp only [pairIdx0, Nat.one_shiftLeft, Nat.and_pow_two_sub_one_eq_mod,
    Nat.testBit_or, Nat.testBit_mod_two_pow, Nat.testBit_shiftLeft,
    Nat.testBit_shiftRight]
  by_cases h1 : j < t
  · have h2 : ¬(t + 1 ≤ j) := by omega
    simp [h1, h2]
  · by_cases h3 : j = t
    · subst h3
      have h2 : ¬(j + 1 ≤ j) := by omega
      simp [h2]
    · have h4 : t + 1 ≤ j := by omega
      have h5 : t + (j - (t + 1)) = j - 1 := by omega
      simp [h1, h3, h4, h5]

theorem testBit_kOfIdx (t i j : Nat) :
    (kOfIdx t i).testBit j = if j < t then i.testBit j else i.testBit (j + 1) := by
  simp only [kOfIdx, Nat.one_shiftLeft, Nat.and_pow_two_sub_one_eq_mod,
    Nat.testBit_or, Nat.testBit_mod_two_pow, Nat.testBit_shiftLeft,
    Nat.testBit_shiftRight]
  by_cases h1 : j < t
  · have h2 : ¬(t ≤ j) := by omega
    simp [h1, h2]
  · have h2 : t ≤ j := by omega
    have h3 : t + 1 + (j - t) = j + 1 := by omega
    simp [h1, h2, h3]

theorem testBit_pairIdx0_self (t k : Nat) : (pairIdx0 t k).testBit t = false := by
  rw [testBit_pairIdx0]
  simp

theorem pairIdx0_kOfIdx (t i : Nat) (h : i.testBit t = false) :
    pairIdx0 t (kOfIdx t i) = i := by
  apply Nat.eq_of_testBit_eq
  intro j
  rw [testBit_pairIdx0]
  by_cases h1 : j < t
  · rw [if_pos h1, testBit_kOfIdx, if_pos h1]
  · by_cases h2 : j = t
    · subst h2
      rw [if_neg h1, if_pos rfl, h]
    · have h3 : ¬(j - 1 < t) := by omega
      have h4 : j - 1 + 1 = j := by omega
      rw [if_neg h1, if_neg h2, testBit_kOfIdx, if_neg h3, h4]

theorem kOfIdx_pairIdx0 (t k : Nat) : kOfIdx t (pairIdx0 t k) = k := by
  apply Nat.eq_of_testBit_eq
  intro j
  rw [testBit_kOfIdx]
  by_cases h1 : j < t
  · rw [if_pos h1, testBit_pairIdx0, if_pos h1]
  · have h2 : ¬(j + 1 < t) := by omega
    have h3 : j + 1 ≠ t := by omega
    have h4 : j + 1 - 1 = j := by omega
    rw [if_neg h1, testBit_pairIdx0, if_neg h2, if_neg h3, h4]

theorem kOfIdx_lt (t n i : Nat) (ht : t < n) (hi : i < 2 ^ n) :
    kOfIdx t i < 2 ^ (n - 1) := by
  apply Nat.lt_pow_two_of_testBit
  intro j hj
  rw [testBit_kOfIdx]
  have h1 : ¬(j < t) := by omega
  rw [if_neg h1]
  exact Nat.testBit_lt_two_pow
    (lt_of_lt_of_le hi (Nat.pow_le_pow_right (by omega) (by omega)))

theorem pairIdx0_lt (t n k : Nat) (ht : t < n) (hk : k < 2 ^ (n - 1)) :
    pairIdx0 t k < 2 ^ n := by
  apply Nat.lt_pow_two_of_testBit
  intro j hj
  rw [testBit_pairIdx0]
  have h1 : ¬(j < t) := by omega
  have h2 : j ≠ t := by omega
  rw [if_neg h1, if_neg h2]
  exact Nat.testBit_lt_two_pow
    (lt_of_lt_of_le hk (Nat.pow_le_pow_right (by omega) (by omega)))

/-- The loop shape of the uncontrolled Hadamard branches: iterate the
counter k over the half range, writing positions i0 and i1 = i0 OR (1 shl t)
(operator.rs lines 347-355 sequential, 298-314 parallel). -/
def kPairLoop (old : List ℂ) (n t : Nat) (f g : ℂ → ℂ → ℂ) : List ℂ :=
  twoWriteLoop (List.range (1 <<< (n - 1))) (fun _ => true)
    (fun k => pairIdx0 t k) (fun k => pairIdx0 t k ||| (1 <<< t))
    (fun k => f (old.getD (pairIdx0 t k) 0) (old.getD (pairIdx0 t k ||| (1 <<< t)) 0))
    (fun k => g (old.getD (pairIdx0 t k) 0) (old.getD (pairIdx0 t k ||| (1 <<< t)) 0))
    old

theorem kPairLoop_length (old : List ℂ) (n t : Nat) (f g : ℂ → ℂ → ℂ) :
    (kPairLoop old n t f g).length = old.length :=
  twoWriteLoop_length _ _ _ _ _ _ _

theorem kPairLoop_getD (old : List ℂ) (n t : Nat) (f g : ℂ → ℂ → ℂ)
    (hlen : old.length = 2 ^ n) (ht : t < n) (m : Nat) (hm : m < 2 ^ n) :
    (kPairLoop old n t f g).getD m 0 =
      if m.testBit t = false then
        f (old.getD m 0) (old.getD (m ||| (1 <<< t)) 0)
      else
        g (old.getD (m ^^^ (1 <<< t)) 0) (old.getD m 0) := by
  have hrange : (1 : Nat) <<< (n - 1) = 2 ^ (n - 1) := Nat.one_shiftLeft _
  by_cases hbit : m.testBit t = false
  · rw [if_pos hbit]
    have hpk : pairIdx0 t (kOfIdx t m) = m := pairIdx0_kOfIdx t m hbit
    have := twoWriteLoop_w1 (List.range (1 <<< (n - 1))) (fun _ => true)
      (fun k => pairIdx0 t k) (fun k => pairIdx0 t k ||| (1 <<< t))
      (fun k => f (old.getD (pairIdx0 t k) 0) (old.getD (pairIdx0 t k ||| (1 <<< t)) 0))
      (fun k => g (old.getD (pairIdx0 t k) 0) (old.getD (pairIdx0 t k ||| (1 <<< t)) 0))
      old (kOfIdx t m) 0
      (List.mem_range.mpr (by rw [hrange]; exact kOfIdx_lt t n m ht hm))
      (List.nodup_range _) rfl
      (by show pairIdx0 t (kOfIdx t m) ≠ pairIdx0 t (kOfIdx t m) ||| (1 <<< t)
          rw [hpk]
          exact Ne.symm (lor_shift_ne_self m t hbit))
      (fun k' _ _ hkk => by
        constructor
        · show pairIdx0 t k' ≠ pairIdx0 t (kOfIdx t m)
          rw [hpk]
          intro he
          apply hkk
          rw [← kOfIdx_pairIdx0 t k', he]
        · show pairIdx0 t k' ||| (1 <<< t) ≠ pairIdx0 t (kOfIdx t m)
          rw [hpk]
          intro he
          have h1 := testBit_lor_shift_self (pairIdx0 t k') t
          rw [he, hbit] at h1
          exact absurd h1 (by simp))
      (by show pairIdx0 t (kOfIdx t m) < old.length
          rw [hpk, hlen]
          exact hm)
    simp only at this
    rw [hpk] at this
    exact this
  · have hbt : m.testBit t = true := by
      cases h : m.testBit t
      · exact absurd h hbit
      · rfl
    rw [if_neg hbit]
    have hib : (m ^^^ (1 <<< t)).testBit t = false := by
      rw [testBit_xor_shift_self, hbt]
      rfl
    have hpk : pairIdx0 t (kOfIdx t (m ^^^ (1 <<< t))) = m ^^^ (1 <<< t) :=
      pairIdx0_kOfIdx t _ hib
    have him : (m ^^^ (1 <<< t)) ||| (1 <<< t) = m := xor_shift_lor m t hbt
    have hilt : m ^^^ (1 <<< t) < 2 ^ n := xor_shift_lt m t n hm ht
    have := twoWriteLoop_w2 (List.range (1 <<< (n - 1))) (fun _ => true)
      (fun k => pairIdx0 t k) (fun k => pairIdx0 t k ||| (1 <<< t))
      (fun k => f (old.getD (pairIdx0 t k) 0) (old.getD (pairIdx0 t k ||| (1 <<< t)) 0))
      (fun k => g (old.getD (pairIdx0 t k) 0) (old.getD (pairIdx0 t k ||| (1 <<< t)) 0))
      old (kOfIdx t (m ^^^ (1 <<< t))) 0
      (List.mem_range.mpr (by rw [hrange]; exact kOfIdx_lt t n _ ht hilt))
      (List.nodup_range _) rfl
      (fun k' _ _ hkk => by
        constructor
        · show pairIdx0 t k' ≠ pairIdx0 t (kOfIdx t (m ^^^ (1 <<< t))) ||| (1 <<< t)
          rw [hpk, him]
          intro he
          have h1 := testBit_pairIdx0_self t k'
          rw [he, hbt] at h1
          exact absurd h1 (by simp)
        · show pairIdx0 t k' ||| (1 <<< t) ≠
            pairIdx0 t (kOfIdx t (m ^^^ (1 <<< t))) ||| (1 <<< t)
          rw [hpk]
          intro he
          apply hkk
          have h2 := lor_shift_inj (pairIdx0 t k') (m ^^^ (1 <<< t)) t
            (testBit_pairIdx0_self t k') hib he
          rw [← kOfIdx_pairIdx0 t k', h2]
        )
      (by show pairIdx0 t (kOfIdx t (m ^^^ (1 <<< t))) ||| (1 <<< t) < old.length
          rw [hpk, him, hlen]
          exact hm)
    simp only at this
    rw [hpk, him] at this
    exact this

theorem check_controls_nil (i : Nat) : check_controls i [] = true := rfl

theorem check_controls_eq_true_iff (i : Nat) (cs : List Nat) :
    check_controls i cs = true ↔ ∀ c ∈ cs, i.testBit c = true := by
  simp only [check_controls, List.all_eq_true, beq_and_one_one]

theorem check_controls_eq_false (i : Nat) (cs : List Nat) (c : Nat)
    (hc : c ∈ cs) (hbit : i.testBit c = false) : check_controls i cs = false := by
  cases h : check_controls i cs
  · rfl
  · have := (check_controls_eq_true_iff i cs).mp h c hc
    rw [hbit] at this
    exact absurd this (by simp)

/-- operator.rs line 274: sqrt_2_inv = 1.0 / sqrt(2.0). -/
noncomputable def sqrt_2_inv : ℝ := 1 / Real.sqrt 2

/-- operator.rs lines 356-369: sequential controlled Hadamard loop. -/
noncomputable def hadamardSeqCtrl (old : List ℂ) (dim t : Nat) (cs : List Nat) : List ℂ :=
  pairKernelLoop old dim t
    (fun i => ((i >>> t) &&& 1 == 0) && check_controls i cs)
    (fun amp_i amp_j => (sqrt_2_inv : ℂ) * (amp_i + amp_j))
    (fun amp_i amp_j => (sqrt_2_inv : ℂ) * (amp_i - amp_j))

/-- operator.rs lines 345-355: sequential uncontrolled Hadamard k-loop. -/
noncomputable def hadamardSeqUnctrl (old : List ℂ) (n t : Nat) : List ℂ :=
  kPairLoop old n t
    (fun amp0 amp1 => (sqrt_2_inv : ℂ) * (amp0 + amp1))
    (fun amp0 amp1 => (sqrt_2_inv : ℂ) * (amp0 - amp1))

/-- operator.rs lines 315-341: parallel controlled Hadamard - collect
(index, value) updates by filter_map + flatten, then write them. -/
noncomputable def hadamardParCtrl (old : List ℂ) (dim t : Nat) (cs : List Nat) : List ℂ :=
  (((List.range dim).filterMap (fun i =>
      if (i >>> t) &&& 1 == 0 then
        if check_controls i cs then
          some [(i, (sqrt_2_inv : ℂ) * (old.getD i 0 + old.getD (i ||| (1 <<< t)) 0)),
                (i ||| (1 <<< t),
                 (sqrt_2_inv : ℂ) * (old.getD i 0 - old.getD (i ||| (1 <<< t)) 0))]
        else none
      else none)).flatten).foldl (fun v p => v.set p.1 p.2) old

/-- operator.rs lines 296-314: parallel uncontrolled Hadamard - flat_map
over the half range, then write the updates. -/
noncomputable def hadamardParUnctrl (old : List ℂ) (n t : Nat) : List ℂ :=
  (((List.range (1 <<< (n - 1))).map (fun k =>
      [(pairIdx0 t k,
        (sqrt_2_inv : ℂ) * (old.getD (pairIdx0 t k) 0 +
          old.getD (pairIdx0 t k ||| (1 <<< t)) 0)),
       (pairIdx0 t k ||| (1 <<< t),
        (sqrt_2_inv : ℂ) * (old.getD (pairIdx0 t k) 0 -
          old.getD (pairIdx0 t k ||| (1 <<< t)) 0))])).flatten).foldl
    (fun v p => v.set p.1 p.2) old

theorem hadamardParCtrl_eq_seq (old : List ℂ) (dim t : Nat) (cs : List Nat) :
    hadamardParCtrl old dim t cs = hadamardSeqCtrl old dim t cs := by
  unfold hadamardParCtrl hadamardSeqCtrl pairKernelLoop twoWriteLoop
  rw [foldl_set_flatten_filterMap]
  apply List.foldl_ext
  intro v i _
  dsimp only
  cases hb : ((i >>> t) &&& 1 == 0) with
  | false => simp
  | true =>
    cases hc : check_controls i cs with
    | false => simp
    | true => simp

theorem hadamardParUnctrl_eq_seq (old : List ℂ) (n t : Nat) :
    hadamardParUnctrl old n t = hadamardSeqUnctrl old n t := by
  unfold hadamardParUnctrl hadamardSeqUnctrl kPairLoop twoWriteLoop
  rw [foldl_set_flatten_map]
  apply List.foldl_ext
  intro v k _
  simp

/-- operator.rs lines 261-376: Hadamard::apply.  The GPU branch is compiled
out in the default build (gpuEnabled = false), leaving the state clone. -/
noncomputable def Hadamard.apply (state : State) (target_qubits control_qubits : List Nat) :
    Except Error State :=
  match validate_qubits state target_qubits control_qubits 1 with
  | .error e => .error e
  | .ok _ =>
    let target_qubit := target_qubits.headD 0
    let num_qubits := state.num_qubits
    if OPENCL_THRESHOLD_NUM_QUBITS ≤ num_qubits ∧ gpuEnabled = true then
      .ok { state_vector := state.state_vector, num_qubits := num_qubits }
    else if PARALLEL_THRESHOLD_NUM_QUBITS ≤ num_qubits then
      if control_qubits.isEmpty then
        .ok { state_vector := hadamardParUnctrl state.state_vector num_qubits target_qubit,
              num_qubits := num_qubits }
      else
        .ok { state_vector :=
                hadamardParCtrl state.state_vector (1 <<< num_qubits) target_qubit
                  control_qubits,
              num_qubits := num_qubits }
    else
      if control_qubits.isEmpty then
        .ok { state_vector := hadamardSeqUnctrl state.state_vector num_qubits target_qubit,
              num_qubits := num_qubits }
      else
        .ok { state_vector :=
                hadamardSeqCtrl state.state_vector (1 <<< num_qubits) target_qubit
                  control_qubits,
              num_qubits := num_qubits }

def Hadamard.base_qubits : Nat := 1

/-- Per-index value of the Hadamard transform: on each pair (i, j) passing
the control predicate, new i = s (old i + old j) and new j = s (old i - old j). -/
noncomputable def hadamardFormula (old : List ℂ) (t : Nat) (cs : List Nat) (k : Nat) : ℂ :=
  if k.testBit t = false then
    (if check_controls k cs then
      (sqrt_2_inv : ℂ) * (old.getD k 0 + old.getD (k ||| (1 <<< t)) 0)
     else old.getD k 0)
  else
    (if check_controls (k ^^^ (1 <<< t)) cs then
      (sqrt_2_inv : ℂ) * (old.getD (k ^^^ (1 <<< t)) 0 - old.getD k 0)
     else old.getD k 0)

theorem hadamardSeqCtrl_length (old : List ℂ) (dim t : Nat) (cs : List Nat) :
    (hadamardSeqCtrl old dim t cs).length = old.length :=
  pairKernelLoop_length _ _ _ _ _ _

theorem hadamardSeqUnctrl_length (old : List ℂ) (n t : Nat) :
    (hadamardSeqUnctrl old n t).length = old.length :=
  kPairLoop_length _ _ _ _ _

theorem hadamardSeqCtrl_getD (old : List ℂ) (n t : Nat) (cs : List Nat)
    (hlen : old.length = 2 ^ n) (ht : t < n) (k : Nat) (hk : k < 2 ^ n) :
    (hadamardSeqCtrl old (1 <<< n) t cs).getD k 0 = hadamardFormula old t cs k := by
  unfold hadamardSeqCtrl hadamardFormula
  rw [Nat.one_shiftLeft]
  rw [pairKernelLoop_getD old n t _ _ _
    (fun i hi => by
      have := (Bool.and_eq_true _ _).mp hi
      rw [beq_and_one_zero] at this
      cases h : i.testBit t
      · rfl
      · rw [h] at this
        exact absurd this.1 (by simp)) hlen ht k hk]
  by_cases hbit : k.testBit t = false
  · rw [if_pos hbit, if_pos hbit]
    rw [beq_and_one_zero, hbit]
    simp
  · have hbt : k.testBit t = true := by
      cases h : k.testBit t
      · exact absurd h hbit
      · rfl
    rw [if_neg hbit, if_neg hbit]
    have hib : (k ^^^ (1 <<< t)).testBit t = false := by
      rw [testBit_xor_shift_self, hbt]
      rfl
    rw [beq_and_one_zero, hib]
    simp

theorem hadamardSeqUnctrl_getD (old : List ℂ) (n t : Nat)
    (hlen : old.length = 2 ^ n) (ht : t < n) (k : Nat) (hk : k < 2 ^ n) :
    (hadamardSeqUnctrl old n t).getD k 0 = hadamardFormula old t [] k := by
  unfold hadamardSeqUnctrl hadamardFormula
  rw [kPairLoop_getD old n t _ _ hlen ht k hk]
  by_cases hbit : k.testBit t = false
  · rw [if_pos hbit, if_pos hbit, if_pos (check_controls_nil _)]
  · rw [if_neg hbit, if_neg hbit, if_pos (check_controls_nil _)]

/-- Master pointwise description of Hadamard::apply on valid inputs:
all CPU branches produce the hadamardFormula amplitudes. -/
theorem Hadamard.hadamard_apply_ok (st : State) (ts cs : List Nat) (t : Nat)
    (hts : ts = [t])
    (hok : validate_qubits st ts cs 1 = .ok ())
    (hlen : st.state_vector.length = 2 ^ st.num_qubits) :
    ∃ st', Hadamard.apply st ts cs = .ok st' ∧
      st'.num_qubits = st.num_qubits ∧
      st'.state_vector.length = 2 ^ st.num_qubits ∧
      ∀ k, k < 2 ^ st.num_qubits →
        st'.state_vector.getD k 0 = hadamardFormula st.state_vector t cs k := by
  have ht : t < st.num_qubits := by
    have := (validate_qubits_ok_iff st ts cs 1).mp hok
    exact this.2.1 t (by rw [hts]; simp)
  have hhead : ts.headD 0 = t := by rw [hts]; rfl
  rw [Hadamard.apply]
  rw [hok]
  simp only [gpuEnabled, and_false, Bool.false_eq_true, if_false, hhead]
  by_cases hpar : PARALLEL_THRESHOLD_NUM_QUBITS ≤ st.num_qubits
  · rw [if_pos hpar]
    by_cases hcs : cs.isEmpty
    · rw [if_pos hcs]
      have hcs' : cs = [] := List.isEmpty_iff.mp hcs
      refine ⟨_, rfl, rfl, ?_, ?_⟩
      · show (hadamardParUnctrl st.state_vector st.num_qubits t).length = _
        rw [hadamardParUnctrl_eq_seq, hadamardSeqUnctrl_length]
        exact hlen
      · intro k hk
        show (hadamardParUnctrl st.state_vector st.num_qubits t).getD k 0 = _
        rw [hadamardParUnctrl_eq_seq, hadamardSeqUnctrl_getD _ _ _ hlen ht k hk, hcs']
    · rw [if_neg hcs]
      refine ⟨_, rfl, rfl, ?_, ?_⟩
      · show (hadamardParCtrl st.state_vector _ t cs).length = _
        rw [hadamardParCtrl_eq_seq, hadamardSeqCtrl_length]
        exact hlen
      · intro k hk
        show (hadamardParCtrl st.state_vector _ t cs).getD k 0 = _
        rw [hadamardParCtrl_eq_seq, hadamardSeqCtrl_getD _ _ _ _ hlen ht k hk]
  · rw [if_neg hpar]
    by_cases hcs : cs.isEmpty
    · rw [if_pos hcs]
      have hcs' : cs = [] := List.isEmpty_iff.mp hcs
      refine ⟨_, rfl, rfl, ?_, ?_⟩
      · show (hadamardSeqUnctrl st.state_vector st.num_qubits t).length = _
        rw [hadamardSeqUnctrl_length]
        exact hlen
      · intro k hk
        show (hadamardSeqUnctrl st.state_vector st.num_qubits t).getD k 0 = _
        rw [hadamardSeqUnctrl_getD _ _ _ hlen ht k hk, hcs']
    · rw [if_neg hcs]
      refine ⟨_, rfl, rfl, ?_, ?_⟩
      · show (hadamardSeqCtrl st.state_vector _ t cs).length = _
        rw [hadamardSeqCtrl_length]
        exact hlen
      · intro k hk
        show (hadamardSeqCtrl st.state_vector _ t cs).getD k 0 = _
        rw [hadamardSeqCtrl_getD _ _ _ _ hlen ht k hk]

theorem oneWriteLoop_range_getD {α : Type} (dim : Nat) (G : Nat → Bool)
    (a : Nat → α) (old : List α) (d : α) (hlen : old.length = dim)
    (k : Nat) (hk : k < dim) :
    (oneWriteLoop (List.range dim) G a old).getD k d =
      if G k = true then a k else old.getD k d := by
  by_cases hG : G k = true
  · rw [if_pos hG]
    exact oneWriteLoop_self _ _ _ _ _ _ (List.mem_range.mpr hk) (List.nodup_range _)
      hG (by rw [hlen]; exact hk)
  · rw [if_neg hG]
    exact oneWriteLoop_not_written _ _ _ _ _ _
      (fun i' _ hGi' he => hG (by rw [← he]; exact hGi'))

/-- operator.rs lines 388-396: the Pauli operators. -/
inductive Pauli where
  | X
  | Y
  | Z
  deriving DecidableEq, Repr

/-- operator.rs lines 516-546: the sequential Pauli loop, with the match on
the operator inside the control-checked loop body, exactly as in the source. -/
def pauliSeqLoop (p : Pauli) (old : List ℂ) (dim t : Nat) (cs : List Nat) : List ℂ :=
  (List.range dim).foldl (fun v i =>
    if check_controls i cs then
      match p with
      | .X =>
        if (i >>> t) &&& 1 == 0 then
          (v.set i (old.getD (i ||| (1 <<< t)) 0)).set (i ||| (1 <<< t)) (old.getD i 0)
        else v
      | .Y =>
        if (i >>> t) &&& 1 == 0 then
          (v.set i (-Complex.I * old.getD (i ||| (1 <<< t)) 0)).set (i ||| (1 <<< t))
            (Complex.I * old.getD i 0)
        else v
      | .Z =>
        if (i >>> t) &&& 1 == 1 then v.set i (-(old.getD i 0)) else v
    else v) old

theorem pauliSeqLoop_X_eq (old : List ℂ) (dim t : Nat) (cs : List Nat) :
    pauliSeqLoop .X old dim t cs =
      pairKernelLoop old dim t
        (fun i => check_controls i cs && ((i >>> t) &&& 1 == 0))
        (fun _ amp_j => amp_j) (fun amp_i _ => amp_i) := by
  unfold pauliSeqLoop pairKernelLoop twoWriteLoop
  apply List.foldl_ext
  intro v i _
  dsimp only
  cases hc : check_controls i cs with
  | false => simp
  | true =>
    cases hb : ((i >>> t) &&& 1 == 0) with
    | false => simp
    | true => simp

theorem pauliSeqLoop_Y_eq (old : List ℂ) (dim t : Nat) (cs : List Nat) :
    pauliSeqLoop .Y old dim t cs =
      pairKernelLoop old dim t
        (fun i => check_controls i cs && ((i >>> t) &&& 1 == 0))
        (fun _ amp_j => -Complex.I * amp_j) (fun amp_i _ => Complex.I * amp_i) := by
  unfold pauliSeqLoop pairKernelLoop twoWriteLoop
  apply List.foldl_ext
  intro v i _
  dsimp only
  cases hc : check_controls i cs with
  | false => simp
  | true =>
    cases hb : ((i >>> t) &&& 1 == 0) with
    | false => simp
    | true => simp

theorem pauliSeqLoop_Z_eq (old : List ℂ) (dim t : Nat) (cs : List Nat) :
    pauliSeqLoop .Z old dim t cs =
      oneWriteLoop (List.range dim)
        (fun i => check_controls i cs && ((i >>> t) &&& 1 == 1))
        (fun i => -(old.getD i 0)) old := by
  unfold pauliSeqLoop oneWriteLoop
  apply List.foldl_ext
  intro v i _
  dsimp only
  cases hc : check_controls i cs with
  | false => simp
  | true =>
    cases hb : ((i >>> t) &&& 1 == 1) with
    | false => simp
    | true => simp

/-- operator.rs lines 466-484: parallel Pauli-X update collection. -/
def pauliParX (old : List ℂ) (dim t : Nat) (cs : List Nat) : List ℂ :=
  (((List.range dim).filterMap (fun i =>
      if check_controls i cs && ((i >>> t) &&& 1 == 0) then
        some [(i, old.getD (i ||| (1 <<< t)) 0), (i ||| (1 <<< t), old.getD i 0)]
      else none)).flatten).foldl (fun v p => v.set p.1 p.2) old

/-- operator.rs lines 485-503: parallel Pauli-Y update collection. -/
def pauliParY (old : List ℂ) (dim t : Nat) (cs : List Nat) : List ℂ :=
  (((List.range dim).filterMap (fun i =>
      if check_controls i cs && ((i >>> t) &&& 1 == 0) then
        some [(i, -Complex.I * old.getD (i ||| (1 <<< t)) 0),
              (i ||| (1 <<< t), Complex.I * old.getD i 0)]
      else none)).flatten).foldl (fun v p => v.set p.1 p.2) old

/-- operator.rs lines 504-513: parallel Pauli-Z - in-place negation of every
index whose controls are satisfied and whose target bit is one;
denotationally the same indexed one-write loop. -/
def pauliParZ (old : List ℂ) (dim t : Nat) (cs : List Nat) : List ℂ :=
  oneWriteLoop (List.range dim)
    (fun i => check_controls i cs && ((i >>> t) &&& 1 == 1))
    (fun i => -(old.getD i 0)) old

theorem pauliParX_eq_seq (old : List ℂ) (dim t : Nat) (cs : List Nat) :
    pauliParX old dim t cs = pauliSeqLoop .X old dim t cs := by
  rw [pauliSeqLoop_X_eq]
  unfold pauliParX pairKernelLoop twoWriteLoop
  rw [foldl_set_flatten_filterMap]
  apply List.foldl_ext
  intro v i _
  dsimp only
  cases hg : (check_controls i cs && ((i >>> t) &&& 1 == 0)) with
  | false => simp
  | true => simp

theorem pauliParY_eq_seq (old : List ℂ) (dim t : Nat) (cs : List Nat) :
    pauliParY old dim t cs = pauliSeqLoop .Y old dim t cs := by
  rw [pauliSeqLoop_Y_eq]
  unfold pauliParY pairKernelLoop twoWriteLoop
  rw [foldl_set_flatten_filterMap]
  apply List.foldl_ext
  intro v i _
  dsimp only
  cases hg : (check_controls i cs && ((i >>> t) &&& 1 == 0)) with
  | false => simp
  | true => simp

theorem pauliParZ_eq_seq (old : List ℂ) (dim t : Nat) (cs : List Nat) :
    pauliParZ old dim t cs = pauliSeqLoop .Z old dim t cs := by
  rw [pauliSeqLoop_Z_eq]
  rfl

/-- operator.rs lines 420-552: Pauli::apply. -/
def Pauli.apply (p : Pauli) (state : State) (target_qubits control_qubits : List Nat) :
    Except Error State :=
  match validate_qubits state target_qubits control_qubits 1 with
  | .error e => .error e
  | .ok _ =>
    let target_qubit := target_qubits.headD 0
    let num_qubits := state.num_qubits
    if OPENCL_THRESHOLD_NUM_QUBITS ≤ num_qubits ∧ gpuEnabled = true then
      .ok { state_vector := state.state_vector, num_qubits := state.num_qubits }
    else if PARALLEL_THRESHOLD_NUM_QUBITS ≤ num_qubits then
      match p with
      | .X => .ok { state_vector :=
                      pauliParX state.state_vector (1 <<< num_qubits) target_qubit
                        control_qubits,
                    num_qubits := state.num_qubits }
      | .Y => .ok { state_vector :=
                      pauliParY state.state_vector (1 <<< num_qubits) target_qubit
                        control_qubits,
                    num_qubits := state.num_qubits }
      | .Z => .ok { state_vector :=
                      pauliParZ state.state_vector (1 <<< num_qubits) target_qubit
                        control_qubits,
                    num_qubits := state.num_qubits }
    else
      .ok { state_vector :=
              pauliSeqLoop p state.state_vector (1 <<< num_qubits) target_qubit
                control_qubits,
            num_qubits := state.num_qubits }

def Pauli.base_qubits : Nat := 1

/-- Per-index value of the Pauli transforms. -/
def pauliFormula (p : Pauli) (old : List ℂ) (t : Nat) (cs : List Nat) (k : Nat) : ℂ :=
  match p with
  | .X =>
    if k.testBit t = false then
      (if check_controls k cs then old.getD (k ||| (1 <<< t)) 0 else old.getD k 0)
    else
      (if check_controls (k ^^^ (1 <<< t)) cs then old.getD (k ^^^ (1 <<< t)) 0
       else old.getD k 0)
  | .Y =>
    if k.testBit t = false then
      (if check_controls k cs then -Complex.I * old.getD (k ||| (1 <<< t)) 0
       else old.getD k 0)
    else
      (if check_controls (k ^^^ (1 <<< t)) cs then
        Complex.I * old.getD (k ^^^ (1 <<< t)) 0
       else old.getD k 0)
  | .Z =>
    if check_controls k cs = true ∧ k.testBit t = true then -(old.getD k 0)
    else old.getD k 0

theorem pauliSeqLoop_getD (p : Pauli) (old : List ℂ) (n t : Nat) (cs : List Nat)
    (hlen : old.length = 2 ^ n) (ht : t < n) (k : Nat) (hk : k < 2 ^ n) :
    (pauliSeqLoop p old (1 <<< n) t cs).getD k 0 = pauliFormula p old t cs k := by
  have hguard : ∀ i : Nat,
      (check_controls i cs && ((i >>> t) &&& 1 == 0)) = true → i.testBit t = false := by
    intro i hi
    have := (Bool.and_eq_true _ _).mp hi
    rw [beq_and_one_zero] at this
    cases h : i.testBit t
    · rfl
    · rw [h] at this
      exact absurd this.2 (by simp)
  cases p with
  | X =>
    rw [pauliSeqLoop_X_eq, Nat.one_shiftLeft,
      pairKernelLoop_getD old n t _ _ _ hguard hlen ht k hk]
    unfold pauliFormula
    by_cases hbit : k.testBit t = false
    · simp [hbit, beq_and_one_zero, shiftRight_mod_two_eq_zero_iff]
    · have hbt : k.testBit t = true := by
        cases h : k.testBit t
        · exact absurd h hbit
        · rfl
      have hib : (k ^^^ (1 <<< t)).testBit t = false := by
        rw [testBit_xor_shift_self, hbt]
        rfl
      simp [hbt, hib, beq_and_one_zero, shiftRight_mod_two_eq_zero_iff]
  | Y =>
    rw [pauliSeqLoop_Y_eq, Nat.one_shiftLeft,
      pairKernelLoop_getD old n t _ _ _ hguard hlen ht k hk]
    unfold pauliFormula
    by_cases hbit : k.testBit t = false
    · simp [hbit, beq_and_one_zero, shiftRight_mod_two_eq_zero_iff]
    · have hbt : k.testBit t = true := by
        cases h : k.testBit t
        · exact absurd h hbit
        · rfl
      have hib : (k ^^^ (1 <<< t)).testBit t = false := by
        rw [testBit_xor_shift_self, hbt]
        rfl
      simp [hbt, hib, beq_and_one_zero, shiftRight_mod_two_eq_zero_iff]
  | Z =>
    rw [pauliSeqLoop_Z_eq]
    have hlen' : old.length = 1 <<< n := by rw [Nat.one_shiftLeft]; exact hlen
    rw [oneWriteLoop_range_getD _ _ _ _ _ hlen' k (by rw [Nat.one_shiftLeft]; exact hk)]
    unfold pauliFormula
    rw [beq_and_one_one]
    by_cases hc : check_controls k cs = true
    · by_cases hb : k.testBit t = true
      · simp [hc, hb, shiftRight_mod_two_eq_one_iff]
      · simp [hc, hb, shiftRight_mod_two_eq_one_iff]
    · simp [hc, shiftRight_mod_two_eq_one_iff]

/-- Master pointwise description of Pauli::apply on valid inputs. -/
theorem Pauli.pauli_apply_ok (p : Pauli) (st : State) (ts cs : List Nat) (t : Nat)
    (hts : ts = [t])
    (hok : validate_qubits st ts cs 1 = .ok ())
    (hlen : st.state_vector.length = 2 ^ st.num_qubits) :
    ∃ st', Pauli.apply p st ts cs = .ok st' ∧
      st'.num_qubits = st.num_qubits ∧
      st'.state_vector.length = 2 ^ st.num_qubits ∧
      ∀ k, k < 2 ^ st.num_qubits →
        st'.state_vector.getD k 0 = pauliFormula p st.state_vector t cs k := by
  have ht : t < st.num_qubits := by
    have := (validate_qubits_ok_iff st ts cs 1).mp hok
    exact this.2.1 t (by rw [hts]; simp)
  have hhead : ts.headD 0 = t := by rw [hts]; rfl
  have hseqlen : (pauliSeqLoop p st.state_vector (1 <<< st.num_qubits) t cs).length
      = 2 ^ st.num_qubits := by
    cases p with
    | X => rw [pauliSeqLoop_X_eq, pairKernelLoop_length]; exact hlen
    | Y => rw [pauliSeqLoop_Y_eq, pairKernelLoop_length]; exact hlen
    | Z => rw [pauliSeqLoop_Z_eq, oneWriteLoop_length]; exact hlen
  rw [Pauli.apply]
  rw [hok]
  simp only [gpuEnabled, and_false, Bool.false_eq_true, if_false, hhead]
  by_cases hpar : PARALLEL_THRESHOLD_NUM_QUBITS ≤ st.num_qubits
  · rw [if_pos hpar]
    cases p with
    | X =>
      refine ⟨_, rfl, rfl, ?_, ?_⟩
      · show (pauliParX st.state_vector _ t cs).length = _
        rw [pauliParX_eq_seq]
        exact hseqlen
      · intro k hk
        show (pauliParX st.state_vector _ t cs).getD k 0 = _
        rw [pauliParX_eq_seq, pauliSeqLoop_getD _ _ _ _ _ hlen ht k hk]
    | Y =>
      refine ⟨_, rfl, rfl, ?_, ?_⟩
      · show (pauliParY st.state_vector _ t cs).length = _
        rw [pauliParY_eq_seq]
        exact hseqlen
      · intro k hk
        show (pauliParY st.state_vector _ t cs).getD k 0 = _
        rw [pauliParY_eq_seq, pauliSeqLoop_getD _ _ _ _ _ hlen ht k hk]
    | Z =>
      refine ⟨_, rfl, rfl, ?_, ?_⟩
      · show (pauliParZ st.state_vector _ t cs).length = _
        rw [pauliParZ_eq_seq]
        exact hseqlen
      · intro k hk
        show (pauliParZ st.state_vector _ t cs).getD k 0 = _
        rw [pauliParZ_eq_seq, pauliSeqLoop_getD _ _ _ _ _ hlen ht k hk]
  · rw [if_neg hpar]
    refine ⟨_, rfl, rfl, hseqlen, ?_⟩
    intro k hk
    exact pauliSeqLoop_getD _ _ _ _ _ hlen ht k hk

/-- operator.rs lines 601-619: CNOT::apply - validate with one expected
target, require exactly one control, delegate to Pauli X. -/
def CNOT.apply (state : State) (target_qubits control_qubits : List Nat) :
    Except Error State :=
  match validate_qubits state target_qubits control_qubits 1 with
  | .error e => .error e
  | .ok _ =>
    if control_qubits.length ≠ 1 then
      .error (.InvalidNumberOfQubits control_qubits.length)
    else
      Pauli.apply .X state target_qubits [control_qubits.headD 0]

/-- operator.rs lines 621-623. -/
def CNOT.base_qubits : Nat := 2

/-- operator.rs lines 783-803: Toffoli::apply - validate with one expected
target, require exactly two distinct controls, delegate to Pauli X. -/
def Toffoli.apply (state : State) (target_qubits control_qubits : List Nat) :
    Except Error State :=
  match validate_qubits state target_qubits control_qubits 1 with
  | .error e => .error e
  | .ok _ =>
    if control_qubits.length ≠ 2 then
      .error (.InvalidNumberOfQubits control_qubits.length)
    else if control_qubits.getD 0 0 = control_qubits.getD 1 0 then
      .error (.InvalidNumberOfQubits control_qubits.length)
    else
      Pauli.apply .X state target_qubits control_qubits

/-- operator.rs lines 805-807. -/
def Toffoli.base_qubits : Nat := 3

theorem CNOT_apply_eq_pauliX (st : State) (ts cs : List Nat) (hcs : cs.length = 1) :
    CNOT.apply st ts cs = Pauli.apply .X st ts cs := by
  obtain ⟨c, rfl⟩ : ∃ c, cs = [c] := by
    match cs, hcs with
    | [c], _ => exact ⟨c, rfl⟩
  rw [CNOT.apply]
  cases hv : validate_qubits st ts [c] 1 with
  | error e =>
    conv_rhs => rw [Pauli.apply]
    rw [hv]
  | ok u =>
    cases u
    simp

theorem Toffoli_apply_eq_pauliX (st : State) (ts cs : List Nat)
    (hcs : cs.length = 2) (hne : cs.getD 0 0 ≠ cs.getD 1 0) :
    Toffoli.apply st ts cs = Pauli.apply .X st ts cs := by
  rw [Toffoli.apply]
  cases hv : validate_qubits st ts cs 1 with
  | error e =>
    conv_rhs => rw [Pauli.apply]
    rw [hv]
  | ok u =>
    cases u
    rw [if_neg (by omega), if_neg hne]

theorem and_one_val (i t : Nat) :
    (i >>> t) &&& 1 = (if i.testBit t then 1 else 0) := by
  cases h : i.testBit t
  · rw [(and_one_eq_zero_iff i t).mpr h]
    simp
  · rw [(and_one_eq_one_iff i t).mpr h]
    simp

/-- operator.rs line 727: the SWAP partner index j = i XOR (1 shl t1) XOR (1 shl t2). -/
def swapPartner (t1 t2 i : Nat) : Nat := i ^^^ (1 <<< t1) ^^^ (1 <<< t2)

theorem swapPartner_invol (t1 t2 i : Nat) :
    swapPartner t1 t2 (swapPartner t1 t2 i) = i := by
  unfold swapPartner
  apply Nat.eq_of_testBit_eq
  intro j
  simp only [Nat.testBit_xor]
  cases i.testBit j <;> cases (1 <<< t1).testBit j <;> cases (1 <<< t2).testBit j <;> rfl

theorem swapPartner_testBit_t1 (t1 t2 i : Nat) (h12 : t1 ≠ t2) :
    (swapPartner t1 t2 i).testBit t1 = !i.testBit t1 := by
  unfold swapPartner
  rw [testBit_xor_shift_ne _ t2 t1 h12, testBit_xor_shift_self]

theorem swapPartner_testBit_t2 (t1 t2 i : Nat) (h12 : t1 ≠ t2) :
    (swapPartner t1 t2 i).testBit t2 = !i.testBit t2 := by
  unfold swapPartner
  rw [testBit_xor_shift_self, testBit_xor_shift_ne _ t1 t2 (fun h => h12 h.symm)]

theorem swapPartner_testBit_ne (t1 t2 i c : Nat) (hc1 : c ≠ t1) (hc2 : c ≠ t2) :
    (swapPartner t1 t2 i).testBit c = i.testBit c := by
  unfold swapPartner
  rw [testBit_xor_shift_ne _ t2 c hc2, testBit_xor_shift_ne _ t1 c hc1]

theorem swapPartner_lt (t1 t2 n i : Nat) (ht1 : t1 < n) (ht2 : t2 < n)
    (hi : i < 2 ^ n) : swapPartner t1 t2 i < 2 ^ n :=
  xor_shift_lt _ t2 n (xor_shift_lt i t1 n hi ht1) ht2

theorem swapPartner_inj (t1 t2 i i' : Nat)
    (h : swapPartner t1 t2 i = swapPartner t1 t2 i') : i = i' := by
  have := congrArg (swapPartner t1 t2) h
  rwa [swapPartner_invol, swapPartner_invol] at this

theorem swapPartner_ne (t1 t2 i : Nat) (h12 : t1 ≠ t2) : swapPartner t1 t2 i ≠ i := by
  intro he
  have h1 := swapPartner_testBit_t1 t1 t2 i h12
  rw [he] at h1
  cases h : i.testBit t1 <;> rw [h] at h1 <;> exact absurd h1 (by simp)

theorem swapPartner_diff (t1 t2 i : Nat) (h12 : t1 ≠ t2) :
    ((swapPartner t1 t2 i).testBit t1 = (swapPartner t1 t2 i).testBit t2)
      ↔ (i.testBit t1 = i.testBit t2) := by
  rw [swapPartner_testBit_t1 t1 t2 i h12, swapPartner_testBit_t2 t1 t2 i h12]
  cases i.testBit t1 <;> cases i.testBit t2 <;> simp

theorem bits_bne_iff (t1 t2 i : Nat) :
    (((i >>> t1) &&& 1) != ((i >>> t2) &&& 1)) = true ↔
      i.testBit t1 ≠ i.testBit t2 := by
  rw [and_one_val i t1, and_one_val i t2]
  cases h1 : i.testBit t1 <;> cases h2 : i.testBit t2 <;> simp

/-- operator.rs lines 721-738: sequential SWAP loop. -/
def swapSeqLoop (old : List ℂ) (dim t1 t2 : Nat) (cs : List Nat) : List ℂ :=
  twoWriteLoop (List.range dim)
    (fun i => ((((i >>> t1) &&& 1) != ((i >>> t2) &&& 1))
        && decide (i < swapPartner t1 t2 i)) && check_controls i cs)
    (fun i => i) (fun i => swapPartner t1 t2 i)
    (fun i => old.getD (swapPartner t1 t2 i) 0)
    (fun i => old.getD i 0) old

/-- operator.rs lines 694-719: parallel SWAP update collection. -/
def swapPar (old : List ℂ) (dim t1 t2 : Nat) (cs : List Nat) : List ℂ :=
  (((List.range dim).filterMap (fun i =>
      if ((i >>> t1) &&& 1) != ((i >>> t2) &&& 1) then
        if decide (i < swapPartner t1 t2 i) && check_controls i cs then
          some [(i, old.getD (swapPartner t1 t2 i) 0),
                (swapPartner t1 t2 i, old.getD i 0)]
        else none
      else none)).flatten).foldl (fun v p => v.set p.1 p.2) old

theorem swapPar_eq_seq (old : List ℂ) (dim t1 t2 : Nat) (cs : List Nat) :
    swapPar old dim t1 t2 cs = swapSeqLoop old dim t1 t2 cs := by
  unfold swapPar swapSeqLoop twoWriteLoop
  rw [foldl_set_flatten_filterMap]
  apply List.foldl_ext
  intro v i _
  dsimp only
  cases hb : (((i >>> t1) &&& 1) != ((i >>> t2) &&& 1)) with
  | false => simp
  | true =>
    cases hlt : decide (i < swapPartner t1 t2 i) with
    | false => simp
    | true =>
      cases hc : check_controls i cs with
      | false => simp
      | true => simp

/-- Per-index value of the SWAP transform: the pair (i, j) with differing
target bits is swapped once, from its representative i < j, when the
controls are satisfied at i. -/
def swapFormula (old : List ℂ) (t1 t2 : Nat) (cs : List Nat) (k : Nat) : ℂ :=
  if k.testBit t1 = k.testBit t2 then old.getD k 0
  else if check_controls (min k (swapPartner t1 t2 k)) cs then
    old.getD (swapPartner t1 t2 k) 0
  else old.getD k 0

theorem swapSeqLoop_getD (old : List ℂ) (n t1 t2 : Nat) (cs : List Nat)
    (hlen : old.length = 2 ^ n) (ht1 : t1 < n) (ht2 : t2 < n) (h12 : t1 ≠ t2)
    (k : Nat) (hk : k < 2 ^ n) :
    (swapSeqLoop old (1 <<< n) t1 t2 cs).getD k 0 = swapFormula old t1 t2 cs k := by
  have hguard : ∀ i : Nat,
      (((((i >>> t1) &&& 1) != ((i >>> t2) &&& 1))
        && decide (i < swapPartner t1 t2 i)) && check_controls i cs) = true ↔
      (i.testBit t1 ≠ i.testBit t2 ∧ i < swapPartner t1 t2 i ∧
        check_controls i cs = true) := by
    intro i
    constructor
    · intro h
      obtain ⟨h1, h3⟩ := (Bool.and_eq_true _ _).mp h
      obtain ⟨h1a, h1b⟩ := (Bool.and_eq_true _ _).mp h1
      exact ⟨(bits_bne_iff t1 t2 i).mp h1a, of_decide_eq_true h1b, h3⟩
    · intro ⟨h1, h2, h3⟩
      rw [(Bool.and_eq_true _ _), (Bool.and_eq_true _ _)]
      exact ⟨⟨(bits_bne_iff t1 t2 i).mpr h1, decide_eq_true h2⟩, h3⟩
  rw [Nat.one_shiftLeft]
  unfold swapSeqLoop swapFormula
  by_cases hsame : k.testBit t1 = k.testBit t2
  · rw [if_pos hsame]
    apply twoWriteLoop_not_written
    intro i' _ hGi'
    obtain ⟨hd, hlt', hc⟩ := (hguard i').mp hGi'
    constructor
    · intro he
      rw [he] at hd
      exact hd hsame
    · intro he
      have hd' : (swapPartner t1 t2 i').testBit t1 ≠ (swapPartner t1 t2 i').testBit t2 := by
        intro hcontra
        exact hd ((swapPartner_diff t1 t2 i' h12).mp hcontra)
      rw [he] at hd'
      exact hd' hsame
  · rw [if_neg hsame]
    have hdk : k.testBit t1 ≠ k.testBit t2 := hsame
    have hpne : swapPartner t1 t2 k ≠ k := swapPartner_ne t1 t2 k h12
    rcases Nat.lt_or_ge k (swapPartner t1 t2 k) with hkp | hkp
    · -- k is the representative: min = k
      have hmin : min k (swapPartner t1 t2 k) = k := Nat.min_eq_left (Nat.le_of_lt hkp)
      rw [hmin]
      by_cases hc : check_controls k cs = true
      · rw [if_pos hc]
        exact twoWriteLoop_w1 _ _ _ _ _ _ old k 0
          (List.mem_range.mpr hk) (List.nodup_range _)
          ((hguard k).mpr ⟨hdk, hkp, hc⟩)
          (Ne.symm hpne)
          (fun i' _ hGi' hii => by
            obtain ⟨hd', hlt', hc'⟩ := (hguard i').mp hGi'
            refine ⟨hii, fun he => ?_⟩
            have : i' = swapPartner t1 t2 k := by
              rw [← swapPartner_invol t1 t2 i', he]
            rw [this] at hlt'
            rw [swapPartner_invol] at hlt'
            omega)
          (by rw [hlen]; exact hk)
      · rw [if_neg hc]
        apply twoWriteLoop_not_written
        intro i' _ hGi'
        obtain ⟨hd', hlt', hc'⟩ := (hguard i').mp hGi'
        constructor
        · intro he
          rw [he] at hc'
          exact hc (by exact hc')
        · intro he
          have : i' = swapPartner t1 t2 k := by
            rw [← swapPartner_invol t1 t2 i', he]
          rw [this] at hlt'
          rw [swapPartner_invol] at hlt'
          omega
    · -- the partner is the representative: min = partner
      have hplt : swapPartner t1 t2 k < k := by
        omega
      have hmin : min k (swapPartner t1 t2 k) = swapPartner t1 t2 k :=
        Nat.min_eq_right (Nat.le_of_lt hplt)
      rw [hmin]
      have hpd : (swapPartner t1 t2 k).testBit t1 ≠ (swapPartner t1 t2 k).testBit t2 := by
        intro hcontra
        exact hdk ((swapPartner_diff t1 t2 k h12).mp hcontra)
      have hpk : swapPartner t1 t2 (swapPartner t1 t2 k) = k := swapPartner_invol t1 t2 k
      by_cases hc : check_controls (swapPartner t1 t2 k) cs = true
      · rw [if_pos hc]
        have := twoWriteLoop_w2 (List.range (2 ^ n)) _ (fun i => i)
          (fun i => swapPartner t1 t2 i)
          (fun i => old.getD (swapPartner t1 t2 i) 0)
          (fun i => old.getD i 0) old (swapPartner t1 t2 k) 0
          (List.mem_range.mpr (swapPartner_lt t1 t2 n k ht1 ht2 hk))
          (List.nodup_range _)
          ((hguard _).mpr ⟨hpd, by rw [hpk]; exact hplt, hc⟩)
          (fun i' _ hGi' hii => by
            obtain ⟨hd', hlt', hc'⟩ := (hguard i').mp hGi'
            constructor
            · show i' ≠ swapPartner t1 t2 (swapPartner t1 t2 k)
              rw [hpk]
              intro he
              rw [he] at hlt'
              omega
            · show swapPartner t1 t2 i' ≠ swapPartner t1 t2 (swapPartner t1 t2 k)
              intro he
              exact hii (swapPartner_inj t1 t2 _ _ he))
          (by show swapPartner t1 t2 (swapPartner t1 t2 k) < old.length
              rw [hpk, hlen]
              exact hk)
        simp only at this
        rw [hpk] at this
        exact this
      · rw [if_neg hc]
        apply twoWriteLoop_not_written
        intro i' _ hGi'
        obtain ⟨hd', hlt', hc'⟩ := (hguard i').mp hGi'
        constructor
        · intro he
          rw [he] at hlt'
          omega
        · intro he
          have hieq : i' = swapPartner t1 t2 k := by
            rw [← swapPartner_invol t1 t2 i', he]
          rw [hieq] at hc'
          exact hc hc'

theorem swapSeqLoop_length (old : List ℂ) (dim t1 t2 : Nat) (cs : List Nat) :
    (swapSeqLoop old dim t1 t2 cs).length = old.length :=
  twoWriteLoop_length _ _ _ _ _ _ _

/-- operator.rs lines 659-744: SWAP::apply. -/
def SWAP.apply (state : State) (target_qubits control_qubits : List Nat) :
    Except Error State :=
  match validate_qubits state target_qubits control_qubits 2 with
  | .error e => .error e
  | .ok _ =>
    let target_qubit_1 := target_qubits.headD 0
    let target_qubit_2 := target_qubits.getD 1 0
    let num_qubits := state.num_qubits
    if OPENCL_THRESHOLD_NUM_QUBITS ≤ num_qubits ∧ gpuEnabled = true then
      .ok { state_vector := state.state_vector, num_qubits := state.num_qubits }
    else if PARALLEL_THRESHOLD_NUM_QUBITS ≤ num_qubits then
      .ok { state_vector :=
              swapPar state.state_vector (1 <<< num_qubits) target_qubit_1
                target_qubit_2 control_qubits,
            num_qubits := state.num_qubits }
    else
      .ok { state_vector :=
              swapSeqLoop state.state_vector (1 <<< num_qubits) target_qubit_1
                target_qubit_2 control_qubits,
            num_qubits := state.num_qubits }

/-- operator.rs lines 746-748. -/
def SWAP.base_qubits : Nat := 2

/-- Master pointwise description of SWAP::apply on valid inputs. -/
theorem SWAP.swap_apply_ok (st : State) (ts cs : List Nat) (t1 t2 : Nat)
    (hts : ts = [t1, t2])
    (hok : validate_qubits st ts cs 2 = .ok ())
    (hlen : st.state_vector.length = 2 ^ st.num_qubits) :
    ∃ st', SWAP.apply st ts cs = .ok st' ∧
      st'.num_qubits = st.num_qubits ∧
      st'.state_vector.length = 2 ^ st.num_qubits ∧
      ∀ k, k < 2 ^ st.num_qubits →
        st'.state_vector.getD k 0 = swapFormula st.state_vector t1 t2 cs k := by
  have hval := (validate_qubits_ok_iff st ts cs 2).mp hok
  have ht1 : t1 < st.num_qubits := hval.2.1 t1 (by rw [hts]; simp)
  have ht2 : t2 < st.num_qubits := hval.2.1 t2 (by rw [hts]; simp)
  have h12 : t1 ≠ t2 := by
    have hnd := hval.2.2.2 (by omega)
    rw [hts] at hnd
    have := List.nodup_cons.mp hnd
    intro he
    exact this.1 (by rw [he]; simp)
  have hhead : ts.headD 0 = t1 := by rw [hts]; rfl
  have hsnd : ts.getD 1 0 = t2 := by rw [hts]; rfl
  rw [SWAP.apply]
  rw [hok]
  simp only [gpuEnabled, and_false, Bool.false_eq_true, if_false, hhead, hsnd]
  by_cases hpar : PARALLEL_THRESHOLD_NUM_QUBITS ≤ st.num_qubits
  · rw [if_pos hpar]
    refine ⟨_, rfl, rfl, ?_, ?_⟩
    · show (swapPar st.state_vector _ t1 t2 cs).length = _
      rw [swapPar_eq_seq, swapSeqLoop_length]
      exact hlen
    · intro k hk
      show (swapPar st.state_vector _ t1 t2 cs).getD k 0 = _
      rw [swapPar_eq_seq, swapSeqLoop_getD _ _ _ _ _ hlen ht1 ht2 h12 k hk]
  · rw [if_neg hpar]
    refine ⟨_, rfl, rfl, ?_, ?_⟩
    · show (swapSeqLoop st.state_vector _ t1 t2 cs).length = _
      rw [swapSeqLoop_length]
      exact hlen
    · intro k hk
      exact swapSeqLoop_getD _ _ _ _ _ hlen ht1 ht2 h12 k hk

/-! Diagonal (phase-type) kernels.  The sequential loop and the parallel
par_iter_mut for_each perform the same guarded one-position update at every
index (same guard, same formula), so one indexed one-write loop embeds both
CPU branches. -/

/-- operator.rs lines 917-927 (and 906-916 parallel): the guarded phase
multiplication loop shared by S, S-dagger, T, T-dagger and PhaseShift. -/
def phaseDiagLoop (old : List ℂ) (dim t : Nat) (cs : List Nat)
    (phase_factor : ℂ) : List ℂ :=
  oneWriteLoop (List.range dim)
    (fun i => ((i >>> t) &&& 1 == 1) && check_controls i cs)
    (fun i => old.getD i 0 * phase_factor) old

/-- operator.rs lines 1683-1701 (and 1663-1682 parallel): the RotateZ loop -
every control-satisfied index is multiplied by a phase depending on the
target bit. -/
def rotateZLoop (old : List ℂ) (dim t : Nat) (cs : List Nat)
    (phase_0 phase_1 : ℂ) : List ℂ :=
  oneWriteLoop (List.range dim)
    (fun i => check_controls i cs)
    (fun i => if (i >>> t) &&& 1 == 1 then old.getD i 0 * phase_1
      else old.getD i 0 * phase_0) old

theorem phaseDiagLoop_getD (old : List ℂ) (dim t : Nat) (cs : List Nat)
    (pf : ℂ) (hlen : old.length = dim) (k : Nat) (hk : k < dim) :
    (phaseDiagLoop old dim t cs pf).getD k 0 =
      if (((k >>> t) &&& 1 == 1) && check_controls k cs) = true then
        old.getD k 0 * pf
      else old.getD k 0 :=
  oneWriteLoop_range_getD dim _ _ old 0 hlen k hk

theorem rotateZLoop_getD (old : List ℂ) (dim t : Nat) (cs : List Nat)
    (p0 p1 : ℂ) (hlen : old.length = dim) (k : Nat) (hk : k < dim) :
    (rotateZLoop old dim t cs p0 p1).getD k 0 =
      if check_controls k cs = true then
        (if (k >>> t) &&& 1 == 1 then old.getD k 0 * p1 else old.getD k 0 * p0)
      else old.getD k 0 :=
  oneWriteLoop_range_getD dim _ _ old 0 hlen k hk

theorem phaseDiagLoop_length (old : List ℂ) (dim t : Nat) (cs : List Nat) (pf : ℂ) :
    (phaseDiagLoop old dim t cs pf).length = old.length :=
  oneWriteLoop_length _ _ _ _

theorem rotateZLoop_length (old : List ℂ) (dim t : Nat) (cs : List Nat) (p0 p1 : ℂ) :
    (rotateZLoop old dim t cs p0 p1).length = old.length :=
  oneWriteLoop_length _ _ _ _

/-- operator.rs lines 834-845: Identity::apply - validate, then return a
clone of the input state. -/
def Identity.apply (state : State) (target_qubits control_qubits : List Nat) :
    Except Error State :=
  match validate_qubits state target_qubits control_qubits 1 with
  | .error e => .error e
  | .ok _ => .ok state

def Identity.base_qubits : Nat := 1

/-- operator.rs lines 876-933: PhaseS::apply (phase factor i). -/
def PhaseS.apply (state : State) (target_qubits control_qubits : List Nat) :
    Except Error State :=
  match validate_qubits state target_qubits control_qubits 1 with
  | .error e => .error e
  | .ok _ =>
    let target_qubit := target_qubits.headD 0
    let num_qubits := state.num_qubits
    if OPENCL_THRESHOLD_NUM_QUBITS ≤ num_qubits ∧ gpuEnabled = true then
      .ok { state_vector := state.state_vector, num_qubits := num_qubits }
    else if PARALLEL_THRESHOLD_NUM_QUBITS ≤ num_qubits then
      .ok { state_vector :=
              phaseDiagLoop state.state_vector (1 <<< num_qubits) target_qubit
                control_qubits Complex.I,
            num_qubits := num_qubits }
    else
      .ok { state_vector :=
              phaseDiagLoop state.state_vector (1 <<< num_qubits) target_qubit
                control_qubits Complex.I,
            num_qubits := num_qubits }

def PhaseS.base_qubits : Nat := 1

/-- operator.rs lines 1058-1115: PhaseSdag::apply (phase factor -i). -/
def PhaseSdag.apply (state : State) (target_qubits control_qubits : List Nat) :
    Except Error State :=
  match validate_qubits state target_qubits control_qubits 1 with
  | .error e => .error e
  | .ok _ =>
    let target_qubit := target_qubits.headD 0
    let num_qubits := state.num_qubits
    if OPENCL_THRESHOLD_NUM_QUBITS ≤ num_qubits ∧ gpuEnabled = true then
      .ok { state_vector := state.state_vector, num_qubits := num_qubits }
    else if PARALLEL_THRESHOLD_NUM_QUBITS ≤ num_qubits then
      .ok { state_vector :=
              phaseDiagLoop state.state_vector (1 <<< num_qubits) target_qubit
                control_qubits (-Complex.I),
            num_qubits := num_qubits }
    else
      .ok { state_vector :=
              phaseDiagLoop state.state_vector (1 <<< num_qubits) target_qubit
                control_qubits (-Complex.I),
            num_qubits := num_qubits }

def PhaseSdag.base_qubits : Nat := 1

/-- operator.rs lines 964-1027: PhaseT::apply (phase factor exp(i pi/4)
written as invsqrt2 + i invsqrt2). -/
noncomputable def PhaseT.apply (state : State) (target_qubits control_qubits : List Nat) :
    Except Error State :=
  match validate_qubits state target_qubits control_qubits 1 with
  | .error e => .error e
  | .ok _ =>
    let target_qubit := target_qubits.headD 0
    let num_qubits := state.num_qubits
    if OPENCL_THRESHOLD_NUM_QUBITS ≤ num_qubits ∧ gpuEnabled = true then
      .ok { state_vector := state.state_vector, num_qubits := num_qubits }
    else if PARALLEL_THRESHOLD_NUM_QUBITS ≤ num_qubits then
      .ok { state_vector :=
              phaseDiagLoop state.state_vector (1 <<< num_qubits) target_qubit
                control_qubits ⟨sqrt_2_inv, sqrt_2_inv⟩,
            num_qubits := num_qubits }
    else
      .ok { state_vector :=
              phaseDiagLoop state.state_vector (1 <<< num_qubits) target_qubit
                control_qubits ⟨sqrt_2_inv, sqrt_2_inv⟩,
            num_qubits := num_qubits }

def PhaseT.base_qubits : Nat := 1

/-- operator.rs lines 1146-1209: PhaseTdag::apply (factor invsqrt2 - i invsqrt2). -/
noncomputable def PhaseTdag.apply (state : State) (target_qubits control_qubits : List Nat) :
    Except Error State :=
  match validate_qubits state target_qubits control_qubits 1 with
  | .error e => .error e
  | .ok _ =>
    let target_qubit := target_qubits.headD 0
    let num_qubits := state.num_qubits
    if OPENCL_THRESHOLD_NUM_QUBITS ≤ num_qubits ∧ gpuEnabled = true then
      .ok { state_vector := state.state_vector, num_qubits := num_qubits }
    else if PARALLEL_THRESHOLD_NUM_QUBITS ≤ num_qubits then
      .ok { state_vector :=
              phaseDiagLoop state.state_vector (1 <<< num_qubits) target_qubit
                control_qubits ⟨sqrt_2_inv, -sqrt_2_inv⟩,
            num_qubits := num_qubits }
    else
      .ok { state_vector :=
              phaseDiagLoop state.state_vector (1 <<< num_qubits) target_qubit
                control_qubits ⟨sqrt_2_inv, -sqrt_2_inv⟩,
            num_qubits := num_qubits }

def PhaseTdag.base_qubits : Nat := 1

/-- operator.rs lines 1224-1236: the PhaseShift operator value. -/
structure PhaseShift where
  angle : ℝ

/-- operator.rs lines 1261-1321: PhaseShift::apply
(factor cos angle + i sin angle). -/
noncomputable def PhaseShift.apply (self : PhaseShift) (state : State)
    (target_qubits control_qubits : List Nat) : Except Error State :=
  match validate_qubits state target_qubits control_qubits 1 with
  | .error e => .error e
  | .ok _ =>
    let target_qubit := target_qubits.headD 0
    let num_qubits := state.num_qubits
    if OPENCL_THRESHOLD_NUM_QUBITS ≤ num_qubits ∧ gpuEnabled = true then
      .ok { state_vector := state.state_vector, num_qubits := num_qubits }
    else if PARALLEL_THRESHOLD_NUM_QUBITS ≤ num_qubits then
      .ok { state_vector :=
              phaseDiagLoop state.state_vector (1 <<< num_qubits) target_qubit
                control_qubits ⟨Real.cos self.angle, Real.sin self.angle⟩,
            num_qubits := num_qubits }
    else
      .ok { state_vector :=
              phaseDiagLoop state.state_vector (1 <<< num_qubits) target_qubit
                control_qubits ⟨Real.cos self.angle, Real.sin self.angle⟩,
            num_qubits := num_qubits }

def PhaseShift.base_qubits : Nat := 1

/-- operator.rs lines 1600-1612: the RotateZ operator value. -/
structure RotateZ where
  angle : ℝ

/-- operator.rs lines 1629-1707: RotateZ::apply. -/
noncomputable def RotateZ.apply (self : RotateZ) (state : State)
    (target_qubits control_qubits : List Nat) : Except Error State :=
  match validate_qubits state target_qubits control_qubits 1 with
  | .error e => .error e
  | .ok _ =>
    let target_qubit := target_qubits.headD 0
    let num_qubits := state.num_qubits
    let half_angle := self.angle / 2
    if OPENCL_THRESHOLD_NUM_QUBITS ≤ num_qubits ∧ gpuEnabled = true then
      .ok { state_vector := state.state_vector, num_qubits := state.num_qubits }
    else if PARALLEL_THRESHOLD_NUM_QUBITS ≤ num_qubits then
      .ok { state_vector :=
              rotateZLoop state.state_vector (1 <<< num_qubits) target_qubit
                control_qubits ⟨Real.cos half_angle, -Real.sin half_angle⟩
                ⟨Real.cos half_angle, Real.sin half_angle⟩,
            num_qubits := state.num_qubits }
    else
      .ok { state_vector :=
              rotateZLoop state.state_vector (1 <<< num_qubits) target_qubit
                control_qubits ⟨Real.cos half_angle, -Real.sin half_angle⟩
                ⟨Real.cos half_angle, Real.sin half_angle⟩,
            num_qubits := state.num_qubits }

def RotateZ.base_qubits : Nat := 1

/-- operator.rs lines 1336-1348: the RotateX operator value. -/
structure RotateX where
  angle : ℝ

/-- operator.rs lines 1437-1447: sequential RotateX loop. -/
noncomputable def rotateXSeq (old : List ℂ) (dim t : Nat) (cs : List Nat)
    (cos_half sin_half : ℝ) : List ℂ :=
  pairKernelLoop old dim t
    (fun i => ((i >>> t) &&& 1 == 0) && check_controls i cs)
    (fun amp_i amp_j => (cos_half : ℂ) * amp_i - Complex.I * (sin_half : ℂ) * amp_j)
    (fun amp_i amp_j => -Complex.I * (sin_half : ℂ) * amp_i + (cos_half : ℂ) * amp_j)

/-- operator.rs lines 1408-1427: parallel RotateX update collection. -/
noncomputable def rotateXPar (old : List ℂ) (dim t : Nat) (cs : List Nat)
    (cos_half sin_half : ℝ) : List ℂ :=
  (((List.range dim).filterMap (fun i =>
      if ((i >>> t) &&& 1 == 0) && check_controls i cs then
        some [(i, (cos_half : ℂ) * old.getD i 0
                - Complex.I * (sin_half : ℂ) * old.getD (i ||| (1 <<< t)) 0),
              (i ||| (1 <<< t), -Complex.I * (sin_half : ℂ) * old.getD i 0
                + (cos_half : ℂ) * old.getD (i ||| (1 <<< t)) 0)]
      else none)).flatten).foldl (fun v p => v.set p.1 p.2) old

theorem rotateXPar_eq_seq (old : List ℂ) (dim t : Nat) (cs : List Nat)
    (ch sh : ℝ) : rotateXPar old dim t cs ch sh = rotateXSeq old dim t cs ch sh := by
  unfold rotateXPar rotateXSeq pairKernelLoop twoWriteLoop
  rw [foldl_set_flatten_filterMap]
  apply List.foldl_ext
  intro v i _
  dsimp only
  cases hg : (((i >>> t) &&& 1 == 0) && check_controls i cs) with
  | false => simp
  | true => simp

/-- operator.rs lines 1365-1454: RotateX::apply. -/
noncomputable def RotateX.apply (self : RotateX) (state : State)
    (target_qubits control_qubits : List Nat) : Except Error State :=
  match validate_qubits state target_qubits control_qubits 1 with
  | .error e => .error e
  | .ok _ =>
    let target_qubit := target_qubits.headD 0
    let num_qubits := state.num_qubits
    let half_angle := self.angle / 2
    if OPENCL_THRESHOLD_NUM_QUBITS ≤ num_qubits ∧ gpuEnabled = true then
      .ok { state_vector := state.state_vector, num_qubits := state.num_qubits }
    else if PARALLEL_THRESHOLD_NUM_QUBITS ≤ num_qubits then
      .ok { state_vector :=
              rotateXPar state.state_vector (1 <<< num_qubits) target_qubit
                control_qubits (Real.cos half_angle) (Real.sin half_angle),
            num_qubits := state.num_qubits }
    else
      .ok { state_vector :=
              rotateXSeq state.state_vector (1 <<< num_qubits) target_qubit
                control_qubits (Real.cos half_angle) (Real.sin half_angle),
            num_qubits := state.num_qubits }

def RotateX.base_qubits : Nat := 1

/-- operator.rs lines 1469-1481: the RotateY operator value. -/
structure RotateY where
  angle : ℝ

/-- operator.rs lines 1568-1578: sequential RotateY loop. -/
noncomputable def rotateYSeq (old : List ℂ) (dim t : Nat) (cs : List Nat)
    (cos_half sin_half : ℝ) : List ℂ :=
  pairKernelLoop old dim t
    (fun i => ((i >>> t) &&& 1 == 0) && check_controls i cs)
    (fun amp_i amp_j => (cos_half : ℂ) * amp_i - (sin_half : ℂ) * amp_j)
    (fun amp_i amp_j => (sin_half : ℂ) * amp_i + (cos_half : ℂ) * amp_j)

/-- operator.rs lines 1540-1559: parallel RotateY update collection. -/
noncomputable def rotateYPar (old : List ℂ) (dim t : Nat) (cs : List Nat)
    (cos_half sin_half : ℝ) : List ℂ :=
  (((List.range dim).filterMap (fun i =>
      if ((i >>> t) &&& 1 == 0) && check_controls i cs then
        some [(i, (cos_half : ℂ) * old.getD i 0
                - (sin_half : ℂ) * old.getD (i ||| (1 <<< t)) 0),
              (i ||| (1 <<< t), (sin_half : ℂ) * old.getD i 0
                + (cos_half : ℂ) * old.getD (i ||| (1 <<< t)) 0)]
      else none)).flatten).foldl (fun v p => v.set p.1 p.2) old

theorem rotateYPar_eq_seq (old : List ℂ) (dim t : Nat) (cs : List Nat)
    (ch sh : ℝ) : rotateYPar old dim t cs ch sh = rotateYSeq old dim t cs ch sh := by
  unfold rotateYPar rotateYSeq pairKernelLoop twoWriteLoop
  rw [foldl_set_flatten_filterMap]
  apply List.foldl_ext
  intro v i _
  dsimp only
  cases hg : (((i >>> t) &&& 1 == 0) && check_controls i cs) with
  | false => simp
  | true => simp

/-- operator.rs lines 1498-1585: RotateY::apply. -/
noncomputable def RotateY.apply (self : RotateY) (state : State)
    (target_qubits control_qubits : List Nat) : Except Error State :=
  match validate_qubits state target_qubits control_qubits 1 with
  | .error e => .error e
  | .ok _ =>
    let target_qubit := target_qubits.headD 0
    let num_qubits := state.num_qubits
    let half_angle := self.angle / 2
    if OPENCL_THRESHOLD_NUM_QUBITS ≤ num_qubits ∧ gpuEnabled = true then
      .ok { state_vector := state.state_vector, num_qubits := state.num_qubits }
    else if PARALLEL_THRESHOLD_NUM_QUBITS ≤ num_qubits then
      .ok { state_vector :=
              rotateYPar state.state_vector (1 <<< num_qubits) target_qubit
                control_qubits (Real.cos half_angle) (Real.sin half_angle),
            num_qubits := state.num_qubits }
    else
      .ok { state_vector :=
              rotateYSeq state.state_vector (1 <<< num_qubits) target_qubit
                control_qubits (Real.cos half_angle) (Real.sin half_angle),
            num_qubits := state.num_qubits }

def RotateY.base_qubits : Nat := 1

/-- The 2x2 complex matrix of a Unitary2 operator
(operator.rs lines 1744-1747 names: a = U_00, b = U_01, c = U_10, d = U_11). -/
structure Matrix2x2 where
  a : ℂ
  b : ℂ
  c : ℂ
  d : ℂ

/-- operator.rs lines 1721-1725: the Unitary2 operator value. -/
structure Unitary2 where
  matrix : Matrix2x2

/-- operator.rs line 1743: tol = f64::EPSILON * 2 with f64::EPSILON = 2^-52. -/
noncomputable def f64_EPSILON : ℝ := (2 : ℝ) ^ (-52 : ℤ)

/-- operator.rs lines 1741-1767: Unitary2::new - row-orthonormality check
on squared norms (U U-dagger = I). -/
noncomputable def Unitary2.new (matrix : Matrix2x2) : Except Error Unitary2 :=
  let tol : ℝ := f64_EPSILON * 2
  if |Complex.normSq matrix.a + Complex.normSq matrix.b - 1| > tol then
    .error .NonUnitaryMatrix
  else if |Complex.normSq matrix.c + Complex.normSq matrix.d - 1| > tol then
    .error .NonUnitaryMatrix
  else if Complex.normSq (matrix.a * star matrix.c + matrix.b * star matrix.d)
      > tol * tol then
    .error .NonUnitaryMatrix
  else .ok ⟨matrix⟩

/-- operator.rs lines 1822-1834: sequential Unitary2 loop. -/
noncomputable def unitary2Seq (old : List ℂ) (dim t : Nat) (cs : List Nat)
    (m : Matrix2x2) : List ℂ :=
  pairKernelLoop old dim t
    (fun i => ((i >>> t) &&& 1 == 0) && check_controls i cs)
    (fun amp_i amp_j => m.a * amp_i + m.b * amp_j)
    (fun amp_i amp_j => m.c * amp_i + m.d * amp_j)

/-- operator.rs lines 1801-1821: parallel Unitary2 update collection. -/
noncomputable def unitary2Par (old : List ℂ) (dim t : Nat) (cs : List Nat)
    (m : Matrix2x2) : List ℂ :=
  (((List.range dim).filterMap (fun i =>
      if ((i >>> t) &&& 1 == 0) && check_controls i cs then
        some [(i, m.a * old.getD i 0 + m.b * old.getD (i ||| (1 <<< t)) 0),
              (i ||| (1 <<< t),
               m.c * old.getD i 0 + m.d * old.getD (i ||| (1 <<< t)) 0)]
      else none)).flatten).foldl (fun v p => v.set p.1 p.2) old

theorem unitary2Par_eq_seq (old : List ℂ) (dim t : Nat) (cs : List Nat)
    (m : Matrix2x2) : unitary2Par old dim t cs m = unitary2Seq old dim t cs m := by
  unfold unitary2Par unitary2Seq pairKernelLoop twoWriteLoop
  rw [foldl_set_flatten_filterMap]
  apply List.foldl_ext
  intro v i _
  dsimp only
  cases hg : (((i >>> t) &&& 1 == 0) && check_controls i cs) with
  | false => simp
  | true => simp

/-- operator.rs lines 1784-1841: Unitary2::apply (no GPU branch). -/
noncomputable def Unitary2.apply (self : Unitary2) (state : State)
    (target_qubits control_qubits : List Nat) : Except Error State :=
  match validate_qubits state target_qubits control_qubits 1 with
  | .error e => .error e
  | .ok _ =>
    let t := target_qubits.headD 0
    let nq := state.num_qubits
    if PARALLEL_THRESHOLD_NUM_QUBITS ≤ nq then
      .ok { state_vector :=
              unitary2Par state.state_vector (1 <<< nq) t control_qubits self.matrix,
            num_qubits := nq }
    else
      .ok { state_vector :=
              unitary2Seq state.state_vector (1 <<< nq) t control_qubits self.matrix,
            num_qubits := nq }

def Unitary2.base_qubits : Nat := 1

/-! Control semantics: every kernel leaves an amplitude unchanged when some
control bit of its basis index is 0. -/

theorem guard_bit_imp (t : Nat) (cs : List Nat) (i : Nat)
    (h : (((i >>> t) &&& 1 == 0) && check_controls i cs) = true) :
    i.testBit t = false := by
  have := (Bool.and_eq_true _ _).mp h
  rw [beq_and_one_zero] at this
  cases hb : i.testBit t
  · rfl
  · rw [hb] at this
    exact absurd this.1 (by simp)

theorem guard_ctrl_imp (t : Nat) (cs : List Nat) (i : Nat)
    (h : (((i >>> t) &&& 1 == 0) && check_controls i cs) = true) :
    check_controls i cs = true :=
  ((Bool.and_eq_true _ _).mp h).2

theorem guard2_bit_imp (t : Nat) (cs : List Nat) (i : Nat)
    (h : (check_controls i cs && ((i >>> t) &&& 1 == 0)) = true) :
    i.testBit t = false := by
  have := (Bool.and_eq_true _ _).mp h
  rw [beq_and_one_zero] at this
  cases hb : i.testBit t
  · rfl
  · rw [hb] at this
    exact absurd this.2 (by simp)

theorem guard2_ctrl_imp (t : Nat) (cs : List Nat) (i : Nat)
    (h : (check_controls i cs && ((i >>> t) &&& 1 == 0)) = true) :
    check_controls i cs = true :=
  ((Bool.and_eq_true _ _).mp h).1

theorem pairKernelLoop_ctrl_unchanged (old : List ℂ) (n t : Nat) (G : Nat → Bool)
    (f g : ℂ → ℂ → ℂ) (cs : List Nat) (c k : Nat)
    (hG : ∀ i, G i = true → i.testBit t = false)
    (hGc : ∀ i, G i = true → check_controls i cs = true)
    (hc : c ∈ cs) (hct : c ≠ t) (hbit : k.testBit c = false)
    (hlen : old.length = 2 ^ n) (ht : t < n) (hk : k < 2 ^ n) :
    (pairKernelLoop old (2 ^ n) t G f g).getD k 0 = old.getD k 0 := by
  rw [pairKernelLoop_getD old n t G f g hG hlen ht k hk]
  by_cases hbitT : k.testBit t = false
  · rw [if_pos hbitT]
    have hng : ¬G k = true := fun hGk => by
      have h1 := hGc k hGk
      rw [check_controls_eq_false k cs c hc hbit] at h1
      exact absurd h1 (by simp)
    rw [if_neg hng]
  · rw [if_neg hbitT]
    have hb2 : (k ^^^ (1 <<< t)).testBit c = false := by
      rw [testBit_xor_shift_ne k t c hct]
      exact hbit
    have hng : ¬G (k ^^^ (1 <<< t)) = true := fun hGk => by
      have h1 := hGc _ hGk
      rw [check_controls_eq_false _ cs c hc hb2] at h1
      exact absurd h1 (by simp)
    rw [if_neg hng]

theorem phaseDiagLoop_ctrl_unchanged (old : List ℂ) (dim t : Nat) (cs : List Nat)
    (pf : ℂ) (c k : Nat) (hc : c ∈ cs) (hbit : k.testBit c = false)
    (hlen : old.length = dim) (hk : k < dim) :
    (phaseDiagLoop old dim t cs pf).getD k 0 = old.getD k 0 := by
  rw [phaseDiagLoop_getD old dim t cs pf hlen k hk]
  simp [check_controls_eq_false k cs c hc hbit]

theorem rotateZLoop_ctrl_unchanged (old : List ℂ) (dim t : Nat) (cs : List Nat)
    (p0 p1 : ℂ) (c k : Nat) (hc : c ∈ cs) (hbit : k.testBit c = false)
    (hlen : old.length = dim) (hk : k < dim) :
    (rotateZLoop old dim t cs p0 p1).getD k 0 = old.getD k 0 := by
  rw [rotateZLoop_getD old dim t cs p0 p1 hlen k hk]
  simp [check_controls_eq_false k cs c hc hbit]

theorem validate_one_target_shape (st : State) (ts cs : List Nat)
    (hok : validate_qubits st ts cs 1 = .ok ()) : ts = [ts.headD 0] := by
  have hlen1 : ts.length = 1 := ((validate_qubits_ok_iff st ts cs 1).mp hok).1
  match ts, hlen1 with
  | [t], _ => rfl

theorem validate_two_target_shape (st : State) (ts cs : List Nat)
    (hok : validate_qubits st ts cs 2 = .ok ()) : ts = [ts.headD 0, ts.getD 1 0] := by
  have hlen2 : ts.length = 2 := ((validate_qubits_ok_iff st ts cs 2).mp hok).1
  match ts, hlen2 with
  | [t1, t2], _ => rfl

theorem validate_control_not_target (st : State) (ts cs : List Nat) (E : Nat)
    (hok : validate_qubits st ts cs E = .ok ()) (c : Nat) (hc : c ∈ cs) :
    c ∉ ts :=
  (((validate_qubits_ok_iff st ts cs E).mp hok).2.2.1 c hc).2

theorem validate_target_lt (st : State) (ts cs : List Nat) (E : Nat)
    (hok : validate_qubits st ts cs E = .ok ()) (t : Nat) (ht : t ∈ ts) :
    t < st.num_qubits :=
  ((validate_qubits_ok_iff st ts cs E).mp hok).2.1 t ht

theorem hadamardFormula_ctrl (old : List ℂ) (t : Nat) (cs : List Nat) (c k : Nat)
    (hc : c ∈ cs) (hct : c ≠ t) (hbit : k.testBit c = false) :
    hadamardFormula old t cs k = old.getD k 0 := by
  unfold hadamardFormula
  have h1 := check_controls_eq_false k cs c hc hbit
  have h2 := check_controls_eq_false (k ^^^ (1 <<< t)) cs c hc
    (by rw [testBit_xor_shift_ne k t c hct]; exact hbit)
  by_cases hb : k.testBit t = false
  · rw [if_pos hb, h1]
    simp
  · rw [if_neg hb, h2]
    simp

theorem pauliFormula_ctrl (p : Pauli) (old : List ℂ) (t : Nat) (cs : List Nat)
    (c k : Nat) (hc : c ∈ cs) (hct : c ≠ t) (hbit : k.testBit c = false) :
    pauliFormula p old t cs k = old.getD k 0 := by
  have h1 := check_controls_eq_false k cs c hc hbit
  have h2 := check_controls_eq_false (k ^^^ (1 <<< t)) cs c hc
    (by rw [testBit_xor_shift_ne k t c hct]; exact hbit)
  cases p with
  | X =>
    simp only [pauliFormula]
    by_cases hb : k.testBit t = false
    · rw [if_pos hb, h1]
      simp
    · rw [if_neg hb, h2]
      simp
  | Y =>
    simp only [pauliFormula]
    by_cases hb : k.testBit t = false
    · rw [if_pos hb, h1]
      simp
    · rw [if_neg hb, h2]
      simp
  | Z =>
    simp only [pauliFormula]
    rw [if_neg (fun hcc => by rw [h1] at hcc; exact absurd hcc.1 (by simp))]

theorem swapFormula_ctrl (old : List ℂ) (t1 t2 : Nat) (cs : List Nat)
    (c k : Nat) (hc : c ∈ cs) (hct1 : c ≠ t1) (hct2 : c ≠ t2)
    (hbit : k.testBit c = false) :
    swapFormula old t1 t2 cs k = old.getD k 0 := by
  unfold swapFormula
  by_cases hsame : k.testBit t1 = k.testBit t2
  · rw [if_pos hsame]
  · rw [if_neg hsame]
    have hpbit : (swapPartner t1 t2 k).testBit c = false := by
      rw [swapPartner_testBit_ne t1 t2 k c hct1 hct2]
      exact hbit
    have hminbit : (min k (swapPartner t1 t2 k)).testBit c = false := by
      rcases min_choice k (swapPartner t1 t2 k) with hm | hm
      · rw [hm]; exact hbit
      · rw [hm]; exact hpbit
    rw [if_neg (by rw [check_controls_eq_false _ cs c hc hminbit]; simp)]

/-- Hadamard acts as the identity on indices with a zero control bit. -/
theorem Hadamard.hadamard_control_identity (st : State) (ts cs : List Nat) (c k : Nat)
    (hok : validate_qubits st ts cs 1 = .ok ()) (hc : c ∈ cs)
    (hbit : k.testBit c = false)
    (hlen : st.state_vector.length = 2 ^ st.num_qubits)
    (hk : k < 2 ^ st.num_qubits) :
    (Hadamard.apply st ts cs).map (fun s => s.state_vector.getD k 0) =
      .ok (st.state_vector.getD k 0) := by
  have hts := validate_one_target_shape st ts cs hok
  have hct : c ≠ ts.headD 0 := by
    have := validate_control_not_target st ts cs 1 hok c hc
    rw [hts] at this
    intro he
    exact this (by rw [he]; simp)
  obtain ⟨st', happ, _, _, hpt⟩ := Hadamard.hadamard_apply_ok st ts cs (ts.headD 0) hts hok hlen
  rw [happ]
  show Except.ok (st'.state_vector.getD k 0) = _
  rw [hpt k hk, hadamardFormula_ctrl st.state_vector (ts.headD 0) cs c k hc hct hbit]

/-- Pauli X, Y, Z act as the identity on indices with a zero control bit. -/
theorem Pauli.pauli_control_identity (p : Pauli) (st : State) (ts cs : List Nat) (c k : Nat)
    (hok : validate_qubits st ts cs 1 = .ok ()) (hc : c ∈ cs)
    (hbit : k.testBit c = false)
    (hlen : st.state_vector.length = 2 ^ st.num_qubits)
    (hk : k < 2 ^ st.num_qubits) :
    (Pauli.apply p st ts cs).map (fun s => s.state_vector.getD k 0) =
      .ok (st.state_vector.getD k 0) := by
  have hts := validate_one_target_shape st ts cs hok
  have hct : c ≠ ts.headD 0 := by
    have := validate_control_not_target st ts cs 1 hok c hc
    rw [hts] at this
    intro he
    exact this (by rw [he]; simp)
  obtain ⟨st', happ, _, _, hpt⟩ := Pauli.pauli_apply_ok p st ts cs (ts.headD 0) hts hok hlen
  rw [happ]
  show Except.ok (st'.state_vector.getD k 0) = _
  rw [hpt k hk, pauliFormula_ctrl p st.state_vector (ts.headD 0) cs c k hc hct hbit]

/-- SWAP acts as the identity on indices with a zero control bit. -/
theorem SWAP.swap_control_identity (st : State) (ts cs : List Nat) (c k : Nat)
    (hok : validate_qubits st ts cs 2 = .ok ()) (hc : c ∈ cs)
    (hbit : k.testBit c = false)
    (hlen : st.state_vector.length = 2 ^ st.num_qubits)
    (hk : k < 2 ^ st.num_qubits) :
    (SWAP.apply st ts cs).map (fun s => s.state_vector.getD k 0) =
      .ok (st.state_vector.getD k 0) := by
  have hts := validate_two_target_shape st ts cs hok
  have hcts := validate_control_not_target st ts cs 2 hok c hc
  rw [hts] at hcts
  have hct1 : c ≠ ts.headD 0 := fun he => hcts (by rw [he]; simp)
  have hct2 : c ≠ ts.getD 1 0 := fun he => hcts (by rw [he]; simp)
  obtain ⟨st', happ, _, _, hpt⟩ :=
    SWAP.swap_apply_ok st ts cs (ts.headD 0) (ts.getD 1 0) hts hok hlen
  rw [happ]
  show Except.ok (st'.state_vector.getD k 0) = _
  rw [hpt k hk,
    swapFormula_ctrl st.state_vector (ts.headD 0) (ts.getD 1 0) cs c k hc hct1 hct2 hbit]

/-- Identity::apply returns the input state unchanged. -/
theorem Identity.identity_control_identity (st : State) (ts cs : List Nat) (k : Nat)
    (hok : validate_qubits st ts cs 1 = .ok ()) :
    (Identity.apply st ts cs).map (fun s => s.state_vector.getD k 0) =
      .ok (st.state_vector.getD k 0) := by
  rw [Identity.apply, hok]
  rfl

theorem PhaseS.phaseS_control_identity (st : State) (ts cs : List Nat) (c k : Nat)
    (hok : validate_qubits st ts cs 1 = .ok ()) (hc : c ∈ cs)
    (hbit : k.testBit c = false)
    (hlen : st.state_vector.length = 2 ^ st.num_qubits)
    (hk : k < 2 ^ st.num_qubits) :
    (PhaseS.apply st ts cs).map (fun s => s.state_vector.getD k 0) =
      .ok (st.state_vector.getD k 0) := by
  rw [PhaseS.apply, hok]
  simp only [gpuEnabled, and_false, Bool.false_eq_true, if_false, ite_self]
  show Except.ok ((phaseDiagLoop st.state_vector (1 <<< st.num_qubits) _ cs _).getD k 0)
    = _
  rw [phaseDiagLoop_ctrl_unchanged _ _ _ _ _ c k hc hbit
    (by rw [Nat.one_shiftLeft]; exact hlen) (by rw [Nat.one_shiftLeft]; exact hk)]

theorem PhaseSdag.phaseSdag_control_identity (st : State) (ts cs : List Nat) (c k : Nat)
    (hok : validate_qubits st ts cs 1 = .ok ()) (hc : c ∈ cs)
    (hbit : k.testBit c = false)
    (hlen : st.state_vector.length = 2 ^ st.num_qubits)
    (hk : k < 2 ^ st.num_qubits) :
    (PhaseSdag.apply st ts cs).map (fun s => s.state_vector.getD k 0) =
      .ok (st.state_vector.getD k 0) := by
  rw [PhaseSdag.apply, hok]
  simp only [gpuEnabled, and_false, Bool.false_eq_true, if_false, ite_self]
  show Except.ok ((phaseDiagLoop st.state_vector (1 <<< st.num_qubits) _ cs _).getD k 0)
    = _
  rw [phaseDiagLoop_ctrl_unchanged _ _ _ _ _ c k hc hbit
    (by rw [Nat.one_shiftLeft]; exact hlen) (by rw [Nat.one_shiftLeft]; exact hk)]

theorem PhaseT.phaseT_control_identity (st : State) (ts cs : List Nat) (c k : Nat)
    (hok : validate_qubits st ts cs 1 = .ok ()) (hc : c ∈ cs)
    (hbit : k.testBit c = false)
    (hlen : st.state_vector.length = 2 ^ st.num_qubits)
    (hk : k < 2 ^ st.num_qubits) :
    (PhaseT.apply st ts cs).map (fun s => s.state_vector.getD k 0) =
      .ok (st.state_vector.getD k 0) := by
  rw [PhaseT.apply, hok]
  simp only [gpuEnabled, and_false, Bool.false_eq_true, if_false, ite_self]
  show Except.ok ((phaseDiagLoop st.state_vector (1 <<< st.num_qubits) _ cs _).getD k 0)
    = _
  rw [phaseDiagLoop_ctrl_unchanged _ _ _ _ _ c k hc hbit
    (by rw [Nat.one_shiftLeft]; exact hlen) (by rw [Nat.one_shiftLeft]; exact hk)]

theorem PhaseTdag.phaseTdag_control_identity (st : State) (ts cs : List Nat) (c k : Nat)
    (hok : validate_qubits st ts cs 1 = .ok ()) (hc : c ∈ cs)
    (hbit : k.testBit c = false)
    (hlen : st.state_vector.length = 2 ^ st.num_qubits)
    (hk : k < 2 ^ st.num_qubits) :
    (PhaseTdag.apply st ts cs).map (fun s => s.state_vector.getD k 0) =
      .ok (st.state_vector.getD k 0) := by
  rw [PhaseTdag.apply, hok]
  simp only [gpuEnabled, and_false, Bool.false_eq_true, if_false, ite_self]
  show Except.ok ((phaseDiagLoop st.state_vector (1 <<< st.num_qubits) _ cs _).getD k 0)
    = _
  rw [phaseDiagLoop_ctrl_unchanged _ _ _ _ _ c k hc hbit
    (by rw [Nat.one_shiftLeft]; exact hlen) (by rw [Nat.one_shiftLeft]; exact hk)]

theorem PhaseShift.phaseShift_control_identity (self : PhaseShift) (st : State)
    (ts cs : List Nat) (c k : Nat)
    (hok : validate_qubits st ts cs 1 = .ok ()) (hc : c ∈ cs)
    (hbit : k.testBit c = false)
    (hlen : st.state_vector.length = 2 ^ st.num_qubits)
    (hk : k < 2 ^ st.num_qubits) :
    (PhaseShift.apply self st ts cs).map (fun s => s.state_vector.getD k 0) =
      .ok (st.state_vector.getD k 0) := by
  rw [PhaseShift.apply, hok]
  simp only [gpuEnabled, and_false, Bool.false_eq_true, if_false, ite_self]
  show Except.ok ((phaseDiagLoop st.state_vector (1 <<< st.num_qubits) _ cs _).getD k 0)
    = _
  rw [phaseDiagLoop_ctrl_unchanged _ _ _ _ _ c k hc hbit
    (by rw [Nat.one_shiftLeft]; exact hlen) (by rw [Nat.one_shiftLeft]; exact hk)]

theorem RotateZ.rotateZ_control_identity (self : RotateZ) (st : State)
    (ts cs : List Nat) (c k : Nat)
    (hok : validate_qubits st ts cs 1 = .ok ()) (hc : c ∈ cs)
    (hbit : k.testBit c = false)
    (hlen : st.state_vector.length = 2 ^ st.num_qubits)
    (hk : k < 2 ^ st.num_qubits) :
    (RotateZ.apply self st ts cs).map (fun s => s.state_vector.getD k 0) =
      .ok (st.state_vector.getD k 0) := by
  rw [RotateZ.apply, hok]
  simp only [gpuEnabled, and_false, Bool.false_eq_true, if_false, ite_self]
  show Except.ok ((rotateZLoop st.state_vector (1 <<< st.num_qubits) _ cs _ _).getD k 0)
    = _
  rw [rotateZLoop_ctrl_unchanged _ _ _ _ _ _ c k hc hbit
    (by rw [Nat.one_shiftLeft]; exact hlen) (by rw [Nat.one_shiftLeft]; exact hk)]

theorem RotateX.rotateX_control_identity (self : RotateX) (st : State)
    (ts cs : List Nat) (c k : Nat)
    (hok : validate_qubits st ts cs 1 = .ok ()) (hc : c ∈ cs)
    (hbit : k.testBit c = false)
    (hlen : st.state_vector.length = 2 ^ st.num_qubits)
    (hk : k < 2 ^ st.num_qubits) :
    (RotateX.apply self st ts cs).map (fun s => s.state_vector.getD k 0) =
      .ok (st.state_vector.getD k 0) := by
  have hts := validate_one_target_shape st ts cs hok
  have ht : ts.headD 0 < st.num_qubits :=
    validate_target_lt st ts cs 1 hok _ (by rw [hts]; simp)
  have hct : c ≠ ts.headD 0 := by
    have := validate_control_not_target st ts cs 1 hok c hc
    rw [hts] at this
    intro he
    exact this (by rw [he]; simp)
  rw [RotateX.apply, hok]
  simp only [gpuEnabled, and_false, Bool.false_eq_true, if_false]
  have hcore : ∀ ch sh : ℝ,
      (rotateXSeq st.state_vector (1 <<< st.num_qubits) (ts.headD 0) cs ch sh).getD k 0
        = st.state_vector.getD k 0 := by
    intro ch sh
    unfold rotateXSeq
    rw [Nat.one_shiftLeft]
    exact pairKernelLoop_ctrl_unchanged st.state_vector st.num_qubits (ts.headD 0)
      _ _ _ cs c k (guard_bit_imp _ cs) (guard_ctrl_imp _ cs) hc hct hbit hlen ht hk
  by_cases hpar : PARALLEL_THRESHOLD_NUM_QUBITS ≤ st.num_qubits
  · rw [if_pos hpar]
    show Except.ok ((rotateXPar st.state_vector _ _ cs _ _).getD k 0) = _
    rw [rotateXPar_eq_seq, hcore]
  · rw [if_neg hpar]
    show Except.ok ((rotateXSeq st.state_vector _ _ cs _ _).getD k 0) = _
    rw [hcore]

theorem RotateY.rotateY_control_identity (self : RotateY) (st : State)
    (ts cs : List Nat) (c k : Nat)
    (hok : validate_qubits st ts cs 1 = .ok ()) (hc : c ∈ cs)
    (hbit : k.testBit c = false)
    (hlen : st.state_vector.length = 2 ^ st.num_qubits)
    (hk : k < 2 ^ st.num_qubits) :
    (RotateY.apply self st ts cs).map (fun s => s.state_vector.getD k 0) =
      .ok (st.state_vector.getD k 0) := by
  have hts := validate_one_target_shape st ts cs hok
  have ht : ts.headD 0 < st.num_qubits :=
    validate_target_lt st ts cs 1 hok _ (by rw [hts]; simp)
  have hct : c ≠ ts.headD 0 := by
    have := validate_control_not_target st ts cs 1 hok c hc
    rw [hts] at this
    intro he
    exact this (by rw [he]; simp)
  rw [RotateY.apply, hok]
  simp only [gpuEnabled, and_false, Bool.false_eq_true, if_false]
  have hcore : ∀ ch sh : ℝ,
      (rotateYSeq st.state_vector (1 <<< st.num_qubits) (ts.headD 0) cs ch sh).getD k 0
        = st.state_vector.getD k 0 := by
    intro ch sh
    unfold rotateYSeq
    rw [Nat.one_shiftLeft]
    exact pairKernelLoop_ctrl_unchanged st.state_vector st.num_qubits (ts.headD 0)
      _ _ _ cs c k (guard_bit_imp _ cs) (guard_ctrl_imp _ cs) hc hct hbit hlen ht hk
  by_cases hpar : PARALLEL_THRESHOLD_NUM_QUBITS ≤ st.num_qubits
  · rw [if_pos hpar]
    show Except.ok ((rotateYPar st.state_vector _ _ cs _ _).getD k 0) = _
    rw [rotateYPar_eq_seq, hcore]
  · rw [if_neg hpar]
    show Except.ok ((rotateYSeq st.state_vector _ _ cs _ _).getD k 0) = _
    rw [hcore]

theorem Unitary2.unitary2_control_identity (self : Unitary2) (st : State)
    (ts cs : List Nat) (c k : Nat)
    (hok : validate_qubits st ts cs 1 = .ok ()) (hc : c ∈ cs)
    (hbit : k.testBit c = false)
    (hlen : st.state_vector.length = 2 ^ st.num_qubits)
    (hk : k < 2 ^ st.num_qubits) :
    (Unitary2.apply self st ts cs).map (fun s => s.state_vector.getD k 0) =
      .ok (st.state_vector.getD k 0) := by
  have hts := validate_one_target_shape st ts cs hok
  have ht : ts.headD 0 < st.num_qubits :=
    validate_target_lt st ts cs 1 hok _ (by rw [hts]; simp)
  have hct : c ≠ ts.headD 0 := by
    have := validate_control_not_target st ts cs 1 hok c hc
    rw [hts] at this
    intro he
    exact this (by rw [he]; simp)
  rw [Unitary2.apply, hok]
  have hcore :
      (unitary2Seq st.state_vector (1 <<< st.num_qubits) (ts.headD 0) cs
        self.matrix).getD k 0 = st.state_vector.getD k 0 := by
    unfold unitary2Seq
    rw [Nat.one_shiftLeft]
    exact pairKernelLoop_ctrl_unchanged st.state_vector st.num_qubits (ts.headD 0)
      _ _ _ cs c k (guard_bit_imp _ cs) (guard_ctrl_imp _ cs) hc hct hbit hlen ht hk
  by_cases hpar : PARALLEL_THRESHOLD_NUM_QUBITS ≤ st.num_qubits
  · rw [if_pos hpar]
    show Except.ok ((unitary2Par st.state_vector _ _ cs _).getD k 0) = _
    rw [unitary2Par_eq_seq, hcore]
  · rw [if_neg hpar]
    show Except.ok ((unitary2Seq st.state_vector _ _ cs _).getD k 0) = _
    rw [hcore]

theorem CNOT.cnot_control_identity (st : State) (ts cs : List Nat) (c k : Nat)
    (hcs1 : cs.length = 1)
    (hok : validate_qubits st ts cs 1 = .ok ()) (hc : c ∈ cs)
    (hbit : k.testBit c = false)
    (hlen : st.state_vector.length = 2 ^ st.num_qubits)
    (hk : k < 2 ^ st.num_qubits) :
    (CNOT.apply st ts cs).map (fun s => s.state_vector.getD k 0) =
      .ok (st.state_vector.getD k 0) := by
  rw [CNOT_apply_eq_pauliX st ts cs hcs1]
  exact Pauli.pauli_control_identity .X st ts cs c k hok hc hbit hlen hk

theorem Toffoli.toffoli_control_identity (st : State) (ts cs : List Nat) (c k : Nat)
    (hcs2 : cs.length = 2) (hne : cs.getD 0 0 ≠ cs.getD 1 0)
    (hok : validate_qubits st ts cs 1 = .ok ()) (hc : c ∈ cs)
    (hbit : k.testBit c = false)
    (hlen : st.state_vector.length = 2 ^ st.num_qubits)
    (hk : k < 2 ^ st.num_qubits) :
    (Toffoli.apply st ts cs).map (fun s => s.state_vector.getD k 0) =
      .ok (st.state_vector.getD k 0) := by
  rw [Toffoli_apply_eq_pauliX st ts cs hcs2 hne]
  exact Pauli.pauli_control_identity .X st ts cs c k hok hc hbit hlen hk

/-! Circuit model.  gate.rs is not under src/; the Gate type is modelled
from the spec. -/

/-- Modelled from the spec: the closed operator enumeration of section 3
(gate.rs and the Operator trait objects it stores are outside src/).
The measurement gate variant is omitted: its execution draws randomness
and no verified claim concerns it. -/
inductive Op where
  | hadamard
  | pauli (p : Pauli)
  | identityOp
  | phaseS
  | phaseSdag
  | phaseT
  | phaseTdag
  | phaseShift (g : PhaseShift)
  | rotateX (g : RotateX)
  | rotateY (g : RotateY)
  | rotateZ (g : RotateZ)
  | unitary2 (g : Unitary2)
  | cnot
  | swap
  | toffoli

/-- Dispatch to the concrete operator applys embedded above. -/
noncomputable def Op.apply (o : Op) (st : State) (ts cs : List Nat) :
    Except Error State :=
  match o with
  | .hadamard => Hadamard.apply st ts cs
  | .pauli p => Pauli.apply p st ts cs
  | .identityOp => Identity.apply st ts cs
  | .phaseS => PhaseS.apply st ts cs
  | .phaseSdag => PhaseSdag.apply st ts cs
  | .phaseT => PhaseT.apply st ts cs
  | .phaseTdag => PhaseTdag.apply st ts cs
  | .phaseShift g => PhaseShift.apply g st ts cs
  | .rotateX g => RotateX.apply g st ts cs
  | .rotateY g => RotateY.apply g st ts cs
  | .rotateZ g => RotateZ.apply g st ts cs
  | .unitary2 g => Unitary2.apply g st ts cs
  | .cnot => CNOT.apply st ts cs
  | .swap => SWAP.apply st ts cs
  | .toffoli => Toffoli.apply st ts cs

/-- Modelled from the spec (section 3): a gate pairs an operator with its
target and control qubit lists. -/
structure Gate where
  operator : Op
  targets : List Nat
  controls : List Nat

/-- Modelled from the spec: accessor used by circuit.rs. -/
def Gate.get_target_qubits (g : Gate) : List Nat := g.targets

/-- Modelled from the spec: for an operator gate the control list is
present (circuit.rs matches on an Option). -/
def Gate.get_control_qubits (g : Gate) : Option (List Nat) := some g.controls

/-- Modelled from the spec: applying a gate applies its operator to the
state at its targets and controls. -/
noncomputable def Gate.apply (g : Gate) (st : State) : Except Error State :=
  g.operator.apply st g.targets g.controls

/-- circuit.rs lines 15-21. -/
structure Circuit where
  gates : List Gate
  num_qubits : Nat

/-- circuit.rs lines 25-42: _validate_gate_qubits. -/
def Circuit._validate_gate_qubits (gate : Gate) (circuit_num_qubits : Nat) :
    Except Error Unit :=
  match gate.get_target_qubits.find? (fun q => circuit_num_qubits ≤ q) with
  | some q => .error (.InvalidQubitIndex q circuit_num_qubits)
  | none =>
    match gate.get_control_qubits with
    | some control_qubits =>
      match control_qubits.find? (fun q => circuit_num_qubits ≤ q) with
      | some q => .error (.InvalidQubitIndex q circuit_num_qubits)
      | none => .ok ()
    | none => .ok ()

/-- circuit.rs lines 53-58. -/
def Circuit.new (num_qubits : Nat) : Circuit :=
  { gates := [], num_qubits := num_qubits }

/-- circuit.rs lines 70-73: the validation loop of with_gates. -/
def validateGatesLoop : List Gate → Nat → Except Error Unit
  | [], _ => .ok ()
  | g :: gs, n =>
    match Circuit._validate_gate_qubits g n with
    | .error e => .error e
    | .ok _ => validateGatesLoop gs n

/-- circuit.rs lines 70-76: with_gates validates every gate up front. -/
def Circuit.with_gates (gates : List Gate) (num_qubits : Nat) :
    Except Error Circuit :=
  match validateGatesLoop gates num_qubits with
  | .error e => .error e
  | .ok _ => .ok { gates := gates, num_qubits := num_qubits }

/-- circuit.rs lines 87-91: add_gate re-validates on append. -/
def Circuit.add_gate (c : Circuit) (gate : Gate) : Except Error Circuit :=
  match Circuit._validate_gate_qubits gate c.num_qubits with
  | .error e => .error e
  | .ok _ => .ok { gates := c.gates ++ [gate], num_qubits := c.num_qubits }

/-- circuit.rs lines 98-100: add_gates extends the gate list WITHOUT any
validation. -/
def Circuit.add_gates (c : Circuit) (gates : List Gate) : Circuit :=
  { gates := c.gates ++ gates, num_qubits := c.num_qubits }

theorem except_bind_ok {ε α β : Type} (a : α) (f : α → Except ε β) :
    (Except.ok a).bind f = f a := rfl

theorem except_bind_error {ε α β : Type} (e : ε) (f : α → Except ε β) :
    (Except.error e : Except ε α).bind f = .error e := rfl

/-- circuit.rs lines 141-143: the gate loop of execute; the question-mark
operator is the Except bind. -/
noncomputable def runGates : List Gate → State → Except Error State
  | [], s => .ok s
  | g :: gs, s => (g.apply s).bind (fun s' => runGates gs s')

/-- circuit.rs lines 134-146: execute. -/
noncomputable def Circuit.execute (c : Circuit) (initial_state : State) :
    Except Error State :=
  if initial_state.num_qubits ≠ c.num_qubits then
    .error (.InvalidNumberOfQubits initial_state.num_qubits)
  else runGates c.gates initial_state

/-- circuit.rs lines 167-173: the gate loop of trace_execution, collecting
the initial state and every intermediate state. -/
noncomputable def traceGates : List Gate → State → Except Error (List State)
  | [], s => .ok [s]
  | g :: gs, s =>
    (g.apply s).bind (fun s' => (traceGates gs s').map (fun l => s :: l))

/-- circuit.rs lines 162-176: trace_execution. -/
noncomputable def Circuit.trace_execution (c : Circuit) (initial_state : State) :
    Except Error (List State) :=
  if initial_state.num_qubits ≠ c.num_qubits then
    .error (.InvalidNumberOfQubits initial_state.num_qubits)
  else traceGates c.gates initial_state

/-- circuit.rs lines 191-197. -/
structure CircuitBuilder where
  gates : List Gate
  num_qubits : Nat

/-- circuit.rs lines 209-214. -/
def CircuitBuilder.new (num_qubits : Nat) : CircuitBuilder :=
  { gates := [], num_qubits := num_qubits }

/-- circuit.rs lines 221-224: the builder appends without validation. -/
def CircuitBuilder.add_gate (b : CircuitBuilder) (gate : Gate) : CircuitBuilder :=
  { gates := b.gates ++ [gate], num_qubits := b.num_qubits }

/-- circuit.rs lines 231-234. -/
def CircuitBuilder.add_gates (b : CircuitBuilder) (gates : List Gate) : CircuitBuilder :=
  { gates := b.gates ++ gates, num_qubits := b.num_qubits }

/-- circuit.rs lines 243-246: build validates through with_gates. -/
def CircuitBuilder.build (b : CircuitBuilder) : Except Error Circuit :=
  Circuit.with_gates b.gates b.num_qubits

/-- circuit.rs lines 255-261: build_final takes the gates and constructs the
Circuit directly, WITHOUT validation. -/
def CircuitBuilder.build_final (b : CircuitBuilder) : Circuit :=
  { gates := b.gates, num_qubits := b.num_qubits }

/-! Measurement IR (measurement.rs). -/

/-- measurement.rs lines 75-86: the measurement basis. -/
inductive MeasurementBasis where
  | Computational
  | X
  | Y
  | Custom (m : Matrix2x2)

/-- The measurement IR instruction produced by MeasurementOperation::to_ir
(measurement.rs line 101).  The InstructionIR enum itself lives in
compiler/ir.rs outside src/; modelled from the spec with the one variant
the embedded code constructs: a measured target qubit with its basis. -/
inductive InstructionIR where
  | Measurement (target : Nat) (basis : MeasurementBasis)

/-- measurement.rs lines 88-95. -/
structure MeasurementOperation where
  basis : MeasurementBasis

/-- measurement.rs lines 97-104: to_ir maps each target to a Measurement
instruction, ignoring the controls argument. -/
def MeasurementOperation.to_ir (self : MeasurementOperation)
    (targets : List Nat) (_controls : List Nat) : List InstructionIR :=
  targets.map (fun target => .Measurement target self.basis)

/-! Execution-order lemmas for C7. -/

def dfltState : State := { state_vector := [], num_qubits := 0 }

def dfltGate : Gate := { operator := .hadamard, targets := [], controls := [] }

theorem runGates_append (l1 l2 : List Gate) (s : State) :
    runGates (l1 ++ l2) s = (runGates l1 s).bind (fun s' => runGates l2 s') := by
  induction l1 generalizing s with
  | nil => rfl
  | cons g l1' ih =>
    simp only [List.cons_append, runGates]
    cases hg : g.apply s with
    | error e => rw [except_bind_error, except_bind_error, except_bind_error]
    | ok s' =>
      rw [except_bind_ok, except_bind_ok]
      exact ih s'

theorem runGates_error_iff_traceGates (gs : List Gate) (s : State) (e : Error) :
    runGates gs s = .error e ↔ traceGates gs s = .error e := by
  induction gs generalizing s with
  | nil =>
    simp only [runGates, traceGates]
    constructor
    · intro h
      exact absurd h (by simp)
    · intro h
      exact absurd h (by simp)
  | cons g gs' ih =>
    simp only [runGates, traceGates]
    cases hg : g.apply s with
    | error er =>
      rw [except_bind_error, except_bind_error]
      simp
    | ok s' =>
      rw [except_bind_ok, except_bind_ok, ih s']
      cases ht : traceGates gs' s' with
      | error er => simp [Except.map]
      | ok l => simp [Except.map]

theorem traceGates_spec (gs : List Gate) (s : State) (l : List State)
    (h : traceGates gs s = .ok l) :
    l.length = gs.length + 1 ∧ l.getD 0 dfltState = s ∧
    (∀ j, j < gs.length →
      (gs.getD j dfltGate).apply (l.getD j dfltState) = .ok (l.getD (j + 1) dfltState)) ∧
    runGates gs s = .ok (l.getD gs.length dfltState) := by
  induction gs generalizing s l with
  | nil =>
    simp only [traceGates] at h
    have hl : l = [s] := by
      have h' : Except.ok [s] = (Except.ok l : Except Error (List State)) := h
      simpa using h'.symm
    subst hl
    refine ⟨rfl, rfl, fun j hj => absurd hj (by simp), rfl⟩
  | cons g gs' ih =>
    simp only [traceGates] at h
    cases hg : g.apply s with
    | error er =>
      rw [hg, except_bind_error] at h
      exact absurd h (by simp)
    | ok s' =>
      rw [hg, except_bind_ok] at h
      cases ht : traceGates gs' s' with
      | error er =>
        rw [ht] at h
        exact absurd h (by simp [Except.map])
      | ok l' =>
        rw [ht] at h
        have hl : l = s :: l' := by
          have h' : Except.ok (s :: l') = (Except.ok l : Except Error (List State)) := by
            simpa [Except.map] using h
          simpa using h'.symm
        subst hl
        obtain ⟨ih1, ih2, ih3, ih4⟩ := ih s' l' ht
        refine ⟨by simp [ih1], rfl, ?_, ?_⟩
        · intro j hj
          cases j with
          | zero =>
            show g.apply s = .ok ((s :: l').getD 1 dfltState)
            rw [hg]
            show _ = Except.ok (l'.getD 0 dfltState)
            rw [ih2]
          | succ j' =>
            have hj' : j' < gs'.length := by
              simp at hj
              omega
            show (gs'.getD j' dfltGate).apply (l'.getD j' dfltState)
              = .ok (l'.getD (j' + 1) dfltState)
            exact ih3 j' hj'
        · simp only [runGates]
          rw [hg, except_bind_ok]
          show runGates gs' s' = .ok (l'.getD gs'.length dfltState)
          exact ih4

/-! Validator-first behaviour of every concrete operator (for C1). -/

theorem hadamard_propagates (st : State) (ts cs : List Nat) (e : Error)
    (h : validate_qubits st ts cs 1 = .error e) : Hadamard.apply st ts cs = .error e := by
  rw [Hadamard.apply, h]

theorem pauli_propagates (p : Pauli) (st : State) (ts cs : List Nat) (e : Error)
    (h : validate_qubits st ts cs 1 = .error e) : Pauli.apply p st ts cs = .error e := by
  rw [Pauli.apply, h]

theorem identity_propagates (st : State) (ts cs : List Nat) (e : Error)
    (h : validate_qubits st ts cs 1 = .error e) : Identity.apply st ts cs = .error e := by
  rw [Identity.apply, h]

theorem phaseS_propagates (st : State) (ts cs : List Nat) (e : Error)
    (h : validate_qubits st ts cs 1 = .error e) : PhaseS.apply st ts cs = .error e := by
  rw [PhaseS.apply, h]

theorem phaseSdag_propagates (st : State) (ts cs : List Nat) (e : Error)
    (h : validate_qubits st ts cs 1 = .error e) : PhaseSdag.apply st ts cs = .error e := by
  rw [PhaseSdag.apply, h]

theorem phaseT_propagates (st : State) (ts cs : List Nat) (e : Error)
    (h : validate_qubits st ts cs 1 = .error e) : PhaseT.apply st ts cs = .error e := by
  rw [PhaseT.apply, h]

theorem phaseTdag_propagates (st : State) (ts cs : List Nat) (e : Error)
    (h : validate_qubits st ts cs 1 = .error e) : PhaseTdag.apply st ts cs = .error e := by
  rw [PhaseTdag.apply, h]

theorem phaseShift_propagates (g : PhaseShift) (st : State) (ts cs : List Nat) (e : Error)
    (h : validate_qubits st ts cs 1 = .error e) : PhaseShift.apply g st ts cs = .error e := by
  rw [PhaseShift.apply, h]

theorem rotateX_propagates (g : RotateX) (st : State) (ts cs : List Nat) (e : Error)
    (h : validate_qubits st ts cs 1 = .error e) : RotateX.apply g st ts cs = .error e := by
  rw [RotateX.apply, h]

theorem rotateY_propagates (g : RotateY) (st : State) (ts cs : List Nat) (e : Error)
    (h : validate_qubits st ts cs 1 = .error e) : RotateY.apply g st ts cs = .error e := by
  rw [RotateY.apply, h]

theorem rotateZ_propagates (g : RotateZ) (st : State) (ts cs : List Nat) (e : Error)
    (h : validate_qubits st ts cs 1 = .error e) : RotateZ.apply g st ts cs = .error e := by
  rw [RotateZ.apply, h]

theorem unitary2_propagates (g : Unitary2) (st : State) (ts cs : List Nat) (e : Error)
    (h : validate_qubits st ts cs 1 = .error e) : Unitary2.apply g st ts cs = .error e := by
  rw [Unitary2.apply, h]

theorem swap_propagates (st : State) (ts cs : List Nat) (e : Error)
    (h : validate_qubits st ts cs 2 = .error e) : SWAP.apply st ts cs = .error e := by
  rw [SWAP.apply, h]

theorem cnot_propagates (st : State) (ts cs : List Nat) (e : Error)
    (h : validate_qubits st ts cs 1 = .error e) : CNOT.apply st ts cs = .error e := by
  rw [CNOT.apply, h]

theorem toffoli_propagates (st : State) (ts cs : List Nat) (e : Error)
    (h : validate_qubits st ts cs 1 = .error e) : Toffoli.apply st ts cs = .error e := by
  rw [Toffoli.apply, h]

/-- An example two-qubit state (amplitude 1 at index 0). -/
def stateTwo : State := { state_vector := [1, 0, 0, 0], num_qubits := 2 }

/-- An example one-qubit state (amplitude 1 at index 0). -/
def stateOne : State := { state_vector := [1, 0], num_qubits := 1 }

/-- C1 counterexample: CNOT::apply succeeds with one target qubit although
CNOT::base_qubits() is 2, so apply does not run the validator with
expected_targets = base_qubits(). -/
theorem c1_counterexample :
    (CNOT.apply stateTwo [1] [0]).isOk = true ∧
    CNOT.base_qubits = 2 ∧
    ([1] : List Nat).length ≠ CNOT.base_qubits := by
  refine ⟨?_, rfl, by decide⟩
  rfl

/-- C1 (amended): each operator's apply first runs the shared validator and
returns its error unchanged, but the expected_targets argument is the
operator's count of TARGET qubits: base_qubits() for the single-target
operators and SWAP, yet 1 for CNOT and Toffoli whose base_qubits also count
controls.  The validator fails with InvalidNumberOfQubits on a target-count
mismatch, InvalidQubitIndex on an out-of-range target or control,
OverlappingControlAndTargetQubits on a control equal to a target, and
InvalidQubitIndex on a duplicated target when expected_targets exceeds 1;
it succeeds exactly when none of these conditions holds. -/
theorem c1_validator_contract :
    (∀ (st : State) (ts cs : List Nat) (E : Nat), ts.length ≠ E →
      validate_qubits st ts cs E = .error (.InvalidNumberOfQubits ts.length)) ∧
    (∀ (st : State) (ts cs : List Nat) (E : Nat),
      validate_qubits st ts cs E = .ok () ↔
        ts.length = E ∧ (∀ t ∈ ts, t < st.num_qubits) ∧
        (∀ c ∈ cs, c < st.num_qubits ∧ c ∉ ts) ∧ (1 < E → ts.Nodup)) ∧
    (∀ (st : State) (ts cs : List Nat) (E : Nat), ts.length = E →
      (∃ t ∈ ts, st.num_qubits ≤ t) →
      ∃ t ∈ ts, st.num_qubits ≤ t ∧
        validate_qubits st ts cs E = .error (.InvalidQubitIndex t st.num_qubits)) ∧
    (∀ (st : State) (ts cs : List Nat) (E : Nat), ts.length = E →
      (∀ t ∈ ts, t < st.num_qubits) → (∀ c ∈ cs, c ∉ ts) →
      (∃ c ∈ cs, st.num_qubits ≤ c) →
      ∃ c ∈ cs, st.num_qubits ≤ c ∧
        validate_qubits st ts cs E = .error (.InvalidQubitIndex c st.num_qubits)) ∧
    (∀ (st : State) (ts cs : List Nat) (E : Nat), ts.length = E →
      (∀ t ∈ ts, t < st.num_qubits) → (∀ c ∈ cs, c < st.num_qubits) →
      (∃ c ∈ cs, c ∈ ts) →
      ∃ c ∈ cs, c ∈ ts ∧
        validate_qubits st ts cs E =
          .error (.OverlappingControlAndTargetQubits c c)) ∧
    (∀ (st : State) (ts cs : List Nat) (E : Nat), ts.length = E →
      (∀ t ∈ ts, t < st.num_qubits) →
      (∀ c ∈ cs, c < st.num_qubits ∧ c ∉ ts) → 1 < E → ¬ts.Nodup →
      ∃ q ∈ ts,
        validate_qubits st ts cs E = .error (.InvalidQubitIndex q st.num_qubits)) ∧
    (∀ (st : State) (ts cs : List Nat) (e : Error),
      validate_qubits st ts cs 1 = .error e →
        Hadamard.apply st ts cs = .error e ∧
        (∀ p, Pauli.apply p st ts cs = .error e) ∧
        Identity.apply st ts cs = .error e ∧
        PhaseS.apply st ts cs = .error e ∧
        PhaseSdag.apply st ts cs = .error e ∧
        PhaseT.apply st ts cs = .error e ∧
        PhaseTdag.apply st ts cs = .error e ∧
        (∀ g : PhaseShift, PhaseShift.apply g st ts cs = .error e) ∧
        (∀ g : RotateX, RotateX.apply g st ts cs = .error e) ∧
        (∀ g : RotateY, RotateY.apply g st ts cs = .error e) ∧
        (∀ g : RotateZ, RotateZ.apply g st ts cs = .error e) ∧
        (∀ g : Unitary2, Unitary2.apply g st ts cs = .error e) ∧
        CNOT.apply st ts cs = .error e ∧
        Toffoli.apply st ts cs = .error e) ∧
    (∀ (st : State) (ts cs : List Nat) (e : Error),
      validate_qubits st ts cs 2 = .error e → SWAP.apply st ts cs = .error e) ∧
    (Hadamard.base_qubits = 1 ∧ Pauli.base_qubits = 1 ∧ Identity.base_qubits = 1 ∧
      PhaseS.base_qubits = 1 ∧ PhaseSdag.base_qubits = 1 ∧ PhaseT.base_qubits = 1 ∧
      PhaseTdag.base_qubits = 1 ∧ PhaseShift.base_qubits = 1 ∧
      RotateX.base_qubits = 1 ∧ RotateY.base_qubits = 1 ∧ RotateZ.base_qubits = 1 ∧
      Unitary2.base_qubits = 1 ∧ SWAP.base_qubits = 2 ∧ CNOT.base_qubits = 2 ∧
      Toffoli.base_qubits = 3) := by
  refine ⟨validate_qubits_len_ne, validate_qubits_ok_iff, validate_qubits_target_oob,
    validate_qubits_control_oob, validate_qubits_overlap, validate_qubits_dup,
    ?_, swap_propagates,
    rfl, rfl, rfl, rfl, rfl, rfl, rfl, rfl, rfl, rfl, rfl, rfl, rfl, rfl, rfl⟩
  intro st ts cs e h
  exact ⟨hadamard_propagates st ts cs e h, fun p => pauli_propagates p st ts cs e h,
    identity_propagates st ts cs e h, phaseS_propagates st ts cs e h,
    phaseSdag_propagates st ts cs e h, phaseT_propagates st ts cs e h,
    phaseTdag_propagates st ts cs e h, fun g => phaseShift_propagates g st ts cs e h,
    fun g => rotateX_propagates g st ts cs e h, fun g => rotateY_propagates g st ts cs e h,
    fun g => rotateZ_propagates g st ts cs e h, fun g => unitary2_propagates g st ts cs e h,
    cnot_propagates st ts cs e h, toffoli_propagates st ts cs e h⟩

/-- C1 witness: the validator contract applied at a concrete input. -/
theorem c1_validator_contract_witness :
    ([] : List Nat).length ≠ 1 ∧
    validate_qubits stateTwo [] [] 1 =
      .error (.InvalidNumberOfQubits ([] : List Nat).length) :=
  ⟨by decide, c1_validator_contract.1 stateTwo [] [] 1 (by decide)⟩

/-! Gate-range helpers for C2. -/

/-- A gate's target and control qubits are all below the circuit width. -/
def gateInRange (g : Gate) (n : Nat) : Prop :=
  (∀ q ∈ g.get_target_qubits, q < n) ∧ ∀ q ∈ g.get_control_qubits.getD [], q < n

theorem validate_gate_ok_iff (g : Gate) (n : Nat) :
    Circuit._validate_gate_qubits g n = .ok () ↔ gateInRange g n := by
  simp only [Circuit._validate_gate_qubits, gateInRange, Gate.get_target_qubits,
    Gate.get_control_qubits, Option.getD]
  cases hf : g.targets.find? (fun q => n ≤ q) with
  | some q =>
    have hq := List.mem_of_find?_eq_some hf
    have hnq : n ≤ q := by simpa using List.find?_some hf
    constructor
    · intro h
      exact absurd h (by simp)
    · intro h
      exact absurd (h.1 q hq) (by omega)
  | none =>
    have hts : ∀ q ∈ g.targets, q < n := by
      intro q hq
      have h := List.find?_eq_none.mp hf q hq
      simp at h
      omega
    cases hc : g.controls.find? (fun q => n ≤ q) with
    | some q =>
      have hq := List.mem_of_find?_eq_some hc
      have hnq : n ≤ q := by simpa using List.find?_some hc
      constructor
      · intro h
        exact absurd h (by simp)
      · intro h
        exact absurd (h.2 q hq) (by omega)
    | none =>
      have hcs : ∀ q ∈ g.controls, q < n := by
        intro q hq
        have h := List.find?_eq_none.mp hc q hq
        simp at h
        omega
      exact iff_of_true rfl ⟨hts, hcs⟩

theorem validateGatesLoop_ok_iff (gs : List Gate) (n : Nat) :
    validateGatesLoop gs n = .ok () ↔
      ∀ g ∈ gs, Circuit._validate_gate_qubits g n = .ok () := by
  induction gs with
  | nil => simp [validateGatesLoop]
  | cons g gs' ih =>
    simp only [validateGatesLoop]
    cases hv : Circuit._validate_gate_qubits g n with
    | error e =>
      constructor
      · intro h
        exact absurd h (by simp)
      · intro h
        have hg := h g (by simp)
        rw [hv] at hg
        exact absurd hg (by simp)
    | ok u =>
      cases u
      show validateGatesLoop gs' n = .ok () ↔ _
      rw [ih]
      constructor
      · intro h g' hg'
        rcases List.mem_cons.mp hg' with h1 | h2
        · rw [h1]
          exact hv
        · exact h g' h2
      · intro h g' hg'
        exact h g' (List.mem_cons_of_mem _ hg')

/-- An example in-range single-qubit gate. -/
def gateGood : Gate := { operator := .hadamard, targets := [0], controls := [] }

/-- An example out-of-range gate on a 1-qubit circuit. -/
def gateBad : Gate := { operator := .hadamard, targets := [5], controls := [] }

/-- C2 counterexample: Circuit::add_gates and CircuitBuilder::build_final
accept a gate whose target qubit 5 is out of range for a 1-qubit circuit
without returning an error, so not every construction path validates. -/
theorem c2_counterexample :
    ((Circuit.new 1).add_gates [gateBad]).num_qubits = 1 ∧
    gateBad ∈ ((Circuit.new 1).add_gates [gateBad]).gates ∧
    ((CircuitBuilder.new 1).add_gate gateBad).build_final.num_qubits = 1 ∧
    gateBad ∈ ((CircuitBuilder.new 1).add_gate gateBad).build_final.gates ∧
    ¬gateInRange gateBad 1 ∧
    Circuit._validate_gate_qubits gateBad 1 = .error (.InvalidQubitIndex 5 1) := by
  refine ⟨rfl, by simp [Circuit.new, Circuit.add_gates], rfl,
    by simp [CircuitBuilder.new, CircuitBuilder.add_gate, CircuitBuilder.build_final], ?_, rfl⟩
  intro h
  exact absurd (h.1 5 (by simp [gateBad, Gate.get_target_qubits])) (by omega)

/-- C2 (amended): the validating construction paths — Circuit::new,
Circuit::with_gates, Circuit::add_gate and CircuitBuilder::build — only
produce circuits whose every gate has in-range targets and controls, and a
gate with an out-of-range qubit makes _validate_gate_qubits return
InvalidQubitIndex; but Circuit::add_gates and CircuitBuilder::build_final
append and build unconditionally, so the original claim's "every
construction path" is too strong. -/
theorem c2_construction_validation :
    (∀ (gs : List Gate) (n : Nat) (c : Circuit), Circuit.with_gates gs n = .ok c →
      c.num_qubits = n ∧ c.gates = gs ∧ ∀ g ∈ c.gates, gateInRange g c.num_qubits) ∧
    (∀ (c : Circuit) (g : Gate) (c' : Circuit), c.add_gate g = .ok c' →
      c'.num_qubits = c.num_qubits ∧ c'.gates = c.gates ++ [g] ∧
        gateInRange g c.num_qubits) ∧
    (∀ n : Nat, ∀ g ∈ (Circuit.new n).gates, gateInRange g n) ∧
    (∀ (b : CircuitBuilder) (c : Circuit), b.build = .ok c →
      c.num_qubits = b.num_qubits ∧ c.gates = b.gates ∧
        ∀ g ∈ c.gates, gateInRange g c.num_qubits) ∧
    (∀ (g : Gate) (n : Nat), ¬gateInRange g n →
      ∃ q, Circuit._validate_gate_qubits g n = .error (.InvalidQubitIndex q n)) ∧
    (∀ (c : Circuit) (gs : List Gate), (c.add_gates gs).gates = c.gates ++ gs ∧
      (c.add_gates gs).num_qubits = c.num_qubits) ∧
    (∀ b : CircuitBuilder, b.build_final.gates = b.gates ∧
      b.build_final.num_qubits = b.num_qubits) := by
  have hwg : ∀ (gs : List Gate) (n : Nat) (c : Circuit), Circuit.with_gates gs n = .ok c →
      c.num_qubits = n ∧ c.gates = gs ∧ ∀ g ∈ c.gates, gateInRange g c.num_qubits := by
    intro gs n c h
    rw [Circuit.with_gates] at h
    cases hv : validateGatesLoop gs n with
    | error e =>
      rw [hv] at h
      exact absurd h (by simp)
    | ok u =>
      cases u
      rw [hv] at h
      have hc : c = { gates := gs, num_qubits := n } := by
        have h' : Except.ok { gates := gs, num_qubits := n } =
            (Except.ok c : Except Error Circuit) := h
        simpa using h'.symm
      subst hc
      refine ⟨rfl, rfl, fun g hg => ?_⟩
      exact (validate_gate_ok_iff g n).mp ((validateGatesLoop_ok_iff gs n).mp hv g hg)
  refine ⟨hwg, ?_, ?_, ?_, ?_, ?_, ?_⟩
  · intro c g c' h
    rw [Circuit.add_gate] at h
    cases hv : Circuit._validate_gate_qubits g c.num_qubits with
    | error e =>
      rw [hv] at h
      exact absurd h (by simp)
    | ok u =>
      cases u
      rw [hv] at h
      have hc : c' = { gates := c.gates ++ [g], num_qubits := c.num_qubits } := by
        have h' : Except.ok { gates := c.gates ++ [g], num_qubits := c.num_qubits } =
            (Except.ok c' : Except Error Circuit) := h
        simpa using h'.symm
      subst hc
      exact ⟨rfl, rfl, (validate_gate_ok_iff g c.num_qubits).mp hv⟩
  · intro n g hg
    simp [Circuit.new] at hg
  · intro b c h
    exact hwg b.gates b.num_qubits c h
  · intro g n h
    cases hv : Circuit._validate_gate_qubits g n with
    | error e =>
      have hv' := hv
      rw [Circuit._validate_gate_qubits] at hv'
      cases hf : g.get_target_qubits.find? (fun q => n ≤ q) with
      | some q =>
        rw [hf] at hv'
        have he : Error.InvalidQubitIndex q n = e := by simpa using hv'
        subst he
        exact ⟨q, rfl⟩
      | none =>
        rw [hf] at hv'
        simp only [Gate.get_control_qubits] at hv'
        cases hc : g.controls.find? (fun q => n ≤ q) with
        | some q =>
          rw [hc] at hv'
          have he : Error.InvalidQubitIndex q n = e := by simpa using hv'
          subst he
          exact ⟨q, rfl⟩
        | none =>
          rw [hc] at hv'
          exact absurd hv' (by simp)
    | ok u =>
      cases u
      exact absurd ((validate_gate_ok_iff g n).mp hv) h
  · intro c gs
    exact ⟨rfl, rfl⟩
  · intro b
    exact ⟨rfl, rfl⟩

/-- C2 witness: with_gates at a concrete in-range gate list. -/
theorem c2_construction_validation_witness :
    Circuit.with_gates [gateGood] 1 = .ok { gates := [gateGood], num_qubits := 1 } ∧
    ∀ g ∈ ({ gates := [gateGood], num_qubits := 1 } : Circuit).gates,
      gateInRange g ({ gates := [gateGood], num_qubits := 1 } : Circuit).num_qubits :=
  ⟨rfl, (c2_construction_validation.1 [gateGood] 1 _ rfl).2.2⟩

/-! CNOT and Toffoli delegation (C3). -/

theorem CNOT_apply_bad_controls (st : State) (ts cs : List Nat)
    (hcs : cs.length ≠ 1) :
    CNOT.apply st ts cs = .error (.InvalidNumberOfQubits cs.length) ∨
    ∃ e, CNOT.apply st ts cs = .error e := by
  right
  rw [CNOT.apply]
  cases hv : validate_qubits st ts cs 1 with
  | error e => exact ⟨e, rfl⟩
  | ok u =>
    cases u
    exact ⟨.InvalidNumberOfQubits cs.length, by rw [if_pos hcs]⟩

/-- C3: CNOT::apply with exactly one control behaves as Pauli-X::apply on the
same targets and controls, and Toffoli::apply with exactly two distinct
controls behaves likewise; with any other number of controls each returns an
error rather than applying anything, and Toffoli with two equal controls
errors with InvalidNumberOfQubits(2). -/
theorem c3_controlled_x_delegation :
    (∀ (st : State) (ts cs : List Nat), cs.length = 1 →
      CNOT.apply st ts cs = Pauli.apply .X st ts cs) ∧
    (∀ (st : State) (ts cs : List Nat), cs.length ≠ 1 →
      ∃ e, CNOT.apply st ts cs = .error e) ∧
    (∀ (st : State) (ts cs : List Nat), cs.length = 2 → cs.getD 0 0 ≠ cs.getD 1 0 →
      Toffoli.apply st ts cs = Pauli.apply .X st ts cs) ∧
    (∀ (st : State) (ts cs : List Nat), cs.length ≠ 2 →
      ∃ e, Toffoli.apply st ts cs = .error e) ∧
    (∀ (st : State) (ts cs : List Nat), cs.length = 2 → cs.getD 0 0 = cs.getD 1 0 →
      ∃ e, Toffoli.apply st ts cs = .error e) ∧
    (∀ (st : State) (ts : List Nat) (c : Nat),
      validate_qubits st ts [c, c] 1 = .ok () →
      Toffoli.apply st ts [c, c] = .error (.InvalidNumberOfQubits 2)) := by
  refine ⟨CNOT_apply_eq_pauliX, ?_, Toffoli_apply_eq_pauliX, ?_, ?_, ?_⟩
  · intro st ts cs hcs
    rw [CNOT.apply]
    cases hv : validate_qubits st ts cs 1 with
    | error e => exact ⟨e, rfl⟩
    | ok u =>
      cases u
      exact ⟨.InvalidNumberOfQubits cs.length, by rw [if_pos hcs]⟩
  · intro st ts cs hcs
    rw [Toffoli.apply]
    cases hv : validate_qubits st ts cs 1 with
    | error e => exact ⟨e, rfl⟩
    | ok u =>
      cases u
      exact ⟨.InvalidNumberOfQubits cs.length, by rw [if_pos hcs]⟩
  · intro st ts cs hcs heq
    rw [Toffoli.apply]
    cases hv : validate_qubits st ts cs 1 with
    | error e => exact ⟨e, rfl⟩
    | ok u =>
      cases u
      refine ⟨.InvalidNumberOfQubits cs.length, ?_⟩
      rw [if_neg (by omega), if_pos heq]
  · intro st ts c hok
    rw [Toffoli.apply, hok]
    simp

/-- C3 witness: CNOT on a concrete two-qubit state with one control equals
Pauli-X there. -/
theorem c3_controlled_x_delegation_witness :
    ([0] : List Nat).length = 1 ∧
    CNOT.apply stateTwo [1] [0] = Pauli.apply .X stateTwo [1] [0] :=
  ⟨by decide, c3_controlled_x_delegation.1 stateTwo [1] [0] (by decide)⟩

/-! The Hadamard pair update in the spec's division form (C4). -/

theorem xor_shift_eq_lor_of_bit_false (i t : Nat) (h : i.testBit t = false) :
    i ^^^ (1 <<< t) = i ||| (1 <<< t) := by
  rw [Nat.one_shiftLeft]
  apply Nat.eq_of_testBit_eq
  intro j
  by_cases hj : j = t
  · subst hj
    simp [Nat.testBit_xor, Nat.testBit_or, Nat.testBit_two_pow_self, h]
  · simp [Nat.testBit_xor, Nat.testBit_or,
      Nat.testBit_two_pow_of_ne (fun he => hj he.symm)]

theorem sqrt_2_inv_mul (x : ℂ) :
    (sqrt_2_inv : ℂ) * x = x / (Real.sqrt 2 : ℂ) := by
  rw [sqrt_2_inv]
  push_cast
  rw [one_div, mul_comm, div_eq_mul_inv]

/-- C4: for a valid target t, Hadamard::apply sends each pair (i, j) with bit
t of i clear and j = i XOR (1 shl t) that passes the control predicate to
new[i] = (old[i] + old[j]) / sqrt 2 and new[j] = (old[i] - old[j]) / sqrt 2,
and leaves both members of a pair failing the control predicate unchanged. -/
theorem c4_hadamard_pair_update (st : State) (t : Nat) (cs : List Nat) (i j : Nat)
    (hok : validate_qubits st [t] cs 1 = .ok ())
    (hlen : st.state_vector.length = 2 ^ st.num_qubits)
    (hi : i < 2 ^ st.num_qubits)
    (hbit : i.testBit t = false)
    (hj : j = i ^^^ (1 <<< t)) :
    (Hadamard.apply st [t] cs).map
        (fun s => (s.state_vector.getD i 0, s.state_vector.getD j 0)) =
      .ok (if check_controls i cs then
            ((st.state_vector.getD i 0 + st.state_vector.getD j 0) / (Real.sqrt 2 : ℂ),
             (st.state_vector.getD i 0 - st.state_vector.getD j 0) / (Real.sqrt 2 : ℂ))
          else (st.state_vector.getD i 0, st.state_vector.getD j 0)) := by
  obtain ⟨st', happ, hnq, hlen', hpt⟩ := Hadamard.hadamard_apply_ok st [t] cs t rfl hok hlen
  have ht : t < st.num_qubits :=
    ((validate_qubits_ok_iff st [t] cs 1).mp hok).2.1 t (by simp)
  have hor : j = i ||| (1 <<< t) := by
    rw [hj, xor_shift_eq_lor_of_bit_false i t hbit]
  have hjlt : j < 2 ^ st.num_qubits := by
    rw [hor]
    exact lor_shift_lt i t st.num_qubits hi ht
  have hvi := hpt i hi
  have hvj := hpt j hjlt
  rw [happ]
  show Except.ok (st'.state_vector.getD i 0, st'.state_vector.getD j 0) = _
  rw [hvi, hvj]
  have hfi : hadamardFormula st.state_vector t cs i =
      (if check_controls i cs then
        (sqrt_2_inv : ℂ) * (st.state_vector.getD i 0 + st.state_vector.getD j 0)
       else st.state_vector.getD i 0) := by
    rw [hadamardFormula, if_pos hbit, ← hor]
  have hjb : j.testBit t = true := by
    rw [hor]
    exact testBit_lor_shift_self i t
  have hji : j ^^^ (1 <<< t) = i := by
    rw [hor]
    exact lor_shift_xor i t hbit
  have hfj : hadamardFormula st.state_vector t cs j =
      (if check_controls i cs then
        (sqrt_2_inv : ℂ) * (st.state_vector.getD i 0 - st.state_vector.getD j 0)
       else st.state_vector.getD j 0) := by
    rw [hadamardFormula, if_neg (by simp [hjb]), hji]
  rw [hfi, hfj]
  by_cases hcc : check_controls i cs = true
  · simp only [hcc, if_true, sqrt_2_inv_mul]
  · simp only [if_neg hcc]

/-- C4 witness: the Hadamard pair update on a concrete one-qubit state. -/
theorem c4_hadamard_pair_update_witness :
    validate_qubits stateOne [0] [] 1 = .ok () ∧
    (Hadamard.apply stateOne [0] []).map
        (fun s => (s.state_vector.getD 0 0, s.state_vector.getD 1 0)) =
      .ok (if check_controls 0 [] then
            ((stateOne.state_vector.getD 0 0 + stateOne.state_vector.getD 1 0) /
                (Real.sqrt 2 : ℂ),
             (stateOne.state_vector.getD 0 0 - stateOne.state_vector.getD 1 0) /
                (Real.sqrt 2 : ℂ))
          else (stateOne.state_vector.getD 0 0, stateOne.state_vector.getD 1 0)) :=
  ⟨rfl, c4_hadamard_pair_update stateOne 0 [] 0 1 rfl rfl (by decide) (by decide) (by decide)⟩

/-- C5: control semantics are uniform across the gate kernels.  An empty
control list always passes the control predicate (unconditional application);
a control qubit c with ((i shr c) and 1) = 0 makes the predicate fail at i;
and for every operator, at every basis index k where some control bit is
zero, the output amplitude equals the input amplitude. -/
theorem c5_control_semantics :
    (∀ i : Nat, check_controls i [] = true) ∧
    (∀ (i c : Nat) (cs : List Nat), c ∈ cs → (i >>> c) &&& 1 = 0 →
      check_controls i cs = false) ∧
    (∀ (st : State) (ts cs : List Nat) (c k : Nat),
      c ∈ cs → (k >>> c) &&& 1 = 0 →
      validate_qubits st ts cs 1 = .ok () →
      st.state_vector.length = 2 ^ st.num_qubits → k < 2 ^ st.num_qubits →
        ((Hadamard.apply st ts cs).map (fun s => s.state_vector.getD k 0) =
            .ok (st.state_vector.getD k 0) ∧
         (∀ p, (Pauli.apply p st ts cs).map (fun s => s.state_vector.getD k 0) =
            .ok (st.state_vector.getD k 0)) ∧
         (Identity.apply st ts cs).map (fun s => s.state_vector.getD k 0) =
            .ok (st.state_vector.getD k 0) ∧
         (PhaseS.apply st ts cs).map (fun s => s.state_vector.getD k 0) =
            .ok (st.state_vector.getD k 0) ∧
         (PhaseSdag.apply st ts cs).map (fun s => s.state_vector.getD k 0) =
            .ok (st.state_vector.getD k 0) ∧
         (PhaseT.apply st ts cs).map (fun s => s.state_vector.getD k 0) =
            .ok (st.state_vector.getD k 0) ∧
         (PhaseTdag.apply st ts cs).map (fun s => s.state_vector.getD k 0) =
            .ok (st.state_vector.getD k 0) ∧
         (∀ g : PhaseShift, (PhaseShift.apply g st ts cs).map
            (fun s => s.state_vector.getD k 0) = .ok (st.state_vector.getD k 0)) ∧
         (∀ g : RotateX, (RotateX.apply g st ts cs).map
            (fun s => s.state_vector.getD k 0) = .ok (st.state_vector.getD k 0)) ∧
         (∀ g : RotateY, (RotateY.apply g st ts cs).map
            (fun s => s.state_vector.getD k 0) = .ok (st.state_vector.getD k 0)) ∧
         (∀ g : RotateZ, (RotateZ.apply g st ts cs).map
            (fun s => s.state_vector.getD k 0) = .ok (st.state_vector.getD k 0)) ∧
         (∀ g : Unitary2, (Unitary2.apply g st ts cs).map
            (fun s => s.state_vector.getD k 0) = .ok (st.state_vector.getD k 0)) ∧
         (cs.length = 1 → (CNOT.apply st ts cs).map
            (fun s => s.state_vector.getD k 0) = .ok (st.state_vector.getD k 0)) ∧
         (cs.length = 2 → cs.getD 0 0 ≠ cs.getD 1 0 → (Toffoli.apply st ts cs).map
            (fun s => s.state_vector.getD k 0) = .ok (st.state_vector.getD k 0)))) ∧
    (∀ (st : State) (ts cs : List Nat) (c k : Nat),
      c ∈ cs → (k >>> c) &&& 1 = 0 →
      validate_qubits st ts cs 2 = .ok () →
      st.state_vector.length = 2 ^ st.num_qubits → k < 2 ^ st.num_qubits →
        (SWAP.apply st ts cs).map (fun s => s.state_vector.getD k 0) =
          .ok (st.state_vector.getD k 0)) := by
  refine ⟨check_controls_nil, ?_, ?_, ?_⟩
  · intro i c cs hc hz
    exact check_controls_eq_false i cs c hc ((and_one_eq_zero_iff i c).mp hz)
  · intro st ts cs c k hc hz hok hlen hk
    have hbit : k.testBit c = false := (and_one_eq_zero_iff k c).mp hz
    exact ⟨Hadamard.hadamard_control_identity st ts cs c k hok hc hbit hlen hk,
      fun p => Pauli.pauli_control_identity p st ts cs c k hok hc hbit hlen hk,
      Identity.identity_control_identity st ts cs k hok,
      PhaseS.phaseS_control_identity st ts cs c k hok hc hbit hlen hk,
      PhaseSdag.phaseSdag_control_identity st ts cs c k hok hc hbit hlen hk,
      PhaseT.phaseT_control_identity st ts cs c k hok hc hbit hlen hk,
      PhaseTdag.phaseTdag_control_identity st ts cs c k hok hc hbit hlen hk,
      fun g => PhaseShift.phaseShift_control_identity g st ts cs c k hok hc hbit hlen hk,
      fun g => RotateX.rotateX_control_identity g st ts cs c k hok hc hbit hlen hk,
      fun g => RotateY.rotateY_control_identity g st ts cs c k hok hc hbit hlen hk,
      fun g => RotateZ.rotateZ_control_identity g st ts cs c k hok hc hbit hlen hk,
      fun g => Unitary2.unitary2_control_identity g st ts cs c k hok hc hbit hlen hk,
      fun hcs1 => CNOT.cnot_control_identity st ts cs c k hcs1 hok hc hbit hlen hk,
      fun hcs2 hne => Toffoli.toffoli_control_identity st ts cs c k hcs2 hne hok hc hbit hlen hk⟩
  · intro st ts cs c k hc hz hok hlen hk
    exact SWAP.swap_control_identity st ts cs c k hok hc
      ((and_one_eq_zero_iff k c).mp hz) hlen hk

/-- C5 witness: a controlled Hadamard on a concrete two-qubit state leaves
an index with a zero control bit unchanged. -/
theorem c5_control_semantics_witness :
    ((1 : Nat) ∈ ([1] : List Nat)) ∧
    validate_qubits stateTwo [0] [1] 1 = .ok () ∧
    (Hadamard.apply stateTwo [0] [1]).map (fun s => s.state_vector.getD 0 0) =
      .ok (stateTwo.state_vector.getD 0 0) :=
  ⟨by decide, rfl,
    (c5_control_semantics.2.2.1 stateTwo [0] [1] 1 0 (by decide) (by decide) rfl rfl
      (by decide)).1⟩

/-- C6: for valid distinct targets t1, t2, SWAP::apply exchanges, at each
basis index k whose bits at t1 and t2 differ, the amplitude with the partner
k XOR (1 shl t1) XOR (1 shl t2) when the controls are satisfied at the
pair's representative (the smaller index); indices whose bits at t1 and t2
agree, and pairs failing the control check, keep their amplitudes. -/
theorem c6_swap_pairs (st : State) (t1 t2 : Nat) (cs : List Nat) (k : Nat)
    (hok : validate_qubits st [t1, t2] cs 2 = .ok ())
    (hlen : st.state_vector.length = 2 ^ st.num_qubits)
    (hk : k < 2 ^ st.num_qubits) :
    (SWAP.apply st [t1, t2] cs).map (fun s => s.state_vector.getD k 0) =
      .ok (if k.testBit t1 = k.testBit t2 then st.state_vector.getD k 0
        else if check_controls (min k (k ^^^ (1 <<< t1) ^^^ (1 <<< t2))) cs then
          st.state_vector.getD (k ^^^ (1 <<< t1) ^^^ (1 <<< t2)) 0
        else st.state_vector.getD k 0) := by
  obtain ⟨st', happ, _, _, hpt⟩ := SWAP.swap_apply_ok st [t1, t2] cs t1 t2 rfl hok hlen
  rw [happ]
  show Except.ok (st'.state_vector.getD k 0) = _
  rw [hpt k hk]
  rfl

/-- C6 witness: SWAP on a concrete two-qubit state moves the amplitude of
index 2 to index 1. -/
theorem c6_swap_pairs_witness :
    validate_qubits stateTwo [0, 1] [] 2 = .ok () ∧
    (SWAP.apply stateTwo [0, 1] []).map (fun s => s.state_vector.getD 1 0) =
      .ok (if (1 : Nat).testBit 0 = (1 : Nat).testBit 1 then
          stateTwo.state_vector.getD 1 0
        else if check_controls (min 1 (1 ^^^ (1 <<< 0) ^^^ (1 <<< 1))) [] then
          stateTwo.state_vector.getD (1 ^^^ (1 <<< 0) ^^^ (1 <<< 1)) 0
        else stateTwo.state_vector.getD 1 0) :=
  ⟨rfl, c6_swap_pairs stateTwo 0 1 [] 1 rfl rfl (by decide)⟩

/-- C7: execute rejects a state whose qubit count differs from the circuit's
with InvalidNumberOfQubits (and trace_execution does the same); a successful
trace starts with the initial state, has length gates + 1, and each entry is
obtained by applying the next gate in insertion order to the previous entry,
with execute returning the trace's last state; appending a failing gate after
a successful prefix surfaces exactly that gate's error; and execute and
trace_execution fail with the same error in the same cases. -/
theorem c7_execution_order :
    (∀ (c : Circuit) (st : State), st.num_qubits ≠ c.num_qubits →
      Circuit.execute c st = .error (.InvalidNumberOfQubits st.num_qubits) ∧
      Circuit.trace_execution c st = .error (.InvalidNumberOfQubits st.num_qubits)) ∧
    (∀ (c : Circuit) (st : State) (l : List State),
      Circuit.trace_execution c st = .ok l →
        l.length = c.gates.length + 1 ∧
        l.getD 0 dfltState = st ∧
        (∀ j, j < c.gates.length →
          (c.gates.getD j dfltGate).apply (l.getD j dfltState) =
            .ok (l.getD (j + 1) dfltState)) ∧
        Circuit.execute c st = .ok (l.getD c.gates.length dfltState)) ∧
    (∀ (n : Nat) (l1 l2 : List Gate) (g : Gate) (st s : State) (e : Error),
      st.num_qubits = n →
      Circuit.execute { gates := l1, num_qubits := n } st = .ok s →
      Gate.apply g s = .error e →
        Circuit.execute { gates := l1 ++ g :: l2, num_qubits := n } st = .error e) ∧
    (∀ (c : Circuit) (st : State) (e : Error),
      Circuit.execute c st = .error e ↔ Circuit.trace_execution c st = .error e) := by
  refine ⟨?_, ?_, ?_, ?_⟩
  · intro c st h
    rw [Circuit.execute, Circuit.trace_execution, if_pos h, if_pos h]
    exact ⟨rfl, rfl⟩
  · intro c st l h
    by_cases hnum : st.num_qubits ≠ c.num_qubits
    · rw [Circuit.trace_execution, if_pos hnum] at h
      exact absurd h (by simp)
    · rw [Circuit.trace_execution, if_neg hnum] at h
      obtain ⟨h1, h2, h3, h4⟩ := traceGates_spec c.gates st l h
      refine ⟨h1, h2, h3, ?_⟩
      rw [Circuit.execute, if_neg hnum]
      exact h4
  · intro n l1 l2 g st s e hn hex hg
    have hcond1 : ¬(st.num_qubits ≠ ({ gates := l1, num_qubits := n } : Circuit).num_qubits) := by
      simp [hn]
    have hcond2 :
        ¬(st.num_qubits ≠ ({ gates := l1 ++ g :: l2, num_qubits := n } : Circuit).num_qubits) := by
      simp [hn]
    rw [Circuit.execute, if_neg hcond1] at hex
    rw [Circuit.execute, if_neg hcond2]
    show runGates (l1 ++ g :: l2) st = .error e
    rw [runGates_append, hex, except_bind_ok]
    show (g.apply s).bind (fun s' => runGates l2 s') = .error e
    rw [hg, except_bind_error]
  · intro c st e
    rw [Circuit.execute, Circuit.trace_execution]
    by_cases hnum : st.num_qubits ≠ c.num_qubits
    · rw [if_pos hnum, if_pos hnum]
      simp
    · rw [if_neg hnum, if_neg hnum]
      exact runGates_error_iff_traceGates c.gates st e

/-- C7 witness: a 2-qubit state fed to a 1-qubit circuit is rejected. -/
theorem c7_execution_order_witness :
    stateTwo.num_qubits ≠ (Circuit.new 1).num_qubits ∧
    Circuit.execute (Circuit.new 1) stateTwo =
      .error (.InvalidNumberOfQubits stateTwo.num_qubits) :=
  ⟨by decide, (c7_execution_order.1 (Circuit.new 1) stateTwo (by decide)).1⟩

/-- C8: backend equivalence of the two CPU paths.  For every input amplitude
vector, dimension, target(s), controls and gate parameters, the parallel
update-list implementation selected at PARALLEL_THRESHOLD_NUM_QUBITS = 10
qubits and above computes exactly the same output vector as the sequential
pair loop used below the threshold — exact equality, which implies agreement
within any tolerance such as 1e-5.  The phase, RotateZ and diagonal Pauli-Z
kernels use the same diagonal loop in both branches, and the OpenCL
accelerator path is feature-gated off in this build (gpuEnabled = false). -/
theorem c8_backend_equivalence :
    (∀ (old : List ℂ) (dim t : Nat) (cs : List Nat),
      hadamardParCtrl old dim t cs = hadamardSeqCtrl old dim t cs) ∧
    (∀ (old : List ℂ) (n t : Nat),
      hadamardParUnctrl old n t = hadamardSeqUnctrl old n t) ∧
    (∀ (old : List ℂ) (dim t : Nat) (cs : List Nat),
      pauliParX old dim t cs = pauliSeqLoop .X old dim t cs) ∧
    (∀ (old : List ℂ) (dim t : Nat) (cs : List Nat),
      pauliParY old dim t cs = pauliSeqLoop .Y old dim t cs) ∧
    (∀ (old : List ℂ) (dim t : Nat) (cs : List Nat),
      pauliParZ old dim t cs = pauliSeqLoop .Z old dim t cs) ∧
    (∀ (old : List ℂ) (dim t1 t2 : Nat) (cs : List Nat),
      swapPar old dim t1 t2 cs = swapSeqLoop old dim t1 t2 cs) ∧
    (∀ (old : List ℂ) (dim t : Nat) (cs : List Nat) (ch sh : ℝ),
      rotateXPar old dim t cs ch sh = rotateXSeq old dim t cs ch sh) ∧
    (∀ (old : List ℂ) (dim t : Nat) (cs : List Nat) (ch sh : ℝ),
      rotateYPar old dim t cs ch sh = rotateYSeq old dim t cs ch sh) ∧
    (∀ (old : List ℂ) (dim t : Nat) (cs : List Nat) (m : Matrix2x2),
      unitary2Par old dim t cs m = unitary2Seq old dim t cs m) ∧
    PARALLEL_THRESHOLD_NUM_QUBITS = 10 ∧
    OPENCL_THRESHOLD_NUM_QUBITS = 15 ∧
    gpuEnabled = false :=
  ⟨hadamardParCtrl_eq_seq, hadamardParUnctrl_eq_seq, pauliParX_eq_seq,
   pauliParY_eq_seq, pauliParZ_eq_seq, swapPar_eq_seq, rotateXPar_eq_seq,
   rotateYPar_eq_seq, unitary2Par_eq_seq, rfl, rfl, rfl⟩

/-- C10: MeasurementOperation::to_ir emits exactly one Measurement
instruction per target, carrying that target index and the operation's
basis in the order of the targets list, and the result does not depend on
the controls argument. -/
theorem c10_measurement_to_ir (op : MeasurementOperation) (ts cs cs' : List Nat) :
    (op.to_ir ts cs).length = ts.length ∧
    (∀ j, j < ts.length →
      (op.to_ir ts cs).getD j (.Measurement 0 .Computational) =
        .Measurement (ts.getD j 0) op.basis) ∧
    op.to_ir ts cs = op.to_ir ts cs' := by
  refine ⟨List.length_map _ _, ?_, rfl⟩
  intro j hj
  simp [MeasurementOperation.to_ir, List.getD_eq_getElem?_getD, List.getElem?_map,
    List.getElem?_eq_getElem hj]

/-- C10 witness: to_ir on a concrete target list. -/
theorem c10_measurement_to_ir_witness :
    (0 < ([3, 5] : List Nat).length) ∧
    ((⟨.Computational⟩ : MeasurementOperation).to_ir [3, 5] [7]).getD 0
        (.Measurement 0 .Computational) =
      .Measurement (([3, 5] : List Nat).getD 0 0)
        (⟨.Computational⟩ : MeasurementOperation).basis :=
  ⟨by decide, (c10_measurement_to_ir ⟨.Computational⟩ [3, 5] [7] []).2.1 0 (by decide)⟩

/-! Unitary2 construction tolerance (C9). -/

/-- operator.rs line 1743: the construction tolerance, f64::EPSILON * 2. -/
noncomputable def unitary2Tol : ℝ := f64_EPSILON * 2

/-- The acceptance predicate Unitary2::new actually tests: each SQUARED row
norm within tol of 1, and the SQUARED row dot magnitude at most tol
squared. -/
noncomputable def unitary2_accepts (m : Matrix2x2) : Prop :=
  |Complex.normSq m.a + Complex.normSq m.b - 1| ≤ unitary2Tol ∧
  |Complex.normSq m.c + Complex.normSq m.d - 1| ≤ unitary2Tol ∧
  Complex.normSq (m.a * star m.c + m.b * star m.d) ≤ unitary2Tol * unitary2Tol

/-- Modelled from the spec: row-orthonormality within a tolerance as the
claim words it - the row NORMS (not their squares) within tol of 1 and the
row dot product magnitude within tol. -/
noncomputable def spec_rowOrthonormalWithin (m : Matrix2x2) (tol : ℝ) : Prop :=
  |Real.sqrt (Complex.normSq m.a + Complex.normSq m.b) - 1| ≤ tol ∧
  |Real.sqrt (Complex.normSq m.c + Complex.normSq m.d) - 1| ≤ tol ∧
  Complex.abs (m.a * star m.c + m.b * star m.d) ≤ tol

theorem unitary2Tol_pos : 0 < unitary2Tol := by
  rw [unitary2Tol, f64_EPSILON]
  positivity

theorem unitary2Tol_lt_one : unitary2Tol < 1 := by
  rw [unitary2Tol, f64_EPSILON]
  norm_num

theorem abs_sqrt_sub_one_le (s : ℝ) (hs : 0 ≤ s) :
    |Real.sqrt s - 1| ≤ |s - 1| := by
  have hss : Real.sqrt s * Real.sqrt s = s := Real.mul_self_sqrt hs
  have h1 : s - 1 = (Real.sqrt s - 1) * (Real.sqrt s + 1) := by
    have hr : (Real.sqrt s - 1) * (Real.sqrt s + 1) =
        Real.sqrt s * Real.sqrt s - 1 := by ring
    rw [hr, hss]
  rw [h1, abs_mul]
  have h2 : 1 ≤ |Real.sqrt s + 1| := by
    rw [abs_of_nonneg (by positivity)]
    have := Real.sqrt_nonneg s
    linarith
  nlinarith [abs_nonneg (Real.sqrt s - 1)]

/-- Unitary2::new accepts exactly the matrices passing the squared-norm
checks, and otherwise returns NonUnitaryMatrix. -/
theorem Unitary2.new_spec (m : Matrix2x2) :
    (unitary2_accepts m ∧ Unitary2.new m = .ok ⟨m⟩) ∨
    (¬unitary2_accepts m ∧ Unitary2.new m = .error .NonUnitaryMatrix) := by
  simp only [Unitary2.new]
  by_cases h1 : |Complex.normSq m.a + Complex.normSq m.b - 1| > f64_EPSILON * 2
  · right
    refine ⟨fun hacc => absurd hacc.1 (not_le.mpr h1), ?_⟩
    rw [if_pos h1]
  · by_cases h2 : |Complex.normSq m.c + Complex.normSq m.d - 1| > f64_EPSILON * 2
    · right
      refine ⟨fun hacc => absurd hacc.2.1 (not_le.mpr h2), ?_⟩
      rw [if_neg h1, if_pos h2]
    · by_cases h3 : Complex.normSq (m.a * star m.c + m.b * star m.d) >
          f64_EPSILON * 2 * (f64_EPSILON * 2)
      · right
        refine ⟨fun hacc => absurd hacc.2.2 (not_le.mpr h3), ?_⟩
        rw [if_neg h1, if_neg h2, if_pos h3]
      · left
        exact ⟨⟨not_lt.mp h1, not_lt.mp h2, not_lt.mp h3⟩,
          by rw [if_neg h1, if_neg h2, if_neg h3]⟩

theorem unitary2_accepts_imp_spec (m : Matrix2x2) (hacc : unitary2_accepts m) :
    spec_rowOrthonormalWithin m unitary2Tol := by
  obtain ⟨h1, h2, h3⟩ := hacc
  refine ⟨le_trans (abs_sqrt_sub_one_le _
      (add_nonneg (Complex.normSq_nonneg _) (Complex.normSq_nonneg _))) h1,
    le_trans (abs_sqrt_sub_one_le _
      (add_nonneg (Complex.normSq_nonneg _) (Complex.normSq_nonneg _))) h2, ?_⟩
  rw [Complex.abs_apply]
  calc Real.sqrt (Complex.normSq (m.a * star m.c + m.b * star m.d))
      ≤ Real.sqrt (unitary2Tol * unitary2Tol) := Real.sqrt_le_sqrt h3
    _ = unitary2Tol := Real.sqrt_mul_self (le_of_lt unitary2Tol_pos)

theorem unitary2_reject (m : Matrix2x2)
    (hd : unitary2Tol < |Real.sqrt (Complex.normSq m.a + Complex.normSq m.b) - 1| ∨
      unitary2Tol < |Real.sqrt (Complex.normSq m.c + Complex.normSq m.d) - 1| ∨
      unitary2Tol < Complex.abs (m.a * star m.c + m.b * star m.d)) :
    Unitary2.new m = .error .NonUnitaryMatrix := by
  have hna : ¬unitary2_accepts m := by
    intro hacc
    have hspec := unitary2_accepts_imp_spec m hacc
    rcases hd with h | h | h
    · exact absurd hspec.1 (not_le.mpr h)
    · exact absurd hspec.2.1 (not_le.mpr h)
    · exact absurd hspec.2.2 (not_le.mpr h)
  rcases Unitary2.new_spec m with ⟨ha, _⟩ | ⟨_, he⟩
  · exact absurd ha hna
  · exact he

/-- A matrix whose row norms deviate from 1 by more than the tolerance. -/
noncomputable def mBad : Matrix2x2 := { a := 0, b := 0, c := 0, d := 1 }

/-- A matrix that is row-orthonormal within the tolerance measured on the
row norms, yet rejected because the code tests the SQUARED norms: its first
row norm is 1 + (3/5)*tol, within tol of 1, but the squared norm deviates
by (6/5)*tol + ((3/5)*tol)^2 > tol. -/
noncomputable def mCE : Matrix2x2 :=
  { a := ((1 + 3 / 5 * unitary2Tol : ℝ) : ℂ), b := 0, c := 0, d := 1 }

/-- C9 counterexample: mCE satisfies the claim's row-orthonormality within
the construction tolerance, but Unitary2::new rejects it with
NonUnitaryMatrix, refuting the claim's accept direction. -/
theorem c9_counterexample :
    spec_rowOrthonormalWithin mCE unitary2Tol ∧
    Unitary2.new mCE = .error .NonUnitaryMatrix := by
  have hT := unitary2Tol_pos
  have hsA : Complex.normSq mCE.a =
      (1 + 3 / 5 * unitary2Tol) * (1 + 3 / 5 * unitary2Tol) := by
    have ha : mCE.a = ((1 + 3 / 5 * unitary2Tol : ℝ) : ℂ) := rfl
    rw [ha, Complex.normSq_ofReal]
  have hsB : Complex.normSq mCE.b = 0 := by simp [mCE]
  have hsC : Complex.normSq mCE.c = 0 := by simp [mCE]
  have hsD : Complex.normSq mCE.d = 1 := by simp [mCE]
  have hdot : mCE.a * star mCE.c + mCE.b * star mCE.d = 0 := by simp [mCE]
  constructor
  · refine ⟨?_, ?_, ?_⟩
    · rw [hsA, hsB, add_zero, Real.sqrt_mul_self (by linarith), add_sub_cancel_left,
        abs_of_nonneg (by linarith)]
      linarith
    · rw [hsC, hsD, zero_add, Real.sqrt_one, sub_self, abs_zero]
      exact le_of_lt hT
    · rw [hdot, map_zero]
      exact le_of_lt hT
  · have hgt : unitary2Tol < |Complex.normSq mCE.a + Complex.normSq mCE.b - 1| := by
      rw [hsA, hsB, add_zero]
      have hval : (1 + 3 / 5 * unitary2Tol) * (1 + 3 / 5 * unitary2Tol) - 1 =
          6 / 5 * unitary2Tol + (3 / 5 * unitary2Tol) * (3 / 5 * unitary2Tol) := by
        ring
      rw [hval, abs_of_nonneg (by nlinarith)]
      nlinarith
    have hna : ¬unitary2_accepts mCE := fun hacc => absurd hacc.1 (not_le.mpr hgt)
    rcases Unitary2.new_spec mCE with ⟨ha, _⟩ | ⟨_, he⟩
    · exact absurd ha hna
    · exact he

/-- C9 (amended): Unitary2::new returns NonUnitaryMatrix exactly when the
matrix fails the squared-quantity orthonormality test (squared row norms
within tol = 2 * f64::EPSILON of 1 and squared dot magnitude at most tol
squared); every error it returns is NonUnitaryMatrix; acceptance implies
the claim's row-orthonormality within tol; and any matrix whose row norms
deviate from 1 by more than tol, or whose row dot magnitude exceeds tol, is
rejected.  The original claim's converse (accepting every matrix that is
row-orthonormal within tol) is false: the code tests squared norms, which
roughly doubles the deviation of near-unit rows. -/
theorem c9_unitary2_tolerance :
    (∀ m : Matrix2x2, Unitary2.new m = .ok ⟨m⟩ ↔ unitary2_accepts m) ∧
    (∀ m : Matrix2x2, Unitary2.new m = .error .NonUnitaryMatrix ↔ ¬unitary2_accepts m) ∧
    (∀ (m : Matrix2x2) (e : Error), Unitary2.new m = .error e → e = .NonUnitaryMatrix) ∧
    (∀ m : Matrix2x2, unitary2_accepts m → spec_rowOrthonormalWithin m unitary2Tol) ∧
    (∀ m : Matrix2x2,
      unitary2Tol < |Real.sqrt (Complex.normSq m.a + Complex.normSq m.b) - 1| ∨
      unitary2Tol < |Real.sqrt (Complex.normSq m.c + Complex.normSq m.d) - 1| ∨
      unitary2Tol < Complex.abs (m.a * star m.c + m.b * star m.d) →
      Unitary2.new m = .error .NonUnitaryMatrix) := by
  refine ⟨?_, ?_, ?_, unitary2_accepts_imp_spec, unitary2_reject⟩
  · intro m
    rcases Unitary2.new_spec m with ⟨ha, he⟩ | ⟨ha, he⟩
    · rw [he]
      exact iff_of_true rfl ha
    · rw [he]
      exact iff_of_false (by simp) ha
  · intro m
    rcases Unitary2.new_spec m with ⟨ha, he⟩ | ⟨ha, he⟩
    · rw [he]
      exact iff_of_false (by simp) (fun hn => hn ha)
    · rw [he]
      exact iff_of_true rfl ha
  · intro m e h
    rcases Unitary2.new_spec m with ⟨_, he⟩ | ⟨_, he⟩
    · rw [he] at h
      exact absurd h (by simp)
    · rw [he] at h
      simpa using h.symm

/-- C9 witness: a matrix with a zero first row is rejected. -/
theorem c9_unitary2_tolerance_witness :
    unitary2Tol < |Real.sqrt (Complex.normSq mBad.a + Complex.normSq mBad.b) - 1| ∧
    Unitary2.new mBad = .error .NonUnitaryMatrix := by
  have h : unitary2Tol < |Real.sqrt (Complex.normSq mBad.a + Complex.normSq mBad.b) - 1| := by
    have hz : Complex.normSq mBad.a + Complex.normSq mBad.b = 0 := by
      simp [mBad]
    rw [hz, Real.sqrt_zero, show |(0:ℝ) - 1| = 1 by norm_num]
    exact unitary2Tol_lt_one
  exact ⟨h, c9_unitary2_tolerance.2.2.2.2 mBad (Or.inl h)⟩

end QuantIron
